import Mathlib

/-!
# The MCP server core (`pkg/mcp`): embedding and verified properties

The engine of `pkg/mcp/server.go` is embedded as pure functions over an explicit
server state. The parameter handling of the configuration generator
(`tools/receptor-config-gen/main.go`) is embedded in the namespace `ConfigGen`, over
the outcomes of its file and template operations.

Conventions of the embedding:

* `encoding/json` is seen at the level of JSON values. An input line is either
  rejected by the JSON reader or is a document (`Line`); struct decoding,
  case-insensitive member matching and the canonical re-encoding of Go values
  (`Json.norm`) are defined on documents.
* A Go `interface{}` that came out of the decoder is a `Json` value, with
  `Json.null` standing for the nil interface; its numbers are float64 values
  (`Number.toFloat64`), written by their exact decimal value.
* A Go value the program itself puts into an `interface{}` (the result of a
  registered handler, an entry of a tool's input schema) is a `GoValue`: its `%v`
  rendering and its encoding by `json.Marshal`, if it has one.
* A handler is a deterministic, terminating function of its raw arguments; the
  cancellation context and the logger are left out.
* Every processing function returns the state afterwards, the frames written to
  the output writer (in order) and the handler invocations made (in the order they
  begin). An invocation is recorded by the function that stands for the Go call
  `handler(ctx, params)` (`Server.invoke`, `callCapability`), with what the handler
  returned.
* `Run` is defined over the sequence of results of its reads and the instant at
  which the context is cancelled; it returns the lines it hands to new goroutines
  and its error. The goroutines themselves are not run by `Run`: what they do
  to the shared writer is described by the interleavings of their writer calls.
-/

namespace MCP

/-! ## JSON values -/

/-- Value of a JSON number literal: `digits × 10 ^ exp10`, negated when `neg`
(`1.5e3` is `15 × 10 ^ 2`). A number that came out of the decoder is a float64 and is
written by its exact decimal value: with `exp10 = 0` when it is a whole number, without
trailing zeros otherwise. -/
structure Number where
  neg : Bool
  digits : Nat
  exp10 : Int
  deriving DecidableEq

/-- The whole number `n`, as written by the numeral. -/
instance (n : Nat) : OfNat Number n := ⟨{ neg := false, digits := n, exp10 := 0 }⟩

/-- The literal as text, in the form digits `e` exponent. -/
def Number.literal (x : Number) : String :=
  (if x.neg then "-" else "") ++ toString x.digits ++
    (if x.exp10 = 0 then "" else "e" ++ toString x.exp10)

/-- Number of binary digits of `n` (`0` for `0`); `fuel` bounds the halvings. -/
def bitLength : Nat → Nat → Nat
  | 0, _ => 0
  | fuel + 1, n => if n = 0 then 0 else bitLength fuel (n / 2) + 1

/-- The fraction `num / den` divided by `2 ^ k`, as numerator and denominator. -/
def scaleBy (num den : Nat) : Int → Nat × Nat
  | .ofNat e => (num, den * 2 ^ e)
  | .negSucc e => (num * 2 ^ (e + 1), den)

/-- The float64 nearest to `num / den` (for positive `num` and `den`), a tie going to
the even significand, without regard to the upper end of the range: a pair `(q, k)` that
stands for `q × 2 ^ k`, where `q ≤ 2 ^ 53` and `k`, the weight of the last binary
place, is not below `-1074` (the subnormal numbers). -/
def nearestFloat64 (num den : Nat) : Nat × Int :=
  let k0 : Int := (bitLength num num : Int) - (bitLength den den : Int) - 53
  let s0 := scaleBy num den k0
  let k1 : Int := if 2 ^ 53 ≤ s0.1 / s0.2 then k0 + 1 else k0
  let k : Int := if k1 < -1074 then -1074 else k1
  let s := scaleBy num den k
  let q := s.1 / s.2
  let r := s.1 % s.2
  if s.2 < 2 * r ∨ (2 * r = s.2 ∧ q % 2 = 1) then (q + 1, k) else (q, k)

/-- Drop trailing zeros of the digits while the power of ten is negative. -/
def stripZeros : Nat → Number → Number
  | 0, x => x
  | fuel + 1, x =>
    if x.exp10 < 0 ∧ x.digits % 10 = 0 then
      stripZeros fuel { x with digits := x.digits / 10, exp10 := x.exp10 + 1 }
    else x

/-- Exact decimal value of `q × 2 ^ k`. -/
def exactDecimal (neg : Bool) (q : Nat) : Int → Number
  | .ofNat e => { neg := neg, digits := q * 2 ^ e, exp10 := 0 }
  | .negSucc e =>
    stripZeros (e + 1) { neg := neg, digits := q * 5 ^ (e + 1), exp10 := .negSucc e }

/-- Go `strconv.ParseFloat(s, 64)` on a number literal: the nearest float64, or `none`
when the literal is out of range, which is beyond the largest float64
`(2 ^ 53 - 1) × 2 ^ 971` by half a unit of its last place or more. A literal too
small for a float64 gives zero. -/
def Number.toFloat64 (x : Number) : Option Number :=
  if x.digits = 0 then some { neg := x.neg, digits := 0, exp10 := 0 }
  else
    let f :=
      match x.exp10 with
      | .ofNat e => nearestFloat64 (x.digits * 10 ^ e) 1
      | .negSucc e => nearestFloat64 x.digits (10 ^ (e + 1))
    match f.2 with
    | .ofNat e =>
      if 971 < e ∨ (e = 971 ∧ 2 ^ 53 ≤ f.1) then none else some (exactDecimal x.neg f.1 f.2)
    | .negSucc _ => some (exactDecimal x.neg f.1 f.2)

/-- JSON document as read from the wire: object members are kept in document order,
numbers are the literals written. -/
inductive Json where
  | null
  | bool (b : Bool)
  | num (x : Number)
  | str (s : String)
  | arr (xs : List Json)
  | obj (kvs : List (String × Json))

/-- Go test `v == nil` on a decoded `interface{}`. -/
def Json.isNull : Json → Bool
  | .null => true
  | _ => false

/-- Whether the document is a JSON object. -/
def Json.isObject : Json → Bool
  | .obj _ => true
  | _ => false

/-- Name `encoding/json` gives to the kind of a value in its type errors. -/
def Json.kind : Json → String
  | .null => "null"
  | .bool _ => "bool"
  | .num _ => "number"
  | .str _ => "string"
  | .arr _ => "array"
  | .obj _ => "object"

/-- Code-point order on character lists (the byte order of the UTF-8 encodings). -/
def ltChars : List Char → List Char → Bool
  | _, [] => false
  | [], _ :: _ => true
  | a :: as, b :: bs =>
    if a.toNat < b.toNat then true
    else if b.toNat < a.toNat then false
    else ltChars as bs

/-- Order in which `json.Marshal` emits the keys of a map. -/
def keyLt (a b : String) : Bool := ltChars a.data b.data

/-- Put member `k` into a key-sorted member list, unless the key is already there
(the list holds the members that came later in the document, which win). -/
def insertKey (k : String) (v : Json) : List (String × Json) → List (String × Json)
  | [] => [(k, v)]
  | (k', v') :: rest =>
    if k = k' then (k', v') :: rest
    else if keyLt k k' then (k, v) :: (k', v') :: rest
    else (k', v') :: insertKey k v rest

/-- Go `convertNumber` of the decoder, for a number met while decoding into the
struct field `field`: the float64 of the literal, or the type error for a literal out
of range. -/
def convertNumber (field : String) (x : Number) : Except String Number :=
  match x.toFloat64 with
  | some f => .ok f
  | none =>
    .error ("json: cannot unmarshal number " ++ x.literal ++ " into Go struct field " ++
      field ++ " of type float64")

mutual
/-- The numbers of a document decoded into an `interface{}`, in document order: each
becomes a float64; the first literal out of range gives the error. -/
def Json.convertNumbers (field : String) : Json → Except String Json
  | .num x => (convertNumber field x).map .num
  | .arr xs => (convertList field xs).map .arr
  | .obj kvs => (convertMembers field kvs).map .obj
  | j => .ok j
/-- `Json.convertNumbers` on the elements of an array. -/
def convertList (field : String) : List Json → Except String (List Json)
  | [] => .ok []
  | x :: xs =>
    match x.convertNumbers field with
    | .error e => .error e
    | .ok y => (convertList field xs).map (fun ys => y :: ys)
/-- `Json.convertNumbers` on the members of an object. -/
def convertMembers (field : String) : List (String × Json) → Except String (List (String × Json))
  | [] => .ok []
  | (k, v) :: rest =>
    match v.convertNumbers field with
    | .error e => .error e
    | .ok w => (convertMembers field rest).map (fun ms => (k, w) :: ms)
end

mutual
/-- Canonical form of a value held in an `interface{}` as `json.Marshal` writes it:
objects are maps (a repeated key keeps its last value) and are written with sorted
keys. -/
def Json.norm : Json → Json
  | .arr xs => .arr (normList xs)
  | .obj kvs => .obj (normMembers kvs)
  | j => j
/-- `Json.norm` on the elements of an array. -/
def normList : List Json → List Json
  | [] => []
  | x :: xs => x.norm :: normList xs
/-- `Json.norm` on the members of an object. -/
def normMembers : List (String × Json) → List (String × Json)
  | [] => []
  | (k, v) :: rest => insertKey k v.norm (normMembers rest)
end

/-- Decoding of a document into an `interface{}` (field `field` of a struct): maps,
slices, strings, booleans and float64 numbers, held in canonical form. -/
def decodeInterface (field : String) (v : Json) : Except String Json :=
  (v.convertNumbers field).map Json.norm

/-- `json.RawMessage`: `none` is the nil (empty) byte slice, `some j` the encoding of `j`. -/
abbrev RawMessage := Option Json

/-- `json.Marshal` on a value that came out of the decoder; it has no failing case. -/
def jsonMarshal (v : Json) : Except String Json := .ok v.norm

/-- `json.Marshal` on a `map[string]interface{}`; `none` is the nil map, written `null`. -/
def jsonMarshalMap : Option (List (String × Json)) → Json
  | none => .null
  | some kvs => (Json.obj kvs).norm

/-- One line of input as `json.Unmarshal` sees it. -/
inductive Line where
  /-- Bytes the JSON reader rejects, with the reader's message. -/
  | invalid (err : String)
  /-- Bytes that are one JSON document. -/
  | doc (j : Json)

/-! ## Wire-format types (`types.go`) -/

def MCPVersion : String := "2024-11-05"

def ParseError : Int := -32700
def InvalidRequest : Int := -32600
def MethodNotFound : Int := -32601
def InvalidParams : Int := -32602
def InternalError : Int := -32603
def InvalidRequestError : Int := -32000
def InternalServerError : Int := -32001

structure JSONRPCRequest where
  JSONRPC : String
  ID : Json
  Method : String
  Params : Json

structure JSONRPCError where
  Code : Int
  Message : String
  Data : Json

structure RootsCapability where
  ListChanged : Bool

structure SamplingCapability where

structure LoggingCapability where

structure PromptsCapability where
  ListChanged : Bool

structure ResourcesCapability where
  Subscribe : Bool
  ListChanged : Bool

structure ToolsCapability where
  ListChanged : Bool

structure ClientCapabilities where
  Roots : Option RootsCapability
  Sampling : Option SamplingCapability

structure ServerCapabilities where
  Logging : Option LoggingCapability
  Prompts : Option PromptsCapability
  Resources : Option ResourcesCapability
  Tools : Option ToolsCapability

structure ClientInfo where
  Name : String
  Version : String

structure ServerInfo where
  Name : String
  Version : String

structure InitializeRequest where
  ProtocolVersion : String
  Capabilities : ClientCapabilities
  ClientInfo : ClientInfo

structure InitializeResponse where
  ProtocolVersion : String
  Capabilities : ServerCapabilities
  ServerInfo : ServerInfo

/-- Go value the program holds in an `interface{}` (the non-nil result of a
registered handler, an entry of an input schema), seen through the two things the
engine does with it: print it with `%v` and hand it to `json.Marshal`. -/
structure GoValue where
  /-- Rendering by `fmt.Sprintf("%v", v)`. -/
  text : String
  /-- Encoding by `json.Marshal`; `none` when the encoder rejects the value. -/
  wire : Option Json

structure Tool where
  Name : String
  Description : String
  /-- Entries of the Go map `map[string]interface{}`, which the registering program
  fills with values of any type. -/
  InputSchema : List (String × GoValue)

/-- Whether `json.Marshal` accepts the tool descriptor: every entry of its input
schema must be encodable. -/
def Tool.encodable (t : Tool) : Bool := t.InputSchema.all (fun e => e.2.wire.isSome)

structure ToolsListResponse where
  Tools : List Tool

structure ToolsCallRequest where
  Name : String
  Arguments : Option (List (String × Json))

structure Content where
  /-- Go field `Type` (a reserved word here). -/
  Typ : String
  Text : String
  Annotations : Option (List (String × Json))

structure ToolsCallResponse where
  Content : List Content
  IsError : Bool

structure Resource where
  URI : String
  Name : String
  Description : String
  MimeType : String

structure ResourcesListResponse where
  Resources : List Resource

structure ResourcesReadRequest where
  URI : String

structure PromptArgument where
  Name : String
  Description : String
  Required : Bool

structure Prompt where
  Name : String
  Description : String
  Arguments : List PromptArgument

structure PromptsListResponse where
  Prompts : List Prompt

structure PromptsGetRequest where
  Name : String
  Arguments : Option (List (String × Json))

/-- Value of the `interface{}` result of a handler. -/
inductive Value where
  | nil
  | initializeResponse (r : InitializeResponse)
  | toolsList (r : ToolsListResponse)
  | toolsCall (r : ToolsCallResponse)
  | resourcesList (r : ResourcesListResponse)
  | promptsList (r : PromptsListResponse)
  | boxed (v : GoValue)

/-- Result of a registered handler as a `Value`. -/
def Value.ofHandler : Option GoValue → Value
  | none => .nil
  | some v => .boxed v

/-- Go test `v == nil` on a handler result. -/
def Value.isNil : Value → Bool
  | .nil => true
  | _ => false

/-- Whether `json.Marshal` accepts the value: the result of a registered handler may
be of a type the encoder rejects, and a tool list holds the input schemas. -/
def Value.encodable : Value → Bool
  | .boxed v => v.wire.isSome
  | .toolsList r => r.Tools.all Tool.encodable
  | _ => true

/-- `fmt.Sprintf("%v", result)` on the result of a registered handler. -/
def formatValue : Option GoValue → String
  | none => "<nil>"
  | some v => v.text

structure JSONRPCResponse where
  JSONRPC : String
  ID : Json
  Result : Value
  Error : Option JSONRPCError

/-- Whether the encoded response has an `id` member (`json:"id,omitempty"`). -/
def JSONRPCResponse.hasID (r : JSONRPCResponse) : Bool := !r.ID.isNull

/-- Whether the encoded response has a `result` member (`json:"result,omitempty"`). -/
def JSONRPCResponse.hasResult (r : JSONRPCResponse) : Bool := !r.Result.isNil

/-- Whether the encoded response has an `error` member (`json:"error,omitempty"`). -/
def JSONRPCResponse.hasError (r : JSONRPCResponse) : Bool := r.Error.isSome

/-! ## Decoding into structs (`json.Unmarshal`) -/

/-- Smallest rune of the case-folding class of `c`, as far as classes of ASCII
letters go: lower case maps to upper case, and U+017F and U+212A fold to S and K. -/
def foldRune (c : Char) : Char :=
  if 97 ≤ c.toNat ∧ c.toNat ≤ 122 then Char.ofNat (c.toNat - 32)
  else if c.toNat = 0x17F then 'S'
  else if c.toNat = 0x212A then 'K'
  else c

/-- Folded form of a member name, under which struct fields are looked up. -/
def foldName (s : String) : List Char := s.data.map foldRune

/-- Whether object key `key` selects the struct field tagged `field`. -/
def nameIs (key field : String) : Bool := foldName key == foldName field

/-- Message of an `UnmarshalTypeError`. -/
def typeError (v : Json) (field goType : String) : String :=
  "json: cannot unmarshal " ++ v.kind ++ " into Go struct field " ++ field ++
    " of type " ++ goType

/-- Decode a JSON value into a `string` field holding `cur`. -/
def decodeString (field : String) (cur : String) : Json → Except String String
  | .str s => .ok s
  | .null => .ok cur
  | v => .error (typeError v field "string")

/-- Decode a JSON value into a `bool` field holding `cur`. -/
def decodeBool (field : String) (cur : Bool) : Json → Except String Bool
  | .bool b => .ok b
  | .null => .ok cur
  | v => .error (typeError v field "bool")

/-- Decode a JSON value into a `map[string]interface{}` field holding `cur`: the
members of an object are decoded and stored into the existing map, `null` makes the
map nil. -/
def decodeMap (field : String) (cur : Option (List (String × Json))) :
    Json → Except String (Option (List (String × Json)))
  | .obj kvs => (convertMembers field kvs).map (fun ms => some (normMembers (cur.getD [] ++ ms)))
  | .null => .ok none
  | v => .error (typeError v field "map[string]interface \x7b\x7d")

/-- Decode a JSON value into a struct holding `cur`: `null` leaves it as it is, an
object sets one field per member in order, anything else is a type error. -/
def decodeStruct {σ : Type} (goType : String) (setField : σ → String → Json → Except String σ)
    (cur : σ) : Json → Except String σ
  | .null => .ok cur
  | .obj kvs => kvs.foldlM (fun acc kv => setField acc kv.1 kv.2) cur
  | v => .error ("json: cannot unmarshal " ++ v.kind ++ " into Go value of type " ++ goType)

/-- Decode a JSON value into a pointer-to-struct field holding `cur`. -/
def decodePtr {σ : Type} (goType : String) (setField : σ → String → Json → Except String σ)
    (zero : σ) (cur : Option σ) : Json → Except String (Option σ)
  | .null => .ok none
  | v => (decodeStruct goType setField (cur.getD zero) v).map some

/-- `json.Unmarshal(data, &v)` for a struct `v` holding `zero`. -/
def unmarshalStruct {σ : Type} (goType : String)
    (setField : σ → String → Json → Except String σ) (zero : σ) : RawMessage → Except String σ
  | none => .error "unexpected end of JSON input"
  | some j => decodeStruct goType setField zero j

def JSONRPCRequest.setField (req : JSONRPCRequest) (key : String) (v : Json) :
    Except String JSONRPCRequest :=
  if nameIs key "jsonrpc" then
    (decodeString "JSONRPCRequest.jsonrpc" req.JSONRPC v).map (fun s => { req with JSONRPC := s })
  else if nameIs key "id" then
    (decodeInterface "JSONRPCRequest.id" v).map (fun x => { req with ID := x })
  else if nameIs key "method" then
    (decodeString "JSONRPCRequest.method" req.Method v).map (fun s => { req with Method := s })
  else if nameIs key "params" then
    (decodeInterface "JSONRPCRequest.params" v).map (fun x => { req with Params := x })
  else .ok req

/-- `json.Unmarshal(data, &req)` of `processMessage`. -/
def unmarshalRequest : Line → Except String JSONRPCRequest
  | .invalid err => .error err
  | .doc j =>
    decodeStruct "mcp.JSONRPCRequest" JSONRPCRequest.setField
      { JSONRPC := "", ID := .null, Method := "", Params := .null } j

def RootsCapability.setField (c : RootsCapability) (key : String) (v : Json) :
    Except String RootsCapability :=
  if nameIs key "listChanged" then
    (decodeBool "InitializeRequest.capabilities.roots.listChanged" c.ListChanged v).map
      (fun b => { c with ListChanged := b })
  else .ok c

def SamplingCapability.setField (c : SamplingCapability) (_key : String) (_v : Json) :
    Except String SamplingCapability := .ok c

def ClientCapabilities.setField (c : ClientCapabilities) (key : String) (v : Json) :
    Except String ClientCapabilities :=
  if nameIs key "roots" then
    (decodePtr "mcp.RootsCapability" RootsCapability.setField { ListChanged := false }
      c.Roots v).map (fun r => { c with Roots := r })
  else if nameIs key "sampling" then
    (decodePtr "mcp.SamplingCapability" SamplingCapability.setField {} c.Sampling v).map
      (fun r => { c with Sampling := r })
  else .ok c

def ClientInfo.setField (c : ClientInfo) (key : String) (v : Json) : Except String ClientInfo :=
  if nameIs key "name" then
    (decodeString "InitializeRequest.clientInfo.name" c.Name v).map (fun s => { c with Name := s })
  else if nameIs key "version" then
    (decodeString "InitializeRequest.clientInfo.version" c.Version v).map
      (fun s => { c with Version := s })
  else .ok c

def InitializeRequest.setField (r : InitializeRequest) (key : String) (v : Json) :
    Except String InitializeRequest :=
  if nameIs key "protocolVersion" then
    (decodeString "InitializeRequest.protocolVersion" r.ProtocolVersion v).map
      (fun s => { r with ProtocolVersion := s })
  else if nameIs key "capabilities" then
    (decodeStruct "mcp.ClientCapabilities" ClientCapabilities.setField r.Capabilities v).map
      (fun c => { r with Capabilities := c })
  else if nameIs key "clientInfo" then
    (decodeStruct "mcp.ClientInfo" ClientInfo.setField r.ClientInfo v).map
      (fun c => { r with ClientInfo := c })
  else .ok r

/-- `json.Unmarshal(params, &req)` of `handleInitialize`. -/
def unmarshalInitialize : RawMessage → Except String InitializeRequest :=
  unmarshalStruct "mcp.InitializeRequest" InitializeRequest.setField
    { ProtocolVersion := "", Capabilities := { Roots := none, Sampling := none },
      ClientInfo := { Name := "", Version := "" } }

def ToolsCallRequest.setField (r : ToolsCallRequest) (key : String) (v : Json) :
    Except String ToolsCallRequest :=
  if nameIs key "name" then
    (decodeString "ToolsCallRequest.name" r.Name v).map (fun s => { r with Name := s })
  else if nameIs key "arguments" then
    (decodeMap "ToolsCallRequest.arguments" r.Arguments v).map (fun a => { r with Arguments := a })
  else .ok r

/-- `json.Unmarshal(params, &req)` of `handleToolsCall`. -/
def unmarshalToolsCall : RawMessage → Except String ToolsCallRequest :=
  unmarshalStruct "mcp.ToolsCallRequest" ToolsCallRequest.setField { Name := "", Arguments := none }

def ResourcesReadRequest.setField (r : ResourcesReadRequest) (key : String) (v : Json) :
    Except String ResourcesReadRequest :=
  if nameIs key "uri" then
    (decodeString "ResourcesReadRequest.uri" r.URI v).map (fun s => { r with URI := s })
  else .ok r

/-- `json.Unmarshal(params, &req)` of `handleResourcesRead`. -/
def unmarshalResourcesRead : RawMessage → Except String ResourcesReadRequest :=
  unmarshalStruct "mcp.ResourcesReadRequest" ResourcesReadRequest.setField { URI := "" }

def PromptsGetRequest.setField (r : PromptsGetRequest) (key : String) (v : Json) :
    Except String PromptsGetRequest :=
  if nameIs key "name" then
    (decodeString "PromptsGetRequest.name" r.Name v).map (fun s => { r with Name := s })
  else if nameIs key "arguments" then
    (decodeMap "PromptsGetRequest.arguments" r.Arguments v).map (fun a => { r with Arguments := a })
  else .ok r

/-- `json.Unmarshal(params, &req)` of `handlePromptsGet`. -/
def unmarshalPromptsGet : RawMessage → Except String PromptsGetRequest :=
  unmarshalStruct "mcp.PromptsGetRequest" PromptsGetRequest.setField { Name := "", Arguments := none }

/-! ## The server (`server.go`) -/

/-- Go `map[string]α`, as the list of its entries; a key occurs at most once when
the map is built by `GoMap.set` from `GoMap.empty`. Iteration order, which Go
leaves unspecified, is here the order of first insertion. -/
structure GoMap (α : Type) where
  entries : List (String × α)

def GoMap.empty {α : Type} : GoMap α := ⟨[]⟩

/-- Entry lookup on the entry list. -/
def GoMap.find {α : Type} : List (String × α) → String → Option α
  | [], _ => none
  | (k', v) :: rest, k => if k' = k then some v else GoMap.find rest k

/-- Entry store on the entry list: replaces the value of an existing key. -/
def GoMap.store {α : Type} : List (String × α) → String → α → List (String × α)
  | [], k, v => [(k, v)]
  | (k', v') :: rest, k, v =>
    if k' = k then (k, v) :: rest else (k', v') :: GoMap.store rest k v

/-- Go `v, exists := m[k]`. -/
def GoMap.get {α : Type} (m : GoMap α) (k : String) : Option α := GoMap.find m.entries k

/-- Go `m[k] = v`. -/
def GoMap.set {α : Type} (m : GoMap α) (k : String) (v : α) : GoMap α :=
  ⟨GoMap.store m.entries k v⟩

/-- Values met by `for _, v := range m`. -/
def GoMap.values {α : Type} (m : GoMap α) : List α := m.entries.map Prod.snd

/-- Keys of the map. -/
def GoMap.keys {α : Type} (m : GoMap α) : List String := m.entries.map Prod.fst

/-- The eight methods of `Server` that `registerCoreHandlers` stores as handlers. -/
inductive Core where
  | handleInitialize
  | handleInitialized
  | handleToolsList
  | handleToolsCall
  | handleResourcesList
  | handleResourcesRead
  | handlePromptsList
  | handlePromptsGet
  deriving DecidableEq

/-- Handler function passed to `RegisterTool`, `RegisterResource` or `RegisterPrompt`:
from the raw arguments to a result (`none` is a nil result) or an error message. -/
abbrev UserHandler := RawMessage → Except String (Option GoValue)

/-- Go type `Handler`, a value of the `handlers` map: one of the server's own
methods, or a function handed in at registration. -/
inductive Handler where
  | core (c : Core)
  | registered (h : UserHandler)

structure Server where
  info : ServerInfo
  capabilities : ServerCapabilities
  tools : GoMap Tool
  resources : GoMap Resource
  prompts : GoMap Prompt
  handlers : GoMap Handler
  initialized : Bool

def registerCoreHandlers (s : Server) : Server :=
  let h := s.handlers.set "initialize" (.core .handleInitialize)
  let h := h.set "initialized" (.core .handleInitialized)
  let h := h.set "tools/list" (.core .handleToolsList)
  let h := h.set "tools/call" (.core .handleToolsCall)
  let h := h.set "resources/list" (.core .handleResourcesList)
  let h := h.set "resources/read" (.core .handleResourcesRead)
  let h := h.set "prompts/list" (.core .handlePromptsList)
  let h := h.set "prompts/get" (.core .handlePromptsGet)
  { s with handlers := h }

def NewServer (name version : String) : Server :=
  registerCoreHandlers
    { info := { Name := name, Version := version }
      capabilities :=
        { Logging := some {}
          Tools := some { ListChanged := false }
          Resources := some { Subscribe := false, ListChanged := false }
          Prompts := some { ListChanged := false } }
      tools := GoMap.empty
      resources := GoMap.empty
      prompts := GoMap.empty
      handlers := GoMap.empty
      initialized := false }

def Server.RegisterTool (s : Server) (tool : Tool) (handler : UserHandler) : Server :=
  { s with
    tools := s.tools.set tool.Name tool
    handlers := s.handlers.set ("tool_" ++ tool.Name) (.registered handler) }

def Server.RegisterResource (s : Server) (resource : Resource) (handler : UserHandler) : Server :=
  { s with
    resources := s.resources.set resource.URI resource
    handlers := s.handlers.set ("resource_" ++ resource.URI) (.registered handler) }

def Server.RegisterPrompt (s : Server) (prompt : Prompt) (handler : UserHandler) : Server :=
  { s with
    prompts := s.prompts.set prompt.Name prompt
    handlers := s.handlers.set ("prompt_" ++ prompt.Name) (.registered handler) }

def Server.IsInitialized (s : Server) : Bool := s.initialized

/-- One handler invocation: the key of the `handlers` map under which the handler
was found, the raw arguments it was given, and the `(interface{}, error)` pair it
returned. -/
structure Call where
  key : String
  params : RawMessage
  result : Except String Value

/-- What running a handler yields: the state afterwards, the returned
`(interface{}, error)` pair, and the handlers it invoked in turn. -/
structure Reply where
  server : Server
  result : Except String Value
  calls : List Call

/-- What processing one frame yields: the state afterwards, the response frames
written to the writer (each one line), and the handlers invoked. -/
structure Step where
  server : Server
  output : List JSONRPCResponse
  calls : List Call

/-- What the call of a capability handler yields: the returned pair, and the record
of the invocation. -/
structure Called where
  result : Except String (Option GoValue)
  calls : List Call

/-- Go call `handler(ctx, params)` on a handler found by a capability lookup under
`key` (`tool_…`, `resource_…`, `prompt_…`): the handler is applied to the arguments and
the invocation is recorded. Registration only ever stores `registered` handlers under
such keys; a built-in method found there would re-enter the dispatcher, which is
outside this model (`none`). -/
def callCapability (key : String) (handler : Handler) (params : RawMessage) : Option Called :=
  match handler with
  | .registered h =>
    let result := h params
    some { result := result
           calls := [{ key := key, params := params, result := result.map Value.ofHandler }] }
  | .core _ => none

def handleInitialize (s : Server) (params : RawMessage) : Option Reply :=
  match unmarshalInitialize params with
  | .error err =>
    some { server := s, result := .error ("invalid initialize request: " ++ err), calls := [] }
  | .ok _ =>
    some { server := s
           result := .ok (.initializeResponse
             { ProtocolVersion := MCPVersion, Capabilities := s.capabilities, ServerInfo := s.info })
           calls := [] }

def handleInitialized (s : Server) (_params : RawMessage) : Option Reply :=
  some { server := { s with initialized := true }, result := .ok .nil, calls := [] }

def handleToolsList (s : Server) (_params : RawMessage) : Option Reply :=
  some { server := s, result := .ok (.toolsList { Tools := s.tools.values }), calls := [] }

def handleToolsCall (s : Server) (params : RawMessage) : Option Reply :=
  match unmarshalToolsCall params with
  | .error err =>
    some { server := s, result := .error ("invalid tools/call request: " ++ err), calls := [] }
  | .ok req =>
    match s.handlers.get ("tool_" ++ req.Name) with
    | none => some { server := s, result := .error ("tool not found: " ++ req.Name), calls := [] }
    | some handler =>
      let argsBytes : RawMessage := some (jsonMarshalMap req.Arguments)
      match callCapability ("tool_" ++ req.Name) handler argsBytes with
      | none => none
      | some { result := .error err, calls := calls } =>
        some { server := s
               result := .ok (.toolsCall
                 { Content := [{ Typ := "text"
                                 Text := "Error executing tool " ++ req.Name ++ ": " ++ err
                                 Annotations := none }]
                   IsError := true })
               calls := calls }
      | some { result := .ok result, calls := calls } =>
        some { server := s
               result := .ok (.toolsCall
                 { Content := [{ Typ := "text", Text := formatValue result, Annotations := none }]
                   IsError := false })
               calls := calls }

def handleResourcesList (s : Server) (_params : RawMessage) : Option Reply :=
  some { server := s
         result := .ok (.resourcesList { Resources := s.resources.values }), calls := [] }

def handleResourcesRead (s : Server) (params : RawMessage) : Option Reply :=
  match unmarshalResourcesRead params with
  | .error err =>
    some { server := s, result := .error ("invalid resources/read request: " ++ err), calls := [] }
  | .ok req =>
    match s.handlers.get ("resource_" ++ req.URI) with
    | none =>
      some { server := s, result := .error ("resource not found: " ++ req.URI), calls := [] }
    | some handler =>
      match callCapability ("resource_" ++ req.URI) handler params with
      | none => none
      | some called =>
        some { server := s, result := called.result.map Value.ofHandler, calls := called.calls }

def handlePromptsList (s : Server) (_params : RawMessage) : Option Reply :=
  some { server := s, result := .ok (.promptsList { Prompts := s.prompts.values }), calls := [] }

def handlePromptsGet (s : Server) (params : RawMessage) : Option Reply :=
  match unmarshalPromptsGet params with
  | .error err =>
    some { server := s, result := .error ("invalid prompts/get request: " ++ err), calls := [] }
  | .ok req =>
    match s.handlers.get ("prompt_" ++ req.Name) with
    | none => some { server := s, result := .error ("prompt not found: " ++ req.Name), calls := [] }
    | some handler =>
      match callCapability ("prompt_" ++ req.Name) handler params with
      | none => none
      | some called =>
        some { server := s, result := called.result.map Value.ofHandler, calls := called.calls }

/-- The body of a built-in method. -/
def Core.run (c : Core) (s : Server) (params : RawMessage) : Option Reply :=
  match c with
  | .handleInitialize => MCP.handleInitialize s params
  | .handleInitialized => MCP.handleInitialized s params
  | .handleToolsList => MCP.handleToolsList s params
  | .handleToolsCall => MCP.handleToolsCall s params
  | .handleResourcesList => MCP.handleResourcesList s params
  | .handleResourcesRead => MCP.handleResourcesRead s params
  | .handlePromptsList => MCP.handlePromptsList s params
  | .handlePromptsGet => MCP.handlePromptsGet s params

/-- Go call `handler(ctx, params)` on the value of the `handlers` map found under
`key`: the handler runs on the arguments, and the invocation is recorded ahead of the
invocations the handler made in turn. -/
def Server.invoke (s : Server) (key : String) (handler : Handler) (params : RawMessage) :
    Option Reply :=
  match handler with
  | .core c =>
    match c.run s params with
    | none => none
    | some r =>
      some { r with calls := { key := key, params := params, result := r.result } :: r.calls }
  | .registered h =>
    let result := (h params).map Value.ofHandler
    some { server := s, result := result
           calls := [{ key := key, params := params, result := result }] }

/-- `json.Marshal(response)` of `sendResponse`: fails on a result the encoder rejects. -/
def jsonMarshalResponse (response : JSONRPCResponse) : Except String JSONRPCResponse :=
  if response.Result.encodable then .ok response
  else .error "json: unsupported value"

/-- Frames `sendResponse` writes: the encoded response as one line, or nothing
when encoding fails (the failure is only logged). -/
def sendResponse (response : JSONRPCResponse) : List JSONRPCResponse :=
  match jsonMarshalResponse response with
  | .error _ => []
  | .ok data => [data]

def sendError (id : Json) (code : Int) (message data : String) : List JSONRPCResponse :=
  sendResponse
    { JSONRPC := "2.0", ID := id, Result := .nil
      Error := some { Code := code, Message := message, Data := .str data } }

/-- The `params` a handler is given for request params `p`: nil when `p` is nil,
else the bytes `json.Marshal(p)`; fails when the encoder does. -/
def marshalParams (p : Json) : Except String RawMessage :=
  if p.isNull then .ok none else (jsonMarshal p).map some

def handleRequest (s : Server) (req : JSONRPCRequest) : Option Step :=
  match s.handlers.get req.Method with
  | none =>
    some { server := s
           output := sendError req.ID MethodNotFound "Method not found" req.Method
           calls := [] }
  | some handler =>
    match marshalParams req.Params with
    | .error err =>
      some { server := s, output := sendError req.ID InvalidParams "Invalid params" err
             calls := [] }
    | .ok params =>
      match s.invoke req.Method handler params with
      | none => none
      | some r =>
        match r.result with
        | .error err =>
          some { server := r.server
                 output := sendError req.ID InternalError "Internal error" err
                 calls := r.calls }
        | .ok result =>
          some { server := r.server
                 output := sendResponse
                   { JSONRPC := "2.0", ID := req.ID, Result := result, Error := none }
                 calls := r.calls }

def handleNotification (s : Server) (req : JSONRPCRequest) : Option Step :=
  match s.handlers.get req.Method with
  | none => some { server := s, output := [], calls := [] }
  | some handler =>
    let params : RawMessage :=
      match marshalParams req.Params with
      | .ok paramBytes => paramBytes
      | .error _ => none
    match s.invoke req.Method handler params with
    | none => none
    | some r => some { server := r.server, output := [], calls := r.calls }

def processMessage (s : Server) (data : Line) : Option Step :=
  match unmarshalRequest data with
  | .error err =>
    some { server := s, output := sendError .null ParseError "Parse error" err, calls := [] }
  | .ok req =>
    if req.ID.isNull then handleNotification s req
    else handleRequest s req

/-- Server states the API can produce: a fresh server, then registrations and
processed frames in any order. -/
inductive Reachable : Server → Prop where
  | newServer (name version : String) : Reachable (NewServer name version)
  | registerTool {s : Server} (tool : Tool) (handler : UserHandler) :
      Reachable s → Reachable (s.RegisterTool tool handler)
  | registerResource {s : Server} (resource : Resource) (handler : UserHandler) :
      Reachable s → Reachable (s.RegisterResource resource handler)
  | registerPrompt {s : Server} (prompt : Prompt) (handler : UserHandler) :
      Reachable s → Reachable (s.RegisterPrompt prompt handler)
  | frame {s : Server} (data : Line) (st : Step) :
      Reachable s → processMessage s data = some st → Reachable st.server

/-- Built-in method stored under a key of the `handlers` map by
`registerCoreHandlers`, if any. -/
def coreOf (key : String) : Option Core :=
  if key = "initialize" then some .handleInitialize
  else if key = "initialized" then some .handleInitialized
  else if key = "tools/list" then some .handleToolsList
  else if key = "tools/call" then some .handleToolsCall
  else if key = "resources/list" then some .handleResourcesList
  else if key = "resources/read" then some .handleResourcesRead
  else if key = "prompts/list" then some .handlePromptsList
  else if key = "prompts/get" then some .handlePromptsGet
  else none

/-- The `handlers` map holds every built-in method under its own name, and
built-in methods nowhere else. -/
def CoreIntact (s : Server) : Prop :=
  ∀ (k : String) (c : Core), s.handlers.get k = some (.core c) ↔ coreOf k = some c

/-- Raw arguments a handler is given for request params `p` (what `marshalParams`
returns, which never fails on decoded values). -/
def rawParams (p : Json) : RawMessage :=
  if p.isNull then none else some p.norm

/-- The response `sendError` builds. -/
def errorFrame (id : Json) (code : Int) (message data : String) : JSONRPCResponse :=
  { JSONRPC := "2.0", ID := id, Result := .nil
    Error := some { Code := code, Message := message, Data := .str data } }

/-- Error message of an `Except` value, if it is an error. -/
def errorOf {α : Type} : Except String α → Option String
  | .error e => some e
  | .ok _ => none

/-- For the four built-in methods that decode their params into a request struct:
the decoding error on raw params `params`, if decoding fails. -/
def shapeError (method : String) (params : RawMessage) : Option String :=
  if method = "initialize" then errorOf (unmarshalInitialize params)
  else if method = "tools/call" then errorOf (unmarshalToolsCall params)
  else if method = "resources/read" then errorOf (unmarshalResourcesRead params)
  else if method = "prompts/get" then errorOf (unmarshalPromptsGet params)
  else none

/-- Whether every value a registered handler of `s` can return is accepted by
`json.Marshal`. -/
def EncodableResults (s : Server) : Prop :=
  ∀ (k : String) (h : UserHandler) (p : RawMessage) (v : GoValue),
    s.handlers.get k = some (.registered h) → h p = .ok (some v) → v.wire.isSome = true

/-- Whether `json.Marshal` accepts the descriptor of every registered tool. -/
def EncodableSchemas (s : Server) : Prop :=
  ∀ t ∈ s.tools.values, t.encodable = true

/-! ## Sample inputs -/

def sampleTool : Tool :=
  { Name := "echo", Description := "echo the arguments"
    InputSchema := [("type", { text := "object", wire := some (.str "object") })] }

def sampleResource : Resource :=
  { URI := "mem://status", Name := "status", Description := "", MimeType := "text/plain" }

def samplePrompt : Prompt := { Name := "greet", Description := "", Arguments := [] }

def sampleValue : GoValue := { text := "pong", wire := some (.str "pong") }

/-- Handler that always succeeds with `sampleValue`. -/
def echoHandler : UserHandler := fun _ => .ok (some sampleValue)

/-- Handler that always fails. -/
def failingHandler : UserHandler := fun _ => .error "boom"

/-- Handler that returns a Go channel, which `json.Marshal` rejects. -/
def channelHandler : UserHandler := fun _ => .ok (some { text := "0xc000012345", wire := none })

/-- Handler that reports which members its arguments hold: it looks for a member
`name` and for a member `uri` in the object it is given. -/
def describeHandler : UserHandler := fun params =>
  match params with
  | none => .error "unexpected end of JSON input"
  | some (.obj kvs) =>
    if kvs.any (fun kv => kv.1 == "name") then
      .ok (some { text := "name seen", wire := some (.str "name seen") })
    else if kvs.any (fun kv => kv.1 == "uri") then
      .ok (some { text := "uri seen", wire := some (.str "uri seen") })
    else .ok (some { text := "neither name nor uri", wire := some (.str "neither name nor uri") })
  | some .null => .ok (some { text := "no arguments", wire := some (.str "no arguments") })
  | some _ => .error "the arguments are not an object"

/-- A tool whose input schema holds a Go channel, which `json.Marshal` rejects. -/
def channelTool : Tool :=
  { Name := "watch", Description := "watch for changes"
    InputSchema := [("notify", { text := "0xc000012345", wire := none })] }

/-- The Go map of strings with the single entry `result: success`. -/
def mapValue : GoValue :=
  { text := "map[result:success]", wire := some (.obj [("result", .str "success")]) }

/-- Handler that always succeeds with `mapValue`. -/
def mapHandler : UserHandler := fun _ => .ok (some mapValue)

/-- Request with id `1`, the given method and params. -/
def sampleRequest (method : String) (params : Json) : JSONRPCRequest :=
  { JSONRPC := "2.0", ID := .num 1, Method := method, Params := params }

/-- Input line of a request with id `1`, the given method and params. -/
def sampleLine (method : String) (params : Json) : Line :=
  .doc (.obj [("jsonrpc", .str "2.0"), ("id", .num 1), ("method", .str method),
    ("params", params)])

/-- Input line of a notification with the given method. -/
def sampleNotification (method : String) : Line :=
  .doc (.obj [("jsonrpc", .str "2.0"), ("method", .str method)])

/-- Input line of the request `tools/call` naming tool `echo`, sent with the id
`9007199254740993` (which is `2 ^ 53 + 1`). -/
def bigIdLine : Line :=
  .doc (.obj [("jsonrpc", .str "2.0"), ("id", .num 9007199254740993),
    ("method", .str "tools/call"), ("params", .obj [("name", .str "echo")])])

/-- Input line of the notification `tools/call` naming tool `echo`. -/
def toolsCallNotification : Line :=
  .doc (.obj [("jsonrpc", .str "2.0"), ("method", .str "tools/call"),
    ("params", .obj [("name", .str "echo")])])

/-! ## Sequences of operations -/

/-- One call of `RegisterTool`, `RegisterResource` or `RegisterPrompt`. -/
inductive Registration where
  | tool (tool : Tool) (handler : UserHandler)
  | resource (resource : Resource) (handler : UserHandler)
  | prompt (prompt : Prompt) (handler : UserHandler)

/-- Perform one registration call. -/
def Server.register (s : Server) : Registration → Server
  | .tool tool handler => s.RegisterTool tool handler
  | .resource resource handler => s.RegisterResource resource handler
  | .prompt prompt handler => s.RegisterPrompt prompt handler

/-- Perform a sequence of registration calls, first to last. -/
def Server.registerAll (s : Server) (regs : List Registration) : Server :=
  regs.foldl Server.register s

/-- The handler passed in a registration call. -/
def Registration.handler : Registration → UserHandler
  | .tool _ h => h
  | .resource _ h => h
  | .prompt _ h => h

/-- Name of the tool, if the call registers a tool. -/
def Registration.toolName : Registration → Option String
  | .tool t _ => some t.Name
  | _ => none

/-- URI of the resource, if the call registers a resource. -/
def Registration.resourceURI : Registration → Option String
  | .resource r _ => some r.URI
  | _ => none

/-- Name of the prompt, if the call registers a prompt. -/
def Registration.promptName : Registration → Option String
  | .prompt p _ => some p.Name
  | _ => none

/-- Keys (of one kind, picked by `sel`) registered by a sequence of calls, in call
order, with repetitions. -/
def registeredKeys (sel : Registration → Option String) (regs : List Registration) :
    List String :=
  regs.filterMap sel

/-- Handler of the most recent call in `regs` that registers key `k` of the kind
picked by `sel`; `init` when there is none. -/
def lastRegistered (sel : Registration → Option String) (k : String)
    (init : Option UserHandler) (regs : List Registration) : Option UserHandler :=
  regs.foldl (fun acc r => if sel r = some k then some r.handler else acc) init

/-- State `s'` is reached from `s` by registrations and processed frames, in any
order. -/
inductive Evolves : Server → Server → Prop where
  | refl (s : Server) : Evolves s s
  | register {s s' : Server} (r : Registration) : Evolves s s' → Evolves s (s'.register r)
  | frame {s s' : Server} (data : Line) (st : Step) :
      Evolves s s' → processMessage s' data = some st → Evolves s st.server

/-- Every entry of a map of descriptors sits under the key `name` reads off the
descriptor, and no key occurs twice. -/
def KeyedBy {α : Type} (name : α → String) (m : GoMap α) : Prop :=
  m.keys.Nodup ∧ ∀ e ∈ m.entries, name e.2 = e.1

/-! ## The read loop (`Run`) -/

/-- Error returned by `reader.ReadBytes`. -/
inductive ReadErr where
  /-- The error `io.EOF`. -/
  | eof
  /-- Any other I/O error, with its message. -/
  | other (msg : String)
  deriving DecidableEq

/-- Result `(line, err)` of one `reader.ReadBytes('\n')`: with `err = none` the
data is a line that ends in the newline; with an error it is what was read before
the error (at end of stream: the bytes after the last newline). -/
structure ReadResult where
  data : Line
  err : Option ReadErr

/-- The cancellable context passed to `Run`. Time is counted in instants of the
loop: instant `2 * i` is the `select` at the top of iteration `i`, instant
`2 * i + 1` is the return of the read of iteration `i`. `fire = some t` means the
cancellation signal fires before instant `t` (and after instant `t - 1`);
`fire = none` means it never fires. `err` is the value of `ctx.Err()` once the
context is done. -/
structure Context where
  fire : Option Nat
  err : String

/-- Whether the context is done at instant `t`. -/
def Context.doneAt (ctx : Context) (t : Nat) : Bool :=
  match ctx.fire with
  | none => false
  | some f => decide (f ≤ t)

/-- What `Run` does: the lines handed to `go s.processMessage(ctx, line, writer)`,
in the order of the `go` statements, and the error returned (`none` is nil). -/
structure RunResult where
  dispatched : List Line
  err : Option String

/-- The `for` loop of `Run` from iteration `i` on, over the results of the reads
still to come; a read beyond the listed ones finds the stream at its end and
returns no data and `io.EOF`. -/
def runLoop (ctx : Context) : List ReadResult → Nat → RunResult
  | reads, i =>
    if ctx.doneAt (2 * i) then { dispatched := [], err := some ctx.err }
    else
      match reads with
      | [] => { dispatched := [], err := none }
      | r :: rest =>
        match r.err with
        | some .eof => { dispatched := [], err := none }
        | some (.other _) => runLoop ctx rest (i + 1)
        | none =>
          let later := runLoop ctx rest (i + 1)
          { dispatched := r.data :: later.dispatched, err := later.err }

/-- `Run` on the given sequence of read results. -/
def Run (ctx : Context) (reads : List ReadResult) : RunResult := runLoop ctx reads 0

/-- Lines of the reads that succeed before the first read that returns `io.EOF`,
in input order. -/
def linesBeforeEOF : List ReadResult → List Line
  | [] => []
  | r :: rest =>
    match r.err with
    | some .eof => []
    | some (.other _) => linesBeforeEOF rest
    | none => r.data :: linesBeforeEOF rest

/-! ## The shared writer -/

/-- One call on the shared `bufio.Writer`. -/
inductive WriterOp where
  | write (data : String)
  | writeByte (c : Char)
  | flush

/-- State of the `bufio.Writer` over standard output: bytes buffered, and bytes
handed on to standard output. -/
structure Writer where
  buf : String
  out : String

/-- Effect of one call on the writer. -/
def Writer.apply (w : Writer) : WriterOp → Writer
  | .write data => { w with buf := w.buf ++ data }
  | .writeByte c => { w with buf := w.buf.push c }
  | .flush => { buf := "", out := w.out ++ w.buf }

/-- The writer calls `sendResponse` makes for an encoded response `data`:
`writer.Write(data)`, `writer.WriteByte('\n')`, `writer.Flush()`. -/
def sendResponseOps (data : String) : List WriterOp :=
  [.write data, .writeByte '\n', .flush]

/-- Order in which the calls of two goroutines reach the writer under a schedule:
`true` lets the first goroutine make its next call, `false` the second. -/
def interleave {α : Type} : List Bool → List α → List α → List α
  | [], xs, ys => xs ++ ys
  | _ :: _, [], ys => ys
  | _ :: _, xs, [] => xs
  | true :: sched, x :: xs, ys => x :: interleave sched xs ys
  | false :: sched, xs, y :: ys => y :: interleave sched xs ys

/-- Bytes on standard output after the calls `ops` were made on an empty writer. -/
def writerOutput (ops : List WriterOp) : String :=
  (ops.foldl Writer.apply { buf := "", out := "" }).out

/-- The newline-terminated lines of a byte sequence, `cur` being the line begun. -/
def splitLines (cur : List Char) : List Char → List String
  | [] => []
  | c :: cs => if c = '\n' then String.mk cur :: splitLines [] cs else splitLines (cur ++ [c]) cs

/-- The newline-terminated lines of the output. -/
def outputLines (out : String) : List String := splitLines [] out.data

/-- The three descriptor maps of a server are keyed by tool name, resource URI and
prompt name. -/
def Registry (s : Server) : Prop :=
  KeyedBy Tool.Name s.tools ∧ KeyedBy Resource.URI s.resources ∧ KeyedBy Prompt.Name s.prompts

/-- Context without cancellation. -/
def background : Context := { fire := none, err := "" }

/-- Context whose cancellation signal fires while the first read of the loop is
waiting for input: after the `select` of iteration 0, before its read returns. -/
def cancelledDuringFirstRead : Context := { fire := some 1, err := "context canceled" }

/-- Registrations of tool `echo`, of resource `mem://status`, and of tool `echo`
again with a failing handler. -/
def sampleRegistrations : List Registration :=
  [.tool sampleTool echoHandler, .resource sampleResource echoHandler,
    .tool { sampleTool with Description := "second" } failingHandler]

/-- Encoded response to the request with id `1`. -/
def frameOne : String := "\x7b\"jsonrpc\":\"2.0\",\"id\":1,\"result\":\x7b\"tools\":[]\x7d\x7d"

/-- Encoded response to the request with id `2`. -/
def frameTwo : String := "\x7b\"jsonrpc\":\"2.0\",\"id\":2,\"result\":\x7b\"tools\":[]\x7d\x7d"

/-- The built-in methods with the handlers `registerCoreHandlers` stores for them. -/
def builtinHandlers : List (String × Core) :=
  [("initialize", .handleInitialize), ("initialized", .handleInitialized),
   ("tools/list", .handleToolsList), ("tools/call", .handleToolsCall),
   ("resources/list", .handleResourcesList), ("resources/read", .handleResourcesRead),
   ("prompts/list", .handlePromptsList), ("prompts/get", .handlePromptsGet)]

/-- Names of the eight built-in methods. -/
def builtinMethods : List String := builtinHandlers.map Prod.fst

/-! ## The configuration generator (`tools/receptor-config-gen/main.go`) -/

namespace ConfigGen

structure TemplateParameter where
  Name : String
  Description : String
  Required : Bool
  DefaultValue : String
  /-- Go field `Type` (a reserved word here). -/
  Typ : String

structure ConfigTemplate where
  Name : String
  Description : String
  Template : String
  Parameters : List TemplateParameter

structure TemplateConfig where
  Template : String
  OutputPath : String
  OutputDir : String
  Parameters : GoMap String
  Nodes : Int
  CertDir : String
  WorkTypes : List String

structure ConfigGenerator where
  templatesDir : String
  templates : GoMap ConfigTemplate

/-- A required string parameter, as `loadTemplates` writes them. -/
def requiredParameter (name description : String) : TemplateParameter :=
  { Name := name, Description := description, Required := true, DefaultValue := ""
    Typ := "string" }

/-- The built-in template definitions `loadTemplates` stores in the generator. -/
def loadTemplates (g : ConfigGenerator) : ConfigGenerator :=
  let t := g.templates.set "dev-single-node"
    { Name := "dev-single-node", Description := "Single node development configuration"
      Template := "dev/dev-single-node.yaml", Parameters := [] }
  let t := t.set "dev-mesh-controller"
    { Name := "dev-mesh-controller", Description := "Development mesh controller node"
      Template := "dev/dev-mesh-controller.yaml", Parameters := [] }
  let t := t.set "dev-mesh-worker"
    { Name := "dev-mesh-worker", Description := "Development mesh worker node"
      Template := "dev/dev-mesh-worker.yaml"
      Parameters := [requiredParameter "WorkerID" "Worker node identifier",
        requiredParameter "ControllerAddress" "Controller node address"] }
  let t := t.set "prod-controller"
    { Name := "prod-controller"
      Description := "Production controller node with TLS and work signing"
      Template := "prod/prod-controller.yaml", Parameters := [] }
  let t := t.set "prod-worker"
    { Name := "prod-worker", Description := "Production worker node with security verification"
      Template := "prod/prod-worker.yaml"
      Parameters := [requiredParameter "WorkerID" "Worker node identifier",
        requiredParameter "ControllerAddress" "Controller node address"] }
  let t := t.set "prod-edge"
    { Name := "prod-edge", Description := "Production edge node with minimal attack surface"
      Template := "prod/prod-edge.yaml"
      Parameters := [requiredParameter "EdgeID" "Edge node identifier",
        requiredParameter "ControllerAddress" "Controller node address"] }
  { g with templates := t }

/-- `NewConfigGenerator`, for the templates directory it finds on the machine. -/
def NewConfigGenerator (templatesDir : String) : ConfigGenerator :=
  loadTemplates { templatesDir := templatesDir, templates := GoMap.empty }

/-- The `for` loop of `validateParameters` over the parameters still to check; the
error returned, `.ok ()` being nil. -/
def validateEach (params : GoMap String) (isMultiNode : Bool) :
    List TemplateParameter → Except String Unit
  | [] => .ok ()
  | param :: rest =>
    if param.Required then
      match params.get param.Name with
      | none =>
        if isMultiNode && (param.Name = "WorkerID" || param.Name = "EdgeID") then
          validateEach params isMultiNode rest
        else .error ("required parameter '" ++ param.Name ++ "' not provided")
      | some _ => validateEach params isMultiNode rest
    else validateEach params isMultiNode rest

def validateParameters (tmpl : ConfigTemplate) (params : GoMap String) (isMultiNode : Bool) :
    Except String Unit :=
  validateEach params isMultiNode tmpl.Parameters

/-- Outcomes of the calls `Generate` makes on the operating system and on
`text/template`; `none` as an error is nil. -/
structure System where
  /-- Go `filepath.Join`. -/
  join : String → String → String
  /-- Go `os.ReadFile`. -/
  readFile : String → Except String String
  /-- Error of `template.New(name).Parse(text)`. -/
  parse : String → Option String
  /-- Error of `os.MkdirAll`. -/
  mkdirAll : String → Option String
  /-- Error of `os.Create`. -/
  create : String → Option String
  /-- Error of `t.Execute(file, params)`, for the template text, the path of the file
  and the parameters. -/
  execute : String → String → GoMap String → Option String

/-- One call `t.Execute(file, params)`: the path of the file and the parameter map
handed to the template. -/
structure Execution where
  path : String
  params : GoMap String

/-- What `Generate` does: the template executions made, in order, and the error
returned (`none` is nil). -/
structure GenResult where
  executions : List Execution
  err : Option String

/-- Go `strings.Contains` on character lists. -/
def containsChars (sub : List Char) : List Char → Bool
  | [] => sub.isEmpty
  | c :: cs => sub.isPrefixOf (c :: cs) || containsChars sub cs

/-- Go `strings.Contains(s, substr)`. -/
def stringsContains (s substr : String) : Bool := containsChars substr.data s.data

/-- Go `fmt.Sprintf("%02d", i)` for a node number. -/
def twoDigits (i : Nat) : String :=
  if i < 10 then "0" ++ toString i else toString i

def generateSingleFile (sys : System) (text : String) (config : TemplateConfig) : GenResult :=
  let outputPath :=
    if config.OutputPath = "" then sys.join config.OutputDir (config.Template ++ ".yaml")
    else config.OutputPath
  match sys.create outputPath with
  | some err => { executions := [], err := some ("failed to create output file: " ++ err) }
  | none =>
    { executions := [{ path := outputPath, params := config.Parameters }]
      err := sys.execute text outputPath config.Parameters }

/-- The parameters of node `i`: a copy of the parameters given, and the identifier
generated for the node. -/
def nodeParameters (config : TemplateConfig) (i : Nat) : GoMap String :=
  let nodeParams : GoMap String :=
    config.Parameters.entries.foldl (fun m kv => m.set kv.1 kv.2) GoMap.empty
  if stringsContains config.Template "worker" then
    nodeParams.set "WorkerID" ("worker-" ++ twoDigits i)
  else if stringsContains config.Template "edge" then
    nodeParams.set "EdgeID" ("edge-" ++ twoDigits i)
  else nodeParams

/-- The `for` loop of `generateMultipleFiles` over the node numbers still to do. -/
def generateNodes (sys : System) (text : String) (config : TemplateConfig) :
    List Nat → GenResult
  | [] => { executions := [], err := none }
  | i :: rest =>
    let nodeParams := nodeParameters config i
    let outputPath :=
      sys.join config.OutputDir (config.Template ++ "-" ++ twoDigits i ++ ".yaml")
    match sys.create outputPath with
    | some err =>
      { executions := []
        err := some ("failed to create output file " ++ outputPath ++ ": " ++ err) }
    | none =>
      match sys.execute text outputPath nodeParams with
      | some err =>
        { executions := [{ path := outputPath, params := nodeParams }]
          err := some ("failed to generate configuration for node " ++ toString i ++ ": " ++
            err) }
      | none =>
        let later := generateNodes sys text config rest
        { executions := { path := outputPath, params := nodeParams } :: later.executions
          err := later.err }

def generateMultipleFiles (sys : System) (text : String) (config : TemplateConfig) :
    GenResult :=
  if config.OutputDir = "" then
    { executions := [], err := some "output directory required for multiple node generation" }
  else
    match sys.mkdirAll config.OutputDir with
    | some err =>
      { executions := [], err := some ("failed to create output directory: " ++ err) }
    | none => generateNodes sys text config (List.range' 1 config.Nodes.toNat)

def Generate (g : ConfigGenerator) (sys : System) (config : TemplateConfig) : GenResult :=
  match g.templates.get config.Template with
  | none =>
    { executions := [], err := some ("template '" ++ config.Template ++ "' not found") }
  | some tmpl =>
    match validateParameters tmpl config.Parameters (decide (config.Nodes > 1)) with
    | .error err => { executions := [], err := some err }
    | .ok _ =>
      match sys.readFile (sys.join g.templatesDir tmpl.Template) with
      | .error err =>
        { executions := [], err := some ("failed to read template file: " ++ err) }
      | .ok templateData =>
        match sys.parse templateData with
        | some err => { executions := [], err := some ("failed to parse template: " ++ err) }
        | none =>
          if config.Nodes = 1 ∨ config.OutputPath ≠ "" then
            generateSingleFile sys templateData config
          else generateMultipleFiles sys templateData config

/-- Whether every required parameter of the template has a value in the map. -/
def allRequiredPresent (tmpl : ConfigTemplate) (params : GoMap String) : Bool :=
  tmpl.Parameters.all (fun param => !param.Required || (params.get param.Name).isSome)

/-- A machine on which every file operation and every template operation succeeds. -/
def sampleSystem : System :=
  { join := fun dir file => dir ++ "/" ++ file
    readFile := fun _ => .ok "node:\n  id: \x7b\x7b.WorkerID\x7d\x7d\n"
    parse := fun _ => none
    mkdirAll := fun _ => none
    create := fun _ => none
    execute := fun _ _ _ => none }

/-- The built-in template `prod-worker`. -/
def prodWorker : ConfigTemplate :=
  { Name := "prod-worker", Description := "Production worker node with security verification"
    Template := "prod/prod-worker.yaml"
    Parameters := [requiredParameter "WorkerID" "Worker node identifier",
      requiredParameter "ControllerAddress" "Controller node address"] }

/-- The parameters given by `-param ControllerAddress=controller.example.com`. -/
def sampleParameters : GoMap String :=
  GoMap.empty.set "ControllerAddress" "controller.example.com"

/-- The run `-template prod-worker -param ControllerAddress=controller.example.com
-nodes 2 -output worker.yaml`. -/
def sampleConfig : TemplateConfig :=
  { Template := "prod-worker", OutputPath := "worker.yaml", OutputDir := ""
    Parameters := sampleParameters, Nodes := 2, CertDir := "/etc/receptor/certs"
    WorkTypes := [] }

end ConfigGen

/-! ## Lemmas about the map, the handler keys and the dispatch functions -/

/-- Conversions of sample literals to float64, as `strconv.ParseFloat` makes them:
whole numbers up to `2 ^ 53` and `1.5` are exact; `0.1` is not; `2 ^ 53 + 1` and
`2 ^ 53 + 3` lie halfway between two float64 and go to the even one;
`1.7976931348623158e308` is rounded down to the largest float64, while
`1.7976931348623159e308` and `1e400` are out of range; `5e-324` is rounded to the
smallest positive float64 `2 ^ (-1074)`, while `2e-324` and `-1e-400` are rounded to
zero, which keeps the sign. -/
theorem toFloat64_samples :
    (1 : Number).toFloat64 = some 1 ∧
    (9007199254740992 : Number).toFloat64 = some 9007199254740992 ∧
    Number.toFloat64 { neg := false, digits := 15, exp10 := -1 } =
      some { neg := false, digits := 15, exp10 := -1 } ∧
    Number.toFloat64 { neg := false, digits := 1, exp10 := -1 } =
      some { neg := false, digits := 1000000000000000055511151231257827021181583404541015625
             exp10 := -55 } ∧
    (9007199254740993 : Number).toFloat64 = some 9007199254740992 ∧
    (9007199254740995 : Number).toFloat64 = some 9007199254740996 ∧
    Number.toFloat64 { neg := false, digits := 17976931348623158, exp10 := 292 } =
      some { neg := false, digits := 2 ^ 1024 - 2 ^ 971, exp10 := 0 } ∧
    Number.toFloat64 { neg := false, digits := 17976931348623159, exp10 := 292 } = none ∧
    Number.toFloat64 { neg := false, digits := 1, exp10 := 400 } = none ∧
    Number.toFloat64 { neg := false, digits := 5, exp10 := -324 } =
      some { neg := false, digits := 5 ^ 1074, exp10 := -1074 } ∧
    Number.toFloat64 { neg := false, digits := 2, exp10 := -324 } = some 0 ∧
    Number.toFloat64 { neg := true, digits := 1, exp10 := -400 } =
      some { neg := true, digits := 0, exp10 := 0 } := by
  decide!

/-- With enough fuel, `bitLength` is the number of binary digits: `n` lies below
`2 ^ bitLength n`, and from `2 ^ (bitLength n - 1)` on unless it is zero. -/
theorem bitLength_spec (fuel n : Nat) (h : n ≤ fuel) :
    n < 2 ^ bitLength fuel n ∧ (n ≠ 0 → 2 ^ (bitLength fuel n - 1) ≤ n) := by
  induction fuel generalizing n with
  | zero =>
    have : n = 0 := by omega
    subst this
    simp [bitLength]
  | succ f ih =>
    unfold bitLength
    by_cases hn : n = 0
    · subst hn; simp
    · simp only [hn, if_false]
      have hle : n / 2 ≤ f := by omega
      obtain ⟨h1, h2⟩ := ih (n / 2) hle
      constructor
      · rw [pow_succ]; omega
      · intro _
        simp only [Nat.add_sub_cancel]
        by_cases h0 : n / 2 = 0
        · have hb : bitLength f (n / 2) = 0 := by
            rw [h0]; cases f <;> simp [bitLength]
          rw [hb]; simp; omega
        · have := h2 h0
          have hpos : 0 < bitLength f (n / 2) := by
            by_contra hc
            have hz : bitLength f (n / 2) = 0 := by omega
            rw [hz] at h1
            simp at h1
            exact h0 h1
          have e : bitLength f (n / 2) = (bitLength f (n / 2) - 1) + 1 := by omega
          rw [e, pow_succ]
          omega

/-- Dropping the trailing zeros of `n × 10 ^ j` at the power of ten `-j` leaves the whole
number `n`. -/
theorem stripZeros_pow (j : Nat) (neg : Bool) (n : Nat) :
    stripZeros j { neg := neg, digits := n * 10 ^ j, exp10 := -(j : Int) } =
      { neg := neg, digits := n, exp10 := 0 } := by
  induction j with
  | zero => simp [stripZeros]
  | succ j ih =>
    unfold stripZeros
    have h1 : (-((j + 1 : Nat) : Int)) < 0 := by omega
    have h2 : n * 10 ^ (j + 1) % 10 = 0 := by
      rw [pow_succ, ← Nat.mul_assoc]; simp
    have h3 : n * 10 ^ (j + 1) / 10 = n * 10 ^ j := by
      rw [pow_succ, ← Nat.mul_assoc]; simp
    have h4 : (-((j + 1 : Nat) : Int)) + 1 = -(j : Int) := by omega
    simp only [h1, h2, and_self, if_true, h3, h4]
    exact ih

/-- The number one has one binary digit. -/
theorem bitLength_one : bitLength 1 1 = 1 := by decide

/-- A positive whole number below `2 ^ 53` is its own nearest float64: the significand is
the number shifted up to 53 binary digits, and nothing is rounded away. -/
theorem nearestFloat64_whole (n : Nat) (h0 : 0 < n) (hn : n < 2 ^ 53) :
    nearestFloat64 n 1 = (n * 2 ^ (53 - bitLength n n), (bitLength n n : Int) - 53) := by
  obtain ⟨hlt, hge⟩ := bitLength_spec n n (le_refl n)
  have hge := hge (by omega)
  generalize hb : bitLength n n = b at hlt hge
  have hb1 : 1 ≤ b := by
    by_contra hc
    have : b = 0 := by omega
    subst this
    simp at hlt
    omega
  have hb53 : b ≤ 53 := by
    by_contra hc
    have h54 : 53 ≤ b - 1 := by omega
    have := Nat.pow_le_pow_right (show 0 < 2 by norm_num) h54
    omega
  have hk0 : (b : Int) - ((1 : Nat) : Int) - 53 = Int.negSucc (53 - b) := by
    rw [Int.negSucc_eq]; omega
  have hq0 : 2 ^ 53 ≤ n * 2 ^ (53 - b + 1) := by
    have e : 53 = (b - 1) + (53 - b + 1) := by omega
    calc 2 ^ 53 = 2 ^ ((b - 1) + (53 - b + 1)) := by rw [← e]
      _ = 2 ^ (b - 1) * 2 ^ (53 - b + 1) := by rw [pow_add]
      _ ≤ n * 2 ^ (53 - b + 1) := Nat.mul_le_mul_right _ hge
  unfold nearestFloat64
  simp only [hb, bitLength_one, hk0, scaleBy, Nat.div_one, hq0, if_true]
  by_cases h53 : b = 53
  · subst h53
    have e1 : Int.negSucc (53 - 53) + 1 = Int.ofNat 0 := by decide
    have e2 : ¬ (Int.ofNat 0 < -1074) := by decide
    simp only [e1, e2, if_false]
    simp [Nat.mod_one]
  · have e1 : Int.negSucc (53 - b) + 1 = Int.negSucc (52 - b) := by
      rw [Int.negSucc_eq, Int.negSucc_eq]; omega
    have e2 : ¬ (Int.negSucc (52 - b) < -1074) := by
      rw [Int.negSucc_eq]; omega
    have e3 : 52 - b + 1 = 53 - b := by omega
    have e4 : Int.negSucc (52 - b) = (b : Int) - 53 := by
      rw [Int.negSucc_eq]; omega
    simp only [e1, e2, if_false, e3]
    simp [e4, Nat.mod_one]

/-- Every whole number of magnitude at most `2 ^ 53` is a float64: the conversion
returns the literal itself. -/
theorem toFloat64_whole (neg : Bool) (n : Nat) (hn : n ≤ 2 ^ 53) :
    Number.toFloat64 { neg := neg, digits := n, exp10 := 0 } =
      some { neg := neg, digits := n, exp10 := 0 } := by
  by_cases h0 : n = 0
  · subst h0
    rfl
  by_cases hmax : n = 2 ^ 53
  · subst hmax
    cases neg <;> decide
  have hlt : n < 2 ^ 53 := by omega
  have hnear := nearestFloat64_whole n (by omega) hlt
  obtain ⟨hblt, hbge⟩ := bitLength_spec n n (le_refl n)
  have hbge := hbge h0
  generalize hb : bitLength n n = b at hnear hblt hbge
  have hb1 : 1 ≤ b := by
    by_contra hc
    have : b = 0 := by omega
    subst this
    simp at hblt
    omega
  have hb53 : b ≤ 53 := by
    by_contra hc
    have h54 : 53 ≤ b - 1 := by omega
    have := Nat.pow_le_pow_right (show 0 < 2 by norm_num) h54
    omega
  unfold Number.toFloat64
  have e0 : (0 : Int) = Int.ofNat 0 := rfl
  simp only [h0, if_false, pow_zero, Nat.mul_one, hnear]
  by_cases h53 : b = 53
  · subst h53
    have e1 : ((53 : Nat) : Int) - 53 = Int.ofNat 0 := by decide
    simp only [e1]
    simp [exactDecimal]
  · have e4 : (b : Int) - 53 = Int.negSucc (52 - b) := by
      rw [Int.negSucc_eq]; omega
    have e3 : 52 - b + 1 = 53 - b := by omega
    have e5 : Int.negSucc (52 - b) = -((53 - b : Nat) : Int) := by
      rw [Int.negSucc_eq]; omega
    simp only [e4, exactDecimal, e3]
    rw [e5, Nat.mul_assoc, ← Nat.mul_pow]
    exact congrArg some (stripZeros_pow (53 - b) neg n)

/-- A stored key is found with the stored value. -/
theorem GoMap.find_store_same {α : Type} (m : List (String × α)) (k : String) (v : α) :
    GoMap.find (GoMap.store m k v) k = some v := by
  induction m with
  | nil => simp [GoMap.store, GoMap.find]
  | cons p rest ih =>
    obtain ⟨k', v'⟩ := p
    by_cases h : k' = k
    · simp [GoMap.store, GoMap.find, h]
    · simp [GoMap.store, GoMap.find, h, ih]

/-- Storing under one key leaves the lookup of every other key as it was. -/
theorem GoMap.find_store_other {α : Type} (m : List (String × α)) (k k' : String) (v : α)
    (h : k ≠ k') : GoMap.find (GoMap.store m k v) k' = GoMap.find m k' := by
  induction m with
  | nil => simp [GoMap.store, GoMap.find, h]
  | cons p rest ih =>
    obtain ⟨k0, v0⟩ := p
    by_cases h0 : k0 = k
    · subst h0
      simp [GoMap.store, GoMap.find, h]
    · simp [GoMap.store, GoMap.find, h0, ih]

/-- Lookup after an assignment `m[k] = v`. -/
theorem GoMap.get_set {α : Type} (m : GoMap α) (k k' : String) (v : α) :
    (m.set k v).get k' = if k = k' then some v else m.get k' := by
  by_cases h : k = k'
  · subst h
    simp [GoMap.get, GoMap.set, GoMap.find_store_same]
  · simp [GoMap.get, GoMap.set, GoMap.find_store_other _ _ _ _ h, h]

/-- A string that does not start with `p` differs from every `p ++ n`. -/
theorem append_ne_of_take (p n m : String)
    (h : (m.data.take p.data.length == p.data) = false) : p ++ n ≠ m := by
  intro heq
  subst heq
  simp [String.data_append] at h

/-- No key `"tool_" ++ n` is the name of a built-in method. -/
theorem coreOf_tool (n : String) : coreOf ("tool_" ++ n) = none := by
  have h : ∀ m : String, (m.data.take 5 == "tool_".data) = false → "tool_" ++ n ≠ m :=
    fun m hm => append_ne_of_take "tool_" n m hm
  simp [coreOf, h]

/-- No key `"resource_" ++ n` is the name of a built-in method. -/
theorem coreOf_resource (n : String) : coreOf ("resource_" ++ n) = none := by
  have h : ∀ m : String, (m.data.take 9 == "resource_".data) = false → "resource_" ++ n ≠ m :=
    fun m hm => append_ne_of_take "resource_" n m hm
  simp [coreOf, h]

/-- No key `"prompt_" ++ n` is the name of a built-in method. -/
theorem coreOf_prompt (n : String) : coreOf ("prompt_" ++ n) = none := by
  have h : ∀ m : String, (m.data.take 7 == "prompt_".data) = false → "prompt_" ++ n ≠ m :=
    fun m hm => append_ne_of_take "prompt_" n m hm
  simp [coreOf, h]

/-- The `handlers` map of a fresh server holds exactly the eight built-in methods. -/
theorem newServer_get (name version : String) (k : String) :
    (NewServer name version).handlers.get k = (coreOf k).map Handler.core := by
  by_cases h1 : k = "initialize"
  · subst h1; rfl
  by_cases h2 : k = "initialized"
  · subst h2; rfl
  by_cases h3 : k = "tools/list"
  · subst h3; rfl
  by_cases h4 : k = "tools/call"
  · subst h4; rfl
  by_cases h5 : k = "resources/list"
  · subst h5; rfl
  by_cases h6 : k = "resources/read"
  · subst h6; rfl
  by_cases h7 : k = "prompts/list"
  · subst h7; rfl
  by_cases h8 : k = "prompts/get"
  · subst h8; rfl
  simp [NewServer, registerCoreHandlers, GoMap.get_set, coreOf, h1, h2, h3, h4, h5, h6, h7, h8,
    Ne.symm h1, Ne.symm h2, Ne.symm h3, Ne.symm h4, Ne.symm h5, Ne.symm h6, Ne.symm h7,
    Ne.symm h8, GoMap.get, GoMap.empty, GoMap.find]

/-- A fresh server has its built-ins intact. -/
theorem coreIntact_newServer (name version : String) : CoreIntact (NewServer name version) := by
  intro k c
  rw [newServer_get]
  cases coreOf k <;> simp

/-- Storing a registered handler under a key that is not a built-in name keeps the built-ins intact. -/
theorem coreIntact_set_registered {s : Server} (hs : CoreIntact s) (key : String)
    (hkey : coreOf key = none) (h : UserHandler) (k : String) (c : Core) :
    (s.handlers.set key (.registered h)).get k = some (.core c) ↔ coreOf k = some c := by
  rw [GoMap.get_set]
  by_cases hk : key = k
  · subst hk
    simp [hkey]
  · simp [hk, hs k c]

/-- The call of a capability handler: only a registered handler is run, and the
invocation is recorded with what the handler returned. -/
theorem callCapability_registered (key : String) (h : UserHandler) (params : RawMessage) :
    callCapability key (.registered h) params =
      some { result := h params
             calls := [{ key := key, params := params
                         result := (h params).map Value.ofHandler }] } := rfl

/-- Invocation of a built-in method whose body returns: its record comes first. -/
theorem invoke_core (s : Server) {params : RawMessage} {r : Reply} (key : String) (c : Core)
    (h : c.run s params = some r) :
    s.invoke key (.core c) params =
      some { server := r.server, result := r.result
             calls := { key := key, params := params, result := r.result } :: r.calls } := by
  simp [Server.invoke, h]

/-- Invocation of a built-in method whose body is outside the model. -/
theorem invoke_core_none (s : Server) {params : RawMessage} (key : String) (c : Core)
    (h : c.run s params = none) : s.invoke key (.core c) params = none := by
  simp [Server.invoke, h]

/-- Invocation of a registered handler: the handler is applied to the arguments. -/
theorem invoke_registered (s : Server) (key : String) (h : UserHandler) (params : RawMessage) :
    s.invoke key (.registered h) params =
      some { server := s, result := (h params).map Value.ofHandler
             calls := [{ key := key, params := params
                         result := (h params).map Value.ofHandler }] } := rfl

/-- The body of a built-in method changes nothing in the state but, possibly, the
initialized flag. -/
theorem run_server {s : Server} {c : Core} {params : RawMessage} {r : Reply}
    (hr : c.run s params = some r) :
    r.server = s ∨ r.server = { s with initialized := true } := by
  cases c <;>
    simp only [Core.run, handleInitialize, handleInitialized, handleToolsList,
      handleToolsCall, handleResourcesList, handleResourcesRead, handlePromptsList,
      handlePromptsGet] at hr <;>
    (repeat' split at hr) <;>
    simp_all <;>
    (subst hr; simp)

/-- A handler invocation changes nothing in the state but, possibly, the initialized flag. -/
theorem invoke_server {s : Server} {key : String} {handler : Handler} {params : RawMessage}
    {r : Reply} (hr : s.invoke key handler params = some r) :
    r.server = s ∨ r.server = { s with initialized := true } := by
  cases handler with
  | registered h =>
    simp only [Server.invoke, Option.some.injEq] at hr
    subst hr
    exact Or.inl rfl
  | core c =>
    cases hc : c.run s params with
    | none => rw [invoke_core_none s key c hc] at hr; exact absurd hr (by simp)
    | some r0 =>
      rw [invoke_core s key c hc, Option.some.injEq] at hr
      have h0 := run_server hc
      subst hr
      exact h0

/-- Re-encoding the params of a request never fails. -/
theorem marshalParams_eq (p : Json) : marshalParams p = .ok (rawParams p) := by
  unfold marshalParams rawParams jsonMarshal
  split <;> rfl

/-- `sendError` writes exactly the error frame it builds. -/
theorem sendError_eq (id : Json) (code : Int) (message data : String) :
    sendError id code message data = [errorFrame id code message data] := rfl

/-- `handleRequest` on a method without handler. -/
theorem handleRequest_unknown {s : Server} {req : JSONRPCRequest}
    (h : s.handlers.get req.Method = none) :
    handleRequest s req =
      some { server := s
             output := [errorFrame req.ID MethodNotFound "Method not found" req.Method]
             calls := [] } := by
  simp [handleRequest, h, sendError_eq]

/-- `handleRequest` when the invocation is outside the model. -/
theorem handleRequest_stuck {s : Server} {req : JSONRPCRequest} {handler : Handler}
    (h : s.handlers.get req.Method = some handler)
    (hr : s.invoke req.Method handler (rawParams req.Params) = none) :
    handleRequest s req = none := by
  simp [handleRequest, h, marshalParams_eq, hr]

/-- `handleRequest` when the handler returns an error. -/
theorem handleRequest_error {s : Server} {req : JSONRPCRequest} {handler : Handler} {r : Reply}
    {err : String} (h : s.handlers.get req.Method = some handler)
    (hr : s.invoke req.Method handler (rawParams req.Params) = some r)
    (he : r.result = .error err) :
    handleRequest s req =
      some { server := r.server
             output := [errorFrame req.ID InternalError "Internal error" err]
             calls := r.calls } := by
  simp [handleRequest, h, marshalParams_eq, hr, he, sendError_eq]

/-- `handleRequest` when the handler returns a result. -/
theorem handleRequest_ok {s : Server} {req : JSONRPCRequest} {handler : Handler} {r : Reply}
    {result : Value} (h : s.handlers.get req.Method = some handler)
    (hr : s.invoke req.Method handler (rawParams req.Params) = some r)
    (he : r.result = .ok result) :
    handleRequest s req =
      some { server := r.server
             output := sendResponse
               { JSONRPC := "2.0", ID := req.ID, Result := result, Error := none }
             calls := r.calls } := by
  simp [handleRequest, h, marshalParams_eq, hr, he]

/-- `handleNotification` on a method without handler. -/
theorem handleNotification_unknown {s : Server} {req : JSONRPCRequest}
    (h : s.handlers.get req.Method = none) :
    handleNotification s req = some { server := s, output := [], calls := [] } := by
  simp [handleNotification, h]

/-- `handleNotification` when the invocation is outside the model. -/
theorem handleNotification_stuck {s : Server} {req : JSONRPCRequest} {handler : Handler}
    (h : s.handlers.get req.Method = some handler)
    (hr : s.invoke req.Method handler (rawParams req.Params) = none) :
    handleNotification s req = none := by
  simp [handleNotification, h, marshalParams_eq, hr]

/-- `handleNotification` on a method with a handler. -/
theorem handleNotification_known {s : Server} {req : JSONRPCRequest} {handler : Handler}
    {r : Reply} (h : s.handlers.get req.Method = some handler)
    (hr : s.invoke req.Method handler (rawParams req.Params) = some r) :
    handleNotification s req =
      some { server := r.server, output := [], calls := r.calls } := by
  simp [handleNotification, h, marshalParams_eq, hr]

/-- `handleRequest` changes nothing in the state but, possibly, the initialized flag. -/
theorem handleRequest_server {s : Server} {req : JSONRPCRequest} {st : Step}
    (h : handleRequest s req = some st) :
    st.server = s ∨ st.server = { s with initialized := true } := by
  cases hg : s.handlers.get req.Method with
  | none =>
    rw [handleRequest_unknown hg, Option.some.injEq] at h
    subst h
    exact Or.inl rfl
  | some handler =>
    cases hr : s.invoke req.Method handler (rawParams req.Params) with
    | none => rw [handleRequest_stuck hg hr] at h; exact absurd h (by simp)
    | some r =>
      cases he : r.result with
      | error err =>
        rw [handleRequest_error hg hr he, Option.some.injEq] at h
        subst h
        exact invoke_server hr
      | ok result =>
        rw [handleRequest_ok hg hr he, Option.some.injEq] at h
        subst h
        exact invoke_server hr

/-- `handleNotification` changes nothing in the state but, possibly, the initialized flag. -/
theorem handleNotification_server {s : Server} {req : JSONRPCRequest} {st : Step}
    (h : handleNotification s req = some st) :
    st.server = s ∨ st.server = { s with initialized := true } := by
  cases hg : s.handlers.get req.Method with
  | none =>
    rw [handleNotification_unknown hg, Option.some.injEq] at h
    subst h
    exact Or.inl rfl
  | some handler =>
    cases hr : s.invoke req.Method handler (rawParams req.Params) with
    | none => rw [handleNotification_stuck hg hr] at h; exact absurd h (by simp)
    | some r =>
      rw [handleNotification_known hg hr, Option.some.injEq] at h
      subst h
      exact invoke_server hr

/-- `processMessage` on a line that decodes: notification or request by the id. -/
theorem processMessage_decoded {s : Server} {data : Line} {req : JSONRPCRequest}
    (h : unmarshalRequest data = .ok req) :
    processMessage s data =
      if req.ID.isNull then handleNotification s req else handleRequest s req := by
  simp [processMessage, h]

/-- `processMessage` on a line that does not decode. -/
theorem processMessage_undecoded {s : Server} {data : Line} {err : String}
    (h : unmarshalRequest data = .error err) :
    processMessage s data =
      some { server := s, output := [errorFrame .null ParseError "Parse error" err]
             calls := [] } := by
  simp [processMessage, h, sendError_eq]

/-- `processMessage` changes nothing in the state but, possibly, the initialized flag. -/
theorem processMessage_server {s : Server} {data : Line} {st : Step}
    (h : processMessage s data = some st) :
    st.server = s ∨ st.server = { s with initialized := true } := by
  cases hd : unmarshalRequest data with
  | error err =>
    rw [processMessage_undecoded hd, Option.some.injEq] at h
    subst h
    exact Or.inl rfl
  | ok req =>
    rw [processMessage_decoded hd] at h
    split at h
    · exact handleNotification_server h
    · exact handleRequest_server h

/-- Every reachable state has its built-ins intact. -/
theorem reachable_coreIntact {s : Server} (hs : Reachable s) : CoreIntact s := by
  induction hs with
  | newServer name version => exact coreIntact_newServer name version
  | registerTool tool handler _ ih =>
    intro k c
    exact coreIntact_set_registered ih _ (coreOf_tool _) handler k c
  | registerResource resource handler _ ih =>
    intro k c
    exact coreIntact_set_registered ih _ (coreOf_resource _) handler k c
  | registerPrompt prompt handler _ ih =>
    intro k c
    exact coreIntact_set_registered ih _ (coreOf_prompt _) handler k c
  | frame data st _ hst ih =>
    intro k c
    rcases processMessage_server hst with h | h <;> rw [h] <;> exact ih k c

/-- In a reachable state each built-in name maps to its own method. -/
theorem reachable_get_core {s : Server} (hs : Reachable s) {k : String} {c : Core}
    (hk : coreOf k = some c) : s.handlers.get k = some (.core c) :=
  (reachable_coreIntact hs k c).mpr hk

/-- With intact built-ins, what is found under a capability key is a registered handler. -/
theorem capability_entry_registered {s : Server} (hs : CoreIntact s) {k : String}
    {handler : Handler} (hk : coreOf k = none) (hg : s.handlers.get k = some handler) :
    ∃ h : UserHandler, handler = .registered h := by
  cases handler with
  | registered h => exact ⟨h, rfl⟩
  | core c =>
    have := (hs k c).mp hg
    rw [hk] at this
    exact absurd this (by simp)

/-- `handleToolsCall` on params that do not decode. -/
theorem handleToolsCall_decodeError {s : Server} {params : RawMessage} {err : String}
    (hp : unmarshalToolsCall params = .error err) :
    handleToolsCall s params =
      some { server := s, result := .error ("invalid tools/call request: " ++ err)
             calls := [] } := by
  simp [handleToolsCall, hp]

/-- `handleToolsCall` on a name without handler. -/
theorem handleToolsCall_notFound {s : Server} {params : RawMessage} {req : ToolsCallRequest}
    (hp : unmarshalToolsCall params = .ok req)
    (hg : s.handlers.get ("tool_" ++ req.Name) = none) :
    handleToolsCall s params =
      some { server := s, result := .error ("tool not found: " ++ req.Name), calls := [] } := by
  simp [handleToolsCall, hp, hg]

/-- `handleToolsCall` when the tool handler fails. -/
theorem handleToolsCall_handlerError {s : Server} {params : RawMessage} {req : ToolsCallRequest}
    {h : UserHandler} {err : String} (hp : unmarshalToolsCall params = .ok req)
    (hg : s.handlers.get ("tool_" ++ req.Name) = some (.registered h))
    (he : h (some (jsonMarshalMap req.Arguments)) = .error err) :
    handleToolsCall s params =
      some { server := s
             result := .ok (.toolsCall
               { Content := [{ Typ := "text"
                               Text := "Error executing tool " ++ req.Name ++ ": " ++ err
                               Annotations := none }]
                 IsError := true })
             calls := [{ key := "tool_" ++ req.Name
                         params := some (jsonMarshalMap req.Arguments)
                         result := .error err }] } := by
  simp [handleToolsCall, hp, hg, callCapability, he, Except.map]

/-- `handleToolsCall` when the tool handler succeeds. -/
theorem handleToolsCall_handlerOk {s : Server} {params : RawMessage} {req : ToolsCallRequest}
    {h : UserHandler} {v : Option GoValue} (hp : unmarshalToolsCall params = .ok req)
    (hg : s.handlers.get ("tool_" ++ req.Name) = some (.registered h))
    (he : h (some (jsonMarshalMap req.Arguments)) = .ok v) :
    handleToolsCall s params =
      some { server := s
             result := .ok (.toolsCall
               { Content := [{ Typ := "text", Text := formatValue v, Annotations := none }]
                 IsError := false })
             calls := [{ key := "tool_" ++ req.Name
                         params := some (jsonMarshalMap req.Arguments)
                         result := .ok (Value.ofHandler v) }] } := by
  simp [handleToolsCall, hp, hg, callCapability, he, Except.map]

/-- `handleResourcesRead` on params that do not decode. -/
theorem handleResourcesRead_decodeError {s : Server} {params : RawMessage} {err : String}
    (hp : unmarshalResourcesRead params = .error err) :
    handleResourcesRead s params =
      some { server := s, result := .error ("invalid resources/read request: " ++ err)
             calls := [] } := by
  simp [handleResourcesRead, hp]

/-- `handleResourcesRead` on a URI without handler. -/
theorem handleResourcesRead_notFound {s : Server} {params : RawMessage}
    {req : ResourcesReadRequest} (hp : unmarshalResourcesRead params = .ok req)
    (hg : s.handlers.get ("resource_" ++ req.URI) = none) :
    handleResourcesRead s params =
      some { server := s, result := .error ("resource not found: " ++ req.URI)
             calls := [] } := by
  simp [handleResourcesRead, hp, hg]

/-- `handleResourcesRead` on a URI with a registered handler. -/
theorem handleResourcesRead_registered {s : Server} {params : RawMessage}
    {req : ResourcesReadRequest} {h : UserHandler}
    (hp : unmarshalResourcesRead params = .ok req)
    (hg : s.handlers.get ("resource_" ++ req.URI) = some (.registered h)) :
    handleResourcesRead s params =
      some { server := s, result := (h params).map Value.ofHandler
             calls := [{ key := "resource_" ++ req.URI, params := params
                         result := (h params).map Value.ofHandler }] } := by
  simp [handleResourcesRead, hp, hg, callCapability]

/-- `handlePromptsGet` on params that do not decode. -/
theorem handlePromptsGet_decodeError {s : Server} {params : RawMessage} {err : String}
    (hp : unmarshalPromptsGet params = .error err) :
    handlePromptsGet s params =
      some { server := s, result := .error ("invalid prompts/get request: " ++ err)
             calls := [] } := by
  simp [handlePromptsGet, hp]

/-- `handlePromptsGet` on a name without handler. -/
theorem handlePromptsGet_notFound {s : Server} {params : RawMessage}
    {req : PromptsGetRequest} (hp : unmarshalPromptsGet params = .ok req)
    (hg : s.handlers.get ("prompt_" ++ req.Name) = none) :
    handlePromptsGet s params =
      some { server := s, result := .error ("prompt not found: " ++ req.Name)
             calls := [] } := by
  simp [handlePromptsGet, hp, hg]

/-- `handlePromptsGet` on a name with a registered handler. -/
theorem handlePromptsGet_registered {s : Server} {params : RawMessage}
    {req : PromptsGetRequest} {h : UserHandler}
    (hp : unmarshalPromptsGet params = .ok req)
    (hg : s.handlers.get ("prompt_" ++ req.Name) = some (.registered h)) :
    handlePromptsGet s params =
      some { server := s, result := (h params).map Value.ofHandler
             calls := [{ key := "prompt_" ++ req.Name, params := params
                         result := (h params).map Value.ofHandler }] } := by
  simp [handlePromptsGet, hp, hg, callCapability]

/-- `handleInitialize` on params that do not decode. -/
theorem handleInitialize_decodeError {s : Server} {params : RawMessage} {err : String}
    (hp : unmarshalInitialize params = .error err) :
    handleInitialize s params =
      some { server := s, result := .error ("invalid initialize request: " ++ err)
             calls := [] } := by
  simp [handleInitialize, hp]

/-- `handleInitialize` on params that decode. -/
theorem handleInitialize_ok {s : Server} {params : RawMessage} {req : InitializeRequest}
    (hp : unmarshalInitialize params = .ok req) :
    handleInitialize s params =
      some { server := s
             result := .ok (.initializeResponse
               { ProtocolVersion := MCPVersion, Capabilities := s.capabilities
                 ServerInfo := s.info })
             calls := [] } := by
  simp [handleInitialize, hp]

/-- The result of a registered handler, as a `Value`, is encodable when the handler results of the server are. -/
theorem handler_result_encodable {s : Server} (henc : EncodableResults s) {k : String}
    {h : UserHandler} (hg : s.handlers.get k = some (.registered h)) (p : RawMessage)
    {v : Value} (hv : (h p).map Value.ofHandler = .ok v) : v.encodable = true := by
  cases hh : h p with
  | error e => rw [hh] at hv; simp [Except.map] at hv
  | ok w =>
    rw [hh] at hv
    simp only [Except.map, Except.ok.injEq] at hv
    subst hv
    cases w with
    | none => rfl
    | some g => exact henc k h p g hg hh

/-- In a state with intact built-ins the body of every built-in method returns; it
invokes at most one further handler, found under a capability key; and a successful
result is encodable when the results of the registered handlers and the descriptors of
the registered tools are. -/
theorem run_spec {s : Server} (hs : CoreIntact s) (c : Core) (params : RawMessage) :
    ∃ r, c.run s params = some r ∧ r.calls.length ≤ 1 ∧
      (∀ call ∈ r.calls, coreOf call.key = none) ∧
      (EncodableResults s → EncodableSchemas s →
        ∀ v, r.result = .ok v → v.encodable = true) := by
  cases c with
  | handleInitialize =>
    cases hp : unmarshalInitialize params with
    | error err => exact ⟨_, handleInitialize_decodeError hp, by simp, by simp, by simp⟩
    | ok req =>
      refine ⟨_, handleInitialize_ok hp, by simp, by simp, ?_⟩
      intro _ _ v hv
      simp only [Except.ok.injEq] at hv
      subst hv
      rfl
  | handleInitialized =>
    refine ⟨_, rfl, by simp, by simp, ?_⟩
    intro _ _ v hv
    simp only [Except.ok.injEq] at hv
    subst hv
    rfl
  | handleToolsList =>
    refine ⟨_, rfl, by simp, by simp, ?_⟩
    intro _ hsch v hv
    simp only [Except.ok.injEq] at hv
    subst hv
    exact List.all_eq_true.mpr hsch
  | handleResourcesList =>
    refine ⟨_, rfl, by simp, by simp, ?_⟩
    intro _ _ v hv
    simp only [Except.ok.injEq] at hv
    subst hv
    rfl
  | handlePromptsList =>
    refine ⟨_, rfl, by simp, by simp, ?_⟩
    intro _ _ v hv
    simp only [Except.ok.injEq] at hv
    subst hv
    rfl
  | handleToolsCall =>
    cases hp : unmarshalToolsCall params with
    | error err => exact ⟨_, handleToolsCall_decodeError hp, by simp, by simp, by simp⟩
    | ok req =>
      cases hg : s.handlers.get ("tool_" ++ req.Name) with
      | none => exact ⟨_, handleToolsCall_notFound hp hg, by simp, by simp, by simp⟩
      | some handler =>
        obtain ⟨h, rfl⟩ := capability_entry_registered hs (coreOf_tool _) hg
        cases he : h (some (jsonMarshalMap req.Arguments)) with
        | error err =>
          refine ⟨_, handleToolsCall_handlerError hp hg he, by simp, by simp [coreOf_tool], ?_⟩
          intro _ _ v hv
          simp only [Except.ok.injEq] at hv
          subst hv
          rfl
        | ok w =>
          refine ⟨_, handleToolsCall_handlerOk hp hg he, by simp, by simp [coreOf_tool], ?_⟩
          intro _ _ v hv
          simp only [Except.ok.injEq] at hv
          subst hv
          rfl
  | handleResourcesRead =>
    cases hp : unmarshalResourcesRead params with
    | error err => exact ⟨_, handleResourcesRead_decodeError hp, by simp, by simp, by simp⟩
    | ok req =>
      cases hg : s.handlers.get ("resource_" ++ req.URI) with
      | none => exact ⟨_, handleResourcesRead_notFound hp hg, by simp, by simp, by simp⟩
      | some handler =>
        obtain ⟨h, rfl⟩ := capability_entry_registered hs (coreOf_resource _) hg
        refine ⟨_, handleResourcesRead_registered hp hg, by simp, by simp [coreOf_resource],
          ?_⟩
        intro henc _ v hv
        exact handler_result_encodable henc hg params hv
  | handlePromptsGet =>
    cases hp : unmarshalPromptsGet params with
    | error err => exact ⟨_, handlePromptsGet_decodeError hp, by simp, by simp, by simp⟩
    | ok req =>
      cases hg : s.handlers.get ("prompt_" ++ req.Name) with
      | none => exact ⟨_, handlePromptsGet_notFound hp hg, by simp, by simp, by simp⟩
      | some handler =>
        obtain ⟨h, rfl⟩ := capability_entry_registered hs (coreOf_prompt _) hg
        refine ⟨_, handlePromptsGet_registered hp hg, by simp, by simp [coreOf_prompt], ?_⟩
        intro henc _ v hv
        exact handler_result_encodable henc hg params hv

/-- In a state with intact built-ins every handler invocation returns; its own record
comes first in the calls, with the result returned; only a built-in invokes a further
handler, at most one, found under a capability key; and a successful result is
encodable when the results of the registered handlers and the descriptors of the
registered tools are. -/
theorem invoke_spec {s : Server} (hs : CoreIntact s) (key : String) (handler : Handler)
    (params : RawMessage) :
    ∃ (r : Reply) (rest : List Call), s.invoke key handler params = some r ∧
      r.calls = { key := key, params := params, result := r.result } :: rest ∧
      rest.length ≤ 1 ∧
      (∀ call ∈ rest, coreOf call.key = none ∧ ∃ c0, handler = .core c0) ∧
      (EncodableResults s → EncodableSchemas s → (∃ k, s.handlers.get k = some handler) →
        ∀ v, r.result = .ok v → v.encodable = true) := by
  cases handler with
  | registered h =>
    refine ⟨_, [], invoke_registered s key h params, rfl, by simp, by simp, ?_⟩
    rintro henc - ⟨k, hk⟩ v hv
    exact handler_result_encodable henc hk params hv
  | core c =>
    obtain ⟨r, hr, hlen, hkeys, henc⟩ := run_spec hs c params
    refine ⟨_, r.calls, invoke_core s key c hr, rfl, hlen, ?_, ?_⟩
    · intro call hcall
      exact ⟨hkeys call hcall, c, rfl⟩
    · intro h1 h2 _ v hv
      exact henc h1 h2 v hv

/-- `sendResponse` writes the response when its result is encodable, and nothing otherwise. -/
theorem sendResponse_eq (response : JSONRPCResponse) :
    sendResponse response = if response.Result.encodable then [response] else [] := by
  unfold sendResponse jsonMarshalResponse
  split_ifs <;> rfl

/-- C1 (the code departs from the claim): after `RegisterTool` of a tool named
`echo`, a request whose method is `tool_echo` — not one of the eight built-in names —
is not answered with MethodNotFound: `handleRequest` finds the registered handler in
the shared `handlers` map, invokes it directly and returns its raw result. -/
theorem registered_tool_served_as_method :
    coreOf "tool_echo" = none ∧
    handleRequest ((NewServer "srv" "1.0").RegisterTool sampleTool echoHandler)
        (sampleRequest "tool_echo" .null) =
      some { server := (NewServer "srv" "1.0").RegisterTool sampleTool echoHandler
             output := [{ JSONRPC := "2.0", ID := .num 1, Result := .boxed sampleValue
                          Error := none }]
             calls := [{ key := "tool_echo", params := none
                         result := .ok (.boxed sampleValue) }] } :=
  ⟨rfl, rfl⟩

/-- C2: a request with an id whose method has no entry in the `handlers` map gets
exactly one response, the error MethodNotFound (-32601) with message
"Method not found", the method name as data and the id of the request (present on the
wire); no handler is invoked and the server state is unchanged. -/
theorem unknown_method_not_found (s : Server) (req : JSONRPCRequest)
    (hid : req.ID.isNull = false) (hm : s.handlers.get req.Method = none) :
    ∃ resp : JSONRPCResponse,
      handleRequest s req = some { server := s, output := [resp], calls := [] } ∧
      resp.Error = some { Code := -32601, Message := "Method not found"
                          Data := .str req.Method } ∧
      resp.ID = req.ID ∧ resp.hasID = true ∧ resp.hasResult = false := by
  refine ⟨_, handleRequest_unknown hm, rfl, rfl, ?_, rfl⟩
  simp [JSONRPCResponse.hasID, errorFrame, hid]

/-- Instance of `unknown_method_not_found`: method `bogus/method` on a fresh server. -/
theorem unknown_method_not_found_witness :
    ∃ resp : JSONRPCResponse,
      handleRequest (NewServer "srv" "1.0") (sampleRequest "bogus/method" .null) =
        some { server := NewServer "srv" "1.0", output := [resp], calls := [] } ∧
      resp.Error = some { Code := -32601, Message := "Method not found"
                          Data := .str "bogus/method" } ∧
      resp.ID = .num 1 ∧ resp.hasID = true ∧ resp.hasResult = false :=
  unknown_method_not_found (NewServer "srv" "1.0") (sampleRequest "bogus/method" .null) rfl rfl

/-- C3: when the handler of a registered tool returns an error `e`, a `tools/call`
naming the tool is answered by a success response (no RPC-level error) whose result
has `isError = true` and exactly one content block, of type "text", with text
`"Error executing tool " ++ name ++ ": " ++ e`, which contains the tool name and `e`. -/
theorem tool_error_wrapped_in_result {s : Server} (hs : Reachable s) (req : JSONRPCRequest)
    (call : ToolsCallRequest) (h : UserHandler) (e : String)
    (hm : req.Method = "tools/call")
    (hp : unmarshalToolsCall (rawParams req.Params) = .ok call)
    (hh : s.handlers.get ("tool_" ++ call.Name) = some (.registered h))
    (he : h (some (jsonMarshalMap call.Arguments)) = .error e) :
    ∃ text : String,
      handleRequest s req =
        some { server := s
               output := [{ JSONRPC := "2.0", ID := req.ID
                            Result := .toolsCall
                              { Content := [{ Typ := "text", Text := text, Annotations := none }]
                                IsError := true }
                            Error := none }]
               calls := [{ key := "tools/call", params := rawParams req.Params
                           result := .ok (.toolsCall
                             { Content := [{ Typ := "text", Text := text
                                             Annotations := none }]
                               IsError := true }) },
                         { key := "tool_" ++ call.Name
                           params := some (jsonMarshalMap call.Arguments)
                           result := .error e }] } ∧
      text = "Error executing tool " ++ call.Name ++ ": " ++ e ∧
      call.Name.data <:+: text.data ∧ e.data <:+: text.data := by
  have hg : s.handlers.get req.Method = some (.core .handleToolsCall) := by
    rw [hm]; exact reachable_get_core hs rfl
  have hr := invoke_core s req.Method .handleToolsCall (handleToolsCall_handlerError hp hh he)
  refine ⟨_, ?_, rfl, ?_, ?_⟩
  · rw [handleRequest_ok hg hr rfl, hm]
    rfl
  · exact ⟨("Error executing tool ").data, (": " ++ e).data, by simp [String.data_append]⟩
  · exact ⟨("Error executing tool " ++ call.Name ++ ": ").data, [], by simp [String.data_append]⟩

/-- Instance of `tool_error_wrapped_in_result`: tool `echo` registered with a handler that fails with "boom". -/
theorem tool_error_wrapped_in_result_witness :
    ∃ text : String,
      handleRequest ((NewServer "srv" "1.0").RegisterTool sampleTool failingHandler)
          (sampleRequest "tools/call" (.obj [("name", .str "echo")])) =
        some { server := (NewServer "srv" "1.0").RegisterTool sampleTool failingHandler
               output := [{ JSONRPC := "2.0", ID := .num 1
                            Result := .toolsCall
                              { Content := [{ Typ := "text", Text := text, Annotations := none }]
                                IsError := true }
                            Error := none }]
               calls := [{ key := "tools/call", params := some (.obj [("name", .str "echo")])
                           result := .ok (.toolsCall
                             { Content := [{ Typ := "text", Text := text
                                             Annotations := none }]
                               IsError := true }) },
                         { key := "tool_echo", params := some .null
                           result := .error "boom" }] } ∧
      text = "Error executing tool echo: boom" ∧
      "echo".data <:+: text.data ∧ "boom".data <:+: text.data :=
  tool_error_wrapped_in_result
    (Reachable.registerTool sampleTool failingHandler (Reachable.newServer "srv" "1.0"))
    (sampleRequest "tools/call" (.obj [("name", .str "echo")]))
    { Name := "echo", Arguments := none } failingHandler "boom" rfl rfl rfl rfl

/-- An `Except` value with an error message is an error. -/
theorem errorOf_isSome {α : Type} {u : Except String α} (h : (errorOf u).isSome = true) :
    ∃ e, u = .error e := by
  cases u with
  | error e => exact ⟨e, rfl⟩
  | ok a => simp [errorOf] at h

/-- Raw params that are absent or not a JSON object do not decode into a struct. -/
theorem unmarshalStruct_not_object {σ : Type} (goType : String)
    (setField : σ → String → Json → Except String σ) (zero : σ) (p : Json)
    (hp : p.isObject = false) :
    ∃ e, unmarshalStruct goType setField zero (rawParams p) = .error e := by
  cases p <;>
    simp_all [rawParams, Json.isNull, Json.isObject, unmarshalStruct, decodeStruct, Json.norm]

/-- C4 (counterexample): a `tools/call` request without params is answered with code
InternalError (-32603), which is not InvalidParams (-32602). -/
theorem missing_params_not_invalid_params :
    handleRequest (NewServer "srv" "1.0") (sampleRequest "tools/call" .null) =
      some { server := NewServer "srv" "1.0"
             output := [errorFrame (.num 1) InternalError "Internal error"
               "invalid tools/call request: unexpected end of JSON input"]
             calls := [{ key := "tools/call", params := none
                         result := .error
                           "invalid tools/call request: unexpected end of JSON input" }] } ∧
    (errorFrame (.num 1) InternalError "Internal error"
      "invalid tools/call request: unexpected end of JSON input").Error.map (·.Code) ≠
      some InvalidParams :=
  ⟨rfl, by decide⟩

/-- C4 (amended): when the params of a request to `initialize`, `tools/call`,
`resources/read` or `prompts/get` fail to decode into the request struct of the
method — in particular when they are absent or not a JSON object — the response is an
error with code InternalError (-32603), message "Internal error" and data
`"invalid <method> request: " ++ <decoding error>`; only the built-in handler runs. -/
theorem malformed_params_internal_error {s : Server} (hs : Reachable s) (req : JSONRPCRequest)
    (hm : req.Method = "initialize" ∨ req.Method = "tools/call" ∨
      req.Method = "resources/read" ∨ req.Method = "prompts/get")
    (hbad : req.Params.isObject = false ∨
      (shapeError req.Method (rawParams req.Params)).isSome = true) :
    ∃ err : String,
      shapeError req.Method (rawParams req.Params) = some err ∧
      handleRequest s req =
        some { server := s
               output := [{ JSONRPC := "2.0", ID := req.ID, Result := .nil
                            Error := some { Code := -32603, Message := "Internal error"
                                            Data := .str ("invalid " ++ req.Method ++
                                              " request: " ++ err) } }]
               calls := [{ key := req.Method, params := rawParams req.Params
                           result := .error ("invalid " ++ req.Method ++ " request: " ++
                             err) }] } := by
  rcases hm with hm | hm | hm | hm
  · have hg : s.handlers.get req.Method = some (.core .handleInitialize) := by
      rw [hm]; exact reachable_get_core hs rfl
    have hsh : shapeError req.Method (rawParams req.Params) =
        errorOf (unmarshalInitialize (rawParams req.Params)) := by simp [shapeError, hm]
    obtain ⟨e, he⟩ : ∃ e, unmarshalInitialize (rawParams req.Params) = .error e := by
      rcases hbad with h | h
      · exact unmarshalStruct_not_object _ _ _ _ h
      · rw [hsh] at h; exact errorOf_isSome h
    refine ⟨e, by rw [hsh, he]; rfl, ?_⟩
    have hr := invoke_core s req.Method .handleInitialize (handleInitialize_decodeError he)
    rw [handleRequest_error hg hr rfl, hm]
    rfl
  · have hg : s.handlers.get req.Method = some (.core .handleToolsCall) := by
      rw [hm]; exact reachable_get_core hs rfl
    have hsh : shapeError req.Method (rawParams req.Params) =
        errorOf (unmarshalToolsCall (rawParams req.Params)) := by simp [shapeError, hm]
    obtain ⟨e, he⟩ : ∃ e, unmarshalToolsCall (rawParams req.Params) = .error e := by
      rcases hbad with h | h
      · exact unmarshalStruct_not_object _ _ _ _ h
      · rw [hsh] at h; exact errorOf_isSome h
    refine ⟨e, by rw [hsh, he]; rfl, ?_⟩
    have hr := invoke_core s req.Method .handleToolsCall (handleToolsCall_decodeError he)
    rw [handleRequest_error hg hr rfl, hm]
    rfl
  · have hg : s.handlers.get req.Method = some (.core .handleResourcesRead) := by
      rw [hm]; exact reachable_get_core hs rfl
    have hsh : shapeError req.Method (rawParams req.Params) =
        errorOf (unmarshalResourcesRead (rawParams req.Params)) := by simp [shapeError, hm]
    obtain ⟨e, he⟩ : ∃ e, unmarshalResourcesRead (rawParams req.Params) = .error e := by
      rcases hbad with h | h
      · exact unmarshalStruct_not_object _ _ _ _ h
      · rw [hsh] at h; exact errorOf_isSome h
    refine ⟨e, by rw [hsh, he]; rfl, ?_⟩
    have hr := invoke_core s req.Method .handleResourcesRead (handleResourcesRead_decodeError he)
    rw [handleRequest_error hg hr rfl, hm]
    rfl
  · have hg : s.handlers.get req.Method = some (.core .handlePromptsGet) := by
      rw [hm]; exact reachable_get_core hs rfl
    have hsh : shapeError req.Method (rawParams req.Params) =
        errorOf (unmarshalPromptsGet (rawParams req.Params)) := by simp [shapeError, hm]
    obtain ⟨e, he⟩ : ∃ e, unmarshalPromptsGet (rawParams req.Params) = .error e := by
      rcases hbad with h | h
      · exact unmarshalStruct_not_object _ _ _ _ h
      · rw [hsh] at h; exact errorOf_isSome h
    refine ⟨e, by rw [hsh, he]; rfl, ?_⟩
    have hr := invoke_core s req.Method .handlePromptsGet (handlePromptsGet_decodeError he)
    rw [handleRequest_error hg hr rfl, hm]
    rfl

/-- Instance of `malformed_params_internal_error`: `resources/read` with an array as params. -/
theorem malformed_params_internal_error_witness :
    ∃ err : String,
      shapeError "resources/read" (rawParams (.arr [.str "mem://status"])) = some err ∧
      handleRequest ((NewServer "srv" "1.0").RegisterResource sampleResource echoHandler)
          (sampleRequest "resources/read" (.arr [.str "mem://status"])) =
        some { server := (NewServer "srv" "1.0").RegisterResource sampleResource echoHandler
               output := [{ JSONRPC := "2.0", ID := .num 1, Result := .nil
                            Error := some { Code := -32603, Message := "Internal error"
                                            Data := .str ("invalid " ++ "resources/read" ++
                                              " request: " ++ err) } }]
               calls := [{ key := "resources/read"
                           params := rawParams (.arr [.str "mem://status"])
                           result := .error ("invalid " ++ "resources/read" ++
                             " request: " ++ err) }] } :=
  malformed_params_internal_error
    (Reachable.registerResource sampleResource echoHandler (Reachable.newServer "srv" "1.0"))
    (sampleRequest "resources/read" (.arr [.str "mem://status"]))
    (Or.inr (Or.inr (Or.inl rfl))) (Or.inl rfl)

/-- C5: a `tools/call` (resp. `resources/read`, `prompts/get`) request whose params
decode and name a tool (resp. URI, prompt) with no entry in the `handlers` map is
answered by exactly one error response with code InternalError (-32603), produced by
the built-in handler ("tool not found: …", "resource not found: …",
"prompt not found: …"); it carries no result and no registered handler runs. -/
theorem unknown_capability_internal_error {s : Server} (hs : Reachable s)
    (req : JSONRPCRequest) :
    (∀ call : ToolsCallRequest, req.Method = "tools/call" →
      unmarshalToolsCall (rawParams req.Params) = .ok call →
      s.handlers.get ("tool_" ++ call.Name) = none →
      handleRequest s req =
        some { server := s
               output := [{ JSONRPC := "2.0", ID := req.ID, Result := .nil
                            Error := some { Code := -32603, Message := "Internal error"
                                            Data := .str ("tool not found: " ++ call.Name) } }]
               calls := [{ key := "tools/call", params := rawParams req.Params
                           result := .error ("tool not found: " ++ call.Name) }] }) ∧
    (∀ read : ResourcesReadRequest, req.Method = "resources/read" →
      unmarshalResourcesRead (rawParams req.Params) = .ok read →
      s.handlers.get ("resource_" ++ read.URI) = none →
      handleRequest s req =
        some { server := s
               output := [{ JSONRPC := "2.0", ID := req.ID, Result := .nil
                            Error := some { Code := -32603, Message := "Internal error"
                                            Data := .str ("resource not found: " ++ read.URI) } }]
               calls := [{ key := "resources/read", params := rawParams req.Params
                           result := .error ("resource not found: " ++ read.URI) }] }) ∧
    (∀ get : PromptsGetRequest, req.Method = "prompts/get" →
      unmarshalPromptsGet (rawParams req.Params) = .ok get →
      s.handlers.get ("prompt_" ++ get.Name) = none →
      handleRequest s req =
        some { server := s
               output := [{ JSONRPC := "2.0", ID := req.ID, Result := .nil
                            Error := some { Code := -32603, Message := "Internal error"
                                            Data := .str ("prompt not found: " ++ get.Name) } }]
               calls := [{ key := "prompts/get", params := rawParams req.Params
                           result := .error ("prompt not found: " ++ get.Name) }] }) := by
  refine ⟨?_, ?_, ?_⟩
  · intro call hm hp hnone
    have hg : s.handlers.get req.Method = some (.core .handleToolsCall) := by
      rw [hm]; exact reachable_get_core hs rfl
    have hr := invoke_core s req.Method .handleToolsCall (handleToolsCall_notFound hp hnone)
    rw [handleRequest_error hg hr rfl, hm]
    rfl
  · intro read hm hp hnone
    have hg : s.handlers.get req.Method = some (.core .handleResourcesRead) := by
      rw [hm]; exact reachable_get_core hs rfl
    have hr := invoke_core s req.Method .handleResourcesRead (handleResourcesRead_notFound hp hnone)
    rw [handleRequest_error hg hr rfl, hm]
    rfl
  · intro get hm hp hnone
    have hg : s.handlers.get req.Method = some (.core .handlePromptsGet) := by
      rw [hm]; exact reachable_get_core hs rfl
    have hr := invoke_core s req.Method .handlePromptsGet (handlePromptsGet_notFound hp hnone)
    rw [handleRequest_error hg hr rfl, hm]
    rfl

/-- Instance of `unknown_capability_internal_error`: `tools/call` naming `does_not_exist`. -/
theorem unknown_capability_internal_error_witness :
    handleRequest ((NewServer "srv" "1.0").RegisterTool sampleTool echoHandler)
        (sampleRequest "tools/call" (.obj [("name", .str "does_not_exist")])) =
      some { server := (NewServer "srv" "1.0").RegisterTool sampleTool echoHandler
             output := [{ JSONRPC := "2.0", ID := .num 1, Result := .nil
                          Error := some { Code := -32603, Message := "Internal error"
                                          Data := .str ("tool not found: " ++
                                            "does_not_exist") } }]
             calls := [{ key := "tools/call"
                         params := rawParams (.obj [("name", .str "does_not_exist")])
                         result := .error ("tool not found: " ++ "does_not_exist") }] } :=
  (unknown_capability_internal_error
    (Reachable.registerTool sampleTool echoHandler (Reachable.newServer "srv" "1.0"))
    (sampleRequest "tools/call" (.obj [("name", .str "does_not_exist")]))).1
    { Name := "does_not_exist", Arguments := none } rfl rfl rfl

/-- Field-wise decoding of an object, one member after the other. -/
theorem foldlM_cons_except {σ : Type} (f : σ → String × Json → Except String σ) (a : σ)
    (kv : String × Json) (kvs : List (String × Json)) :
    (kv :: kvs).foldlM f a =
      match f a kv with
      | .error e => .error e
      | .ok b => kvs.foldlM f b := by
  rw [List.foldlM_cons]
  cases f a kv <;> rfl

/-- A member whose key does not select the field `id` leaves the id of the request
being decoded as it is. -/
theorem JSONRPCRequest.setField_keeps_id {r r' : JSONRPCRequest} {key : String} {v : Json}
    (hk : nameIs key "id" = false) (h : r.setField key v = .ok r') : r'.ID = r.ID := by
  unfold JSONRPCRequest.setField at h
  simp only [hk, Bool.false_eq_true, if_false] at h
  split at h
  · cases hd : decodeString "JSONRPCRequest.jsonrpc" r.JSONRPC v with
    | error e => rw [hd] at h; cases h
    | ok s =>
      rw [hd] at h
      simp only [Except.map, Except.ok.injEq] at h
      subst h
      rfl
  · split at h
    · cases hd : decodeString "JSONRPCRequest.method" r.Method v with
      | error e => rw [hd] at h; cases h
      | ok s =>
        rw [hd] at h
        simp only [Except.map, Except.ok.injEq] at h
        subst h
        rfl
    · split at h
      · cases hd : decodeInterface "JSONRPCRequest.params" v with
        | error e => rw [hd] at h; cases h
        | ok x =>
          rw [hd] at h
          simp only [Except.map, Except.ok.injEq] at h
          subst h
          rfl
      · simp only [Except.ok.injEq] at h
        subst h
        rfl

/-- Members none of which selects the field `id` leave the id as it is. -/
theorem JSONRPCRequest.fold_other (l : List (String × Json)) (r r' : JSONRPCRequest)
    (hl : ∀ kv ∈ l, nameIs kv.1 "id" = false)
    (h : l.foldlM (fun acc kv => JSONRPCRequest.setField acc kv.1 kv.2) r = .ok r') :
    r'.ID = r.ID := by
  induction l generalizing r with
  | nil =>
    simp only [List.foldlM_nil, pure, Except.pure, Except.ok.injEq] at h
    rw [h]
  | cons kv rest ih =>
    rw [foldlM_cons_except] at h
    cases hstep : r.setField kv.1 kv.2 with
    | error e => rw [hstep] at h; cases h
    | ok r1 =>
      rw [hstep] at h
      have h1 := JSONRPCRequest.setField_keeps_id (hl kv (List.mem_cons_self _ _)) hstep
      have h2 := ih r1 (fun kv' hkv' => hl kv' (List.mem_cons_of_mem _ hkv')) h
      rw [h2, h1]

/-- A key that selects the field `id` does not select the field `jsonrpc`. -/
theorem key_id_not_jsonrpc {key : String} (hk : nameIs key "id" = true) :
    nameIs key "jsonrpc" = false := by
  have hfold : foldName key = foldName "id" := by
    simpa [nameIs] using hk
  simp only [nameIs, hfold]
  decide

/-- A member `id: null` leaves a request whose id is nil as it is. -/
theorem JSONRPCRequest.setField_null_id {r : JSONRPCRequest} {key : String}
    (hk : nameIs key "id" = true) (hr : r.ID = .null) : r.setField key .null = .ok r := by
  unfold JSONRPCRequest.setField
  simp only [key_id_not_jsonrpc hk, hk, Bool.false_eq_true, if_false, if_true]
  cases r
  simp only at hr
  subst hr
  rfl

/-- A member that selects the field `id` stores its value, decoded into an
`interface{}`, as the id of the request. -/
theorem JSONRPCRequest.setField_id {r r' : JSONRPCRequest} {key : String} {v : Json}
    (hk : nameIs key "id" = true) (h : r.setField key v = .ok r') :
    decodeInterface "JSONRPCRequest.id" v = .ok r'.ID := by
  unfold JSONRPCRequest.setField at h
  simp only [key_id_not_jsonrpc hk, hk, Bool.false_eq_true, if_false, if_true] at h
  cases hd : decodeInterface "JSONRPCRequest.id" v with
  | error e => rw [hd] at h; cases h
  | ok x =>
    rw [hd] at h
    simp only [Except.map, Except.ok.injEq] at h
    subst h
    rfl

/-- Decoding a frame with a member `id: null`, no `id` member before it, gives what
decoding the frame without that member gives. -/
theorem unmarshalRequest_null_id (pre post : List (String × Json)) (k : String)
    (hk : nameIs k "id" = true) (hpre : ∀ kv ∈ pre, nameIs kv.1 "id" = false) :
    unmarshalRequest (.doc (.obj (pre ++ (k, .null) :: post))) =
      unmarshalRequest (.doc (.obj (pre ++ post))) := by
  simp only [unmarshalRequest, decodeStruct, List.foldlM_append]
  cases hfold : pre.foldlM (fun acc kv => JSONRPCRequest.setField acc kv.1 kv.2)
      { JSONRPC := "", ID := .null, Method := "", Params := .null } with
  | error e => rfl
  | ok r1 =>
    have hid : r1.ID = .null := JSONRPCRequest.fold_other pre _ r1 hpre hfold
    simp only [bind, Except.bind]
    rw [foldlM_cons_except, JSONRPCRequest.setField_null_id hk hid]

/-- The id of a decoded frame is the value of its last `id` member, decoded into an
`interface{}`. -/
theorem unmarshalRequest_id (pre post : List (String × Json)) (k : String) (v : Json)
    (hk : nameIs k "id" = true) (hpost : ∀ kv ∈ post, nameIs kv.1 "id" = false)
    (req : JSONRPCRequest)
    (h : unmarshalRequest (.doc (.obj (pre ++ (k, v) :: post))) = .ok req) :
    decodeInterface "JSONRPCRequest.id" v = .ok req.ID := by
  simp only [unmarshalRequest, decodeStruct, List.foldlM_append] at h
  cases hfold : pre.foldlM (fun acc kv => JSONRPCRequest.setField acc kv.1 kv.2)
      { JSONRPC := "", ID := .null, Method := "", Params := .null } with
  | error e => rw [hfold] at h; cases h
  | ok r1 =>
    rw [hfold] at h
    simp only [bind, Except.bind] at h
    rw [foldlM_cons_except] at h
    cases hstep : r1.setField k v with
    | error e => rw [hstep] at h; cases h
    | ok r2 =>
      rw [hstep] at h
      rw [JSONRPCRequest.fold_other post r2 req hpost h]
      exact JSONRPCRequest.setField_id hk hstep

/-- In a reachable state a notification writes nothing. Without a handler for the
method nothing runs; a registered handler found under the method is applied to the raw
params; a built-in method runs its body on them. The invocation is recorded once, with
what the handler returned, and the `initialized` method leaves the flag set. -/
theorem handleNotification_spec {s : Server} (hs : Reachable s) (req : JSONRPCRequest) :
    ∃ st : Step,
      handleNotification s req = some st ∧ st.output = [] ∧
      (s.handlers.get req.Method = none → st.calls = [] ∧ st.server = s) ∧
      (∀ h : UserHandler, s.handlers.get req.Method = some (.registered h) →
        st.server = s ∧
        st.calls = [{ key := req.Method, params := rawParams req.Params
                      result := (h (rawParams req.Params)).map Value.ofHandler }]) ∧
      (∀ c : Core, s.handlers.get req.Method = some (.core c) →
        ∃ r : Reply, c.run s (rawParams req.Params) = some r ∧ st.server = r.server ∧
          st.calls = { key := req.Method, params := rawParams req.Params
                       result := r.result } :: r.calls) ∧
      (∀ handler : Handler, s.handlers.get req.Method = some handler →
        st.calls.countP (fun c => c.key == req.Method) = 1) ∧
      (req.Method = "initialized" → st.server.initialized = true) := by
  have hci := reachable_coreIntact hs
  have hinit : req.Method = "initialized" →
      s.handlers.get req.Method = some (.core .handleInitialized) := by
    intro hm
    rw [hm]
    exact reachable_get_core hs rfl
  cases hg : s.handlers.get req.Method with
  | none =>
    refine ⟨_, handleNotification_unknown hg, rfl, fun _ => ⟨rfl, rfl⟩, by simp, by simp,
      by simp, ?_⟩
    intro hm
    rw [hinit hm] at hg
    exact absurd hg (by simp)
  | some handler =>
    cases handler with
    | registered h =>
      refine ⟨_, handleNotification_known hg (invoke_registered s _ h _), rfl, by simp, ?_,
        by simp, ?_, ?_⟩
      · intro h' hh'
        simp only [Option.some.injEq, Handler.registered.injEq] at hh'
        subst hh'
        exact ⟨rfl, rfl⟩
      · intro _ _
        simp [List.countP_cons]
      · intro hm
        rw [hinit hm] at hg
        exact absurd hg (by simp)
    | core c =>
      obtain ⟨r, hr, -, hkeys, -⟩ := run_spec hci c (rawParams req.Params)
      refine ⟨_, handleNotification_known hg (invoke_core s _ c hr), rfl, by simp, by simp,
        ?_, ?_, ?_⟩
      · intro c' hc'
        simp only [Option.some.injEq, Handler.core.injEq] at hc'
        subst hc'
        exact ⟨r, hr, rfl, rfl⟩
      · intro _ _
        have hzero : r.calls.countP (fun c => c.key == req.Method) = 0 := by
          rw [List.countP_eq_zero]
          intro call hcall
          have hnone := hkeys call hcall
          have hsome := (hci req.Method c).mp hg
          intro hkey
          simp only [beq_iff_eq] at hkey
          rw [hkey, hsome] at hnone
          exact absurd hnone (by simp)
        simp [List.countP_cons, hzero]
      · intro hm
        have hc := hinit hm
        rw [hg] at hc
        simp only [Option.some.injEq, Handler.core.injEq] at hc
        subst hc
        simp only [Core.run, handleInitialized, Option.some.injEq] at hr
        subst hr
        rfl

/-- A fresh server has no registered handler, hence only encodable handler results. -/
theorem newServer_encodableResults (name version : String) :
    EncodableResults (NewServer name version) := by
  intro k h p v hg _
  rw [newServer_get] at hg
  cases hc : coreOf k <;> simp [hc] at hg

/-- Registering a handler with encodable results keeps the handler results encodable. -/
theorem encodableResults_set {s : Server} (henc : EncodableResults s) (key : String)
    (handler : UserHandler)
    (hh : ∀ (p : RawMessage) (v : GoValue), handler p = .ok (some v) → v.wire.isSome = true)
    (k : String) (h : UserHandler) (p : RawMessage) (v : GoValue)
    (hg : (s.handlers.set key (.registered handler)).get k = some (.registered h))
    (hv : h p = .ok (some v)) : v.wire.isSome = true := by
  rw [GoMap.get_set] at hg
  by_cases hk : key = k
  · simp only [hk, if_true, Option.some.injEq, Handler.registered.injEq] at hg
    subst hg
    exact hh p v hv
  · simp only [hk, if_false] at hg
    exact henc k h p v hg hv

/-- A value stored in a map is the new value or was in the map before. -/
theorem GoMap.mem_values_store {α : Type} (m : List (String × α)) (k : String) (v x : α)
    (hx : x ∈ (GoMap.store m k v).map Prod.snd) : x = v ∨ x ∈ m.map Prod.snd := by
  induction m with
  | nil =>
    simp only [GoMap.store, List.map_cons, List.map_nil, List.mem_singleton] at hx
    exact Or.inl hx
  | cons e rest ih =>
    obtain ⟨k', v'⟩ := e
    unfold GoMap.store at hx
    split_ifs at hx with hk
    · simp only [List.map_cons, List.mem_cons] at hx ⊢
      rcases hx with hx | hx
      · exact Or.inl hx
      · exact Or.inr (Or.inr hx)
    · simp only [List.map_cons, List.mem_cons] at hx ⊢
      rcases hx with hx | hx
      · exact Or.inr (Or.inl hx)
      · rcases ih hx with h | h
        · exact Or.inl h
        · exact Or.inr (Or.inr h)

/-- A fresh server has no tool, hence only encodable tool descriptors. -/
theorem newServer_encodableSchemas (name version : String) :
    EncodableSchemas (NewServer name version) := by
  intro t ht
  simp [NewServer, registerCoreHandlers, GoMap.values, GoMap.empty] at ht

/-- Registering a tool with an encodable descriptor keeps the descriptors encodable. -/
theorem encodableSchemas_registerTool {s : Server} (hsch : EncodableSchemas s) (tool : Tool)
    (handler : UserHandler) (ht : tool.encodable = true) :
    EncodableSchemas (s.RegisterTool tool handler) := by
  intro t hmem
  rcases GoMap.mem_values_store s.tools.entries tool.Name tool t hmem with h | h
  · rw [h]; exact ht
  · exact hsch t h

/-- C7 (counterexample): a decoded request carrying id `1` is processed without any
frame being written when the prompt handler it reaches returns a value `json.Marshal`
rejects, and when it is `tools/list` on a server with a tool whose input schema holds
such a value; and a request whose id is the number `9007199254740993` is answered with
the id `9007199254740992`, the float64 the id was decoded into. -/
theorem response_missing_or_id_changed :
    unmarshalRequest (sampleLine "prompts/get" (.obj [("name", .str "greet")])) =
      .ok (sampleRequest "prompts/get" (.obj [("name", .str "greet")])) ∧
    processMessage ((NewServer "srv" "1.0").RegisterPrompt samplePrompt channelHandler)
        (sampleLine "prompts/get" (.obj [("name", .str "greet")])) =
      some { server := (NewServer "srv" "1.0").RegisterPrompt samplePrompt channelHandler
             output := []
             calls := [{ key := "prompts/get"
                         params := some (.obj [("name", .str "greet")])
                         result := .ok (.boxed { text := "0xc000012345", wire := none }) },
                       { key := "prompt_greet"
                         params := some (.obj [("name", .str "greet")])
                         result := .ok (.boxed { text := "0xc000012345", wire := none }) }] } ∧
    processMessage ((NewServer "srv" "1.0").RegisterTool channelTool echoHandler)
        (sampleLine "tools/list" .null) =
      some { server := (NewServer "srv" "1.0").RegisterTool channelTool echoHandler
             output := []
             calls := [{ key := "tools/list", params := none
                         result := .ok (.toolsList { Tools := [channelTool] }) }] } ∧
    processMessage (NewServer "srv" "1.0")
        (.doc (.obj [("jsonrpc", .str "2.0"), ("id", .num 9007199254740993),
          ("method", .str "bogus/method")])) =
      some { server := NewServer "srv" "1.0"
             output := [errorFrame (.num 9007199254740992) MethodNotFound "Method not found"
               "bogus/method"]
             calls := [] } ∧
    (9007199254740993 : Number) ≠ 9007199254740992 :=
  ⟨rfl, rfl, rfl, rfl, by decide⟩

/-- C7 (amended): provided every value the registered handlers return and the
descriptor of every registered tool are accepted by `json.Marshal`, processing a
decoded frame whose id is present writes exactly one response frame — whether the
method is unknown, the handler fails or the handler succeeds. The frame carries the id
as it was decoded from the last `id` member of the frame: a string unchanged, a number
as the float64 nearest to the literal, which for a whole number of magnitude up to
`2 ^ 53` is the number itself. -/
theorem request_answered_exactly_once {s : Server} (hs : Reachable s)
    (henc : EncodableResults s) (hsch : EncodableSchemas s) (data : Line)
    (req : JSONRPCRequest)
    (hd : unmarshalRequest data = .ok req) (hid : req.ID.isNull = false) :
    ∃ (st : Step) (resp : JSONRPCResponse),
      processMessage s data = some st ∧ st.output = [resp] ∧
      resp.ID = req.ID ∧ resp.hasID = true ∧
      (∀ (pre post : List (String × Json)) (k : String) (v : Json),
        data = .doc (.obj (pre ++ (k, v) :: post)) → nameIs k "id" = true →
        (∀ kv ∈ post, nameIs kv.1 "id" = false) →
        decodeInterface "JSONRPCRequest.id" v = .ok resp.ID ∧
        (∀ str : String, v = .str str → resp.ID = .str str) ∧
        (∀ x : Number, v = .num x → ∃ f : Number, x.toFloat64 = some f ∧ resp.ID = .num f) ∧
        (∀ (neg : Bool) (n : Nat), n ≤ 2 ^ 53 →
          v = .num { neg := neg, digits := n, exp10 := 0 } → resp.ID = v)) := by
  have hci := reachable_coreIntact hs
  have hhas : ∀ r : JSONRPCResponse, r.ID = req.ID → r.hasID = true := by
    intro r hr
    simp [JSONRPCResponse.hasID, hr, hid]
  have hdoc : ∀ (pre post : List (String × Json)) (k : String) (v : Json),
      data = .doc (.obj (pre ++ (k, v) :: post)) → nameIs k "id" = true →
      (∀ kv ∈ post, nameIs kv.1 "id" = false) →
      decodeInterface "JSONRPCRequest.id" v = .ok req.ID ∧
      (∀ str : String, v = .str str → req.ID = .str str) ∧
      (∀ x : Number, v = .num x → ∃ f : Number, x.toFloat64 = some f ∧ req.ID = .num f) ∧
      (∀ (neg : Bool) (n : Nat), n ≤ 2 ^ 53 →
        v = .num { neg := neg, digits := n, exp10 := 0 } → req.ID = v) := by
    intro pre post k v hdata hk hpost
    rw [hdata] at hd
    have hv := unmarshalRequest_id pre post k v hk hpost req hd
    have hnum : ∀ x : Number, v = .num x →
        ∃ f : Number, x.toFloat64 = some f ∧ req.ID = .num f := by
      intro x hx
      rw [hx] at hv
      simp only [decodeInterface, Json.convertNumbers, convertNumber] at hv
      cases hf : x.toFloat64 with
      | none => rw [hf] at hv; simp [Except.map] at hv
      | some f =>
        rw [hf] at hv
        simp only [Except.map, Json.norm, Except.ok.injEq] at hv
        exact ⟨f, rfl, hv.symm⟩
    refine ⟨hv, ?_, hnum, ?_⟩
    · intro str hstr
      rw [hstr] at hv
      simp only [decodeInterface, Json.convertNumbers, Except.map, Json.norm,
        Except.ok.injEq] at hv
      exact hv.symm
    · intro neg n hn hx
      obtain ⟨f, hf, hid'⟩ := hnum _ hx
      rw [toFloat64_whole neg n hn, Option.some.injEq] at hf
      rw [hid', ← hf, hx]
  rw [processMessage_decoded hd]
  simp only [hid, Bool.false_eq_true, if_false]
  cases hg : s.handlers.get req.Method with
  | none => exact ⟨_, _, handleRequest_unknown hg, rfl, rfl, hhas _ rfl, hdoc⟩
  | some handler =>
    obtain ⟨r, rest, hr, -, -, -, hres⟩ :=
      invoke_spec hci req.Method handler (rawParams req.Params)
    cases he : r.result with
    | error err => exact ⟨_, _, handleRequest_error hg hr he, rfl, rfl, hhas _ rfl, hdoc⟩
    | ok result =>
      have hok : result.encodable = true := hres henc hsch ⟨_, hg⟩ result he
      refine ⟨_, { JSONRPC := "2.0", ID := req.ID, Result := result, Error := none },
        handleRequest_ok hg hr he, ?_, rfl, hhas _ rfl, hdoc⟩
      rw [sendResponse_eq]
      simp [hok]

/-- Instance of `request_answered_exactly_once`: `tools/call` of tool `echo` sent with
the id `9007199254740993`, which is answered with the id `9007199254740992`. -/
theorem request_answered_exactly_once_witness :
    (∃ (st : Step) (resp : JSONRPCResponse),
      processMessage ((NewServer "srv" "1.0").RegisterTool sampleTool echoHandler)
          bigIdLine = some st ∧
      st.output = [resp] ∧
      resp.ID = .num 9007199254740992 ∧
      resp.hasID = true ∧
      (∀ (pre post : List (String × Json)) (k : String) (v : Json),
        bigIdLine = .doc (.obj (pre ++ (k, v) :: post)) → nameIs k "id" = true →
        (∀ kv ∈ post, nameIs kv.1 "id" = false) →
        decodeInterface "JSONRPCRequest.id" v = .ok resp.ID ∧
        (∀ str : String, v = .str str → resp.ID = .str str) ∧
        (∀ x : Number, v = .num x →
          ∃ f : Number, x.toFloat64 = some f ∧ resp.ID = .num f) ∧
        (∀ (neg : Bool) (n : Nat), n ≤ 2 ^ 53 →
          v = .num { neg := neg, digits := n, exp10 := 0 } → resp.ID = v))) ∧
    (processMessage ((NewServer "srv" "1.0").RegisterTool sampleTool echoHandler)
        bigIdLine).map (fun st => st.output.map (fun resp => (resp.ID, resp.Result))) =
      some [(.num 9007199254740992,
        .toolsCall { Content := [{ Typ := "text", Text := "pong", Annotations := none }]
                     IsError := false })] :=
  ⟨request_answered_exactly_once
    (Reachable.registerTool sampleTool echoHandler (Reachable.newServer "srv" "1.0"))
    (encodableResults_set (newServer_encodableResults "srv" "1.0") _ echoHandler
      (fun _ v hv => by
        simp only [echoHandler, Except.ok.injEq, Option.some.injEq] at hv
        subst hv
        rfl))
    (encodableSchemas_registerTool (newServer_encodableSchemas "srv" "1.0") sampleTool
      echoHandler rfl)
    bigIdLine
    { JSONRPC := "2.0", ID := .num 9007199254740992, Method := "tools/call"
      Params := .obj [("name", .str "echo")] } rfl rfl, rfl⟩

/-- C8: processing a decoded frame without an id writes nothing to the output,
whatever the handler returns. When the method has no handler nothing runs and the
state is unchanged; when it has one, the handler runs on the raw params — a registered
handler is applied to them, a built-in method runs its body — and the invocation is
recorded exactly once, first, with what the handler returned; the `initialized`
notification leaves the flag set. -/
theorem notification_writes_nothing {s : Server} (hs : Reachable s) (data : Line)
    (req : JSONRPCRequest) (hd : unmarshalRequest data = .ok req)
    (hid : req.ID.isNull = true) :
    ∃ st : Step,
      processMessage s data = some st ∧ st.output = [] ∧
      (s.handlers.get req.Method = none → st.calls = [] ∧ st.server = s) ∧
      (∀ h : UserHandler, s.handlers.get req.Method = some (.registered h) →
        st.server = s ∧
        st.calls = [{ key := req.Method, params := rawParams req.Params
                      result := (h (rawParams req.Params)).map Value.ofHandler }]) ∧
      (∀ c : Core, s.handlers.get req.Method = some (.core c) →
        ∃ r : Reply, c.run s (rawParams req.Params) = some r ∧ st.server = r.server ∧
          st.calls = { key := req.Method, params := rawParams req.Params
                       result := r.result } :: r.calls) ∧
      (∀ handler : Handler, s.handlers.get req.Method = some handler →
        st.calls.countP (fun c => c.key == req.Method) = 1) ∧
      (req.Method = "initialized" → st.server.initialized = true) := by
  rw [processMessage_decoded hd]
  simp only [hid, if_true]
  exact handleNotification_spec hs req

/-- Instance of `notification_writes_nothing`: the notification `tools/call` naming
tool `echo`, whose handler fails: nothing is written, and the built-in and the handler
of the tool ran once each. -/
theorem notification_writes_nothing_witness :
    (∃ st : Step,
      processMessage ((NewServer "srv" "1.0").RegisterTool sampleTool failingHandler)
          toolsCallNotification = some st ∧
      st.output = [] ∧
      (((NewServer "srv" "1.0").RegisterTool sampleTool failingHandler).handlers.get
          "tools/call" = none →
        st.calls = [] ∧
        st.server = (NewServer "srv" "1.0").RegisterTool sampleTool failingHandler) ∧
      (∀ h : UserHandler,
        ((NewServer "srv" "1.0").RegisterTool sampleTool failingHandler).handlers.get
          "tools/call" = some (.registered h) →
        st.server = (NewServer "srv" "1.0").RegisterTool sampleTool failingHandler ∧
        st.calls = [{ key := "tools/call", params := rawParams (.obj [("name", .str "echo")])
                      result := (h (rawParams (.obj [("name", .str "echo")]))).map
                        Value.ofHandler }]) ∧
      (∀ c : Core,
        ((NewServer "srv" "1.0").RegisterTool sampleTool failingHandler).handlers.get
          "tools/call" = some (.core c) →
        ∃ r : Reply,
          c.run ((NewServer "srv" "1.0").RegisterTool sampleTool failingHandler)
            (rawParams (.obj [("name", .str "echo")])) = some r ∧
          st.server = r.server ∧
          st.calls = { key := "tools/call", params := rawParams (.obj [("name", .str "echo")])
                       result := r.result } :: r.calls) ∧
      (∀ handler : Handler,
        ((NewServer "srv" "1.0").RegisterTool sampleTool failingHandler).handlers.get
          "tools/call" = some handler →
        st.calls.countP (fun c => c.key == "tools/call") = 1) ∧
      ("tools/call" = "initialized" → st.server.initialized = true)) ∧
    processMessage ((NewServer "srv" "1.0").RegisterTool sampleTool failingHandler)
        toolsCallNotification =
      some { server := (NewServer "srv" "1.0").RegisterTool sampleTool failingHandler
             output := []
             calls := [{ key := "tools/call", params := some (.obj [("name", .str "echo")])
                         result := .ok (.toolsCall
                           { Content := [{ Typ := "text"
                                           Text := "Error executing tool echo: boom"
                                           Annotations := none }]
                             IsError := true }) },
                       { key := "tool_echo", params := some .null
                         result := .error "boom" }] } :=
  ⟨notification_writes_nothing
    (Reachable.registerTool sampleTool failingHandler (Reachable.newServer "srv" "1.0"))
    toolsCallNotification
    { JSONRPC := "2.0", ID := .null, Method := "tools/call"
      Params := .obj [("name", .str "echo")] } rfl rfl, rfl⟩

/-- C9 (the code departs from the claim): the request `initialized` sent with id `1`
succeeds with a nil result, and the single response written has neither a `result`
member nor an `error` member. -/
theorem initialized_request_response_has_no_result :
    processMessage (NewServer "srv" "1.0") (sampleLine "initialized" .null) =
      some { server := { NewServer "srv" "1.0" with initialized := true }
             output := [{ JSONRPC := "2.0", ID := .num 1, Result := .nil, Error := none }]
             calls := [{ key := "initialized", params := none, result := .ok .nil }] } ∧
    JSONRPCResponse.hasResult
      { JSONRPC := "2.0", ID := .num 1, Result := .nil, Error := none } = false ∧
    JSONRPCResponse.hasError
      { JSONRPC := "2.0", ID := .num 1, Result := .nil, Error := none } = false :=
  ⟨rfl, rfl, rfl⟩

/-- C10: for a line that fails to decode as a frame, `processMessage` writes exactly
one response — an error with code ParseError (-32700), message "Parse error", the
decoder's message as data, no id and no result — invokes no handler and leaves the
server state (registry and initialized flag) unchanged. -/
theorem undecodable_line_parse_error (s : Server) (data : Line) (err : String)
    (hd : unmarshalRequest data = .error err) :
    ∃ resp : JSONRPCResponse,
      processMessage s data = some { server := s, output := [resp], calls := [] } ∧
      resp.Error = some { Code := -32700, Message := "Parse error", Data := .str err } ∧
      resp.hasID = false ∧ resp.hasResult = false :=
  ⟨_, processMessage_undecoded hd, rfl, rfl, rfl⟩

/-- Instance of `undecodable_line_parse_error`: a line holding a JSON array. -/
theorem undecodable_line_parse_error_witness :
    ∃ resp : JSONRPCResponse,
      processMessage ((NewServer "srv" "1.0").RegisterTool sampleTool echoHandler)
          (.doc (.arr [.num 1, .num 2])) =
        some { server := (NewServer "srv" "1.0").RegisterTool sampleTool echoHandler
               output := [resp], calls := [] } ∧
      resp.Error = some { Code := -32700, Message := "Parse error"
                          Data := .str "json: cannot unmarshal array into Go value of type mcp.JSONRPCRequest" } ∧
      resp.hasID = false ∧ resp.hasResult = false :=
  undecodable_line_parse_error _ (.doc (.arr [.num 1, .num 2])) _ rfl

/-- A frame whose id is the number `1e400`, beyond the range of a float64, does not
decode: the decoder reports the number, and the frame is answered with ParseError and
without an id. -/
theorem out_of_range_number_is_parse_error :
    errorOf (unmarshalRequest
        (.doc (.obj [("jsonrpc", .str "2.0"),
          ("id", .num { neg := false, digits := 1, exp10 := 400 }),
          ("method", .str "tools/list")]))) =
      some ("json: cannot unmarshal number 1e400 into Go struct field JSONRPCRequest.id " ++
        "of type float64") ∧
    (processMessage (NewServer "srv" "1.0")
        (.doc (.obj [("jsonrpc", .str "2.0"),
          ("id", .num { neg := false, digits := 1, exp10 := 400 }),
          ("method", .str "tools/list")]))).map
        (fun st => st.output.map
          (fun resp => (resp.hasID, resp.Error.map (fun e => (e.Code, e.Message))))) =
      some [(false, some (-32700, "Parse error"))] := by
  decide!

/-- Decoder behaviour on repeated members and nested numbers. Of two members with the
same key the later one stays, and keys come out sorted. A second `arguments` member
(matched without regard to case) is decoded into the map the first one made, so the
entries of both are kept and the later value of a shared key stays; an `arguments`
member that is `null` makes the map nil again. A number out of range anywhere inside
`params` fails the decoding of the frame, the message naming the literal with its
sign. -/
theorem decoder_samples :
    Json.norm (.obj [("b", .num 1), ("a", .num 2), ("b", .num 3)]) =
      .obj [("a", .num 2), ("b", .num 3)] ∧
    (unmarshalToolsCall (some (.obj [("name", .str "echo"),
        ("arguments", .obj [("a", .num 1), ("b", .num 2)]),
        ("Arguments", .obj [("b", .num 3), ("c", .num 4)])]))).map
        (fun call => jsonMarshalMap call.Arguments) =
      .ok (.obj [("a", .num 1), ("b", .num 3), ("c", .num 4)]) ∧
    (unmarshalToolsCall (some (.obj [("name", .str "echo"),
        ("arguments", .obj [("a", .num 1)]), ("arguments", .null)]))).map
        (fun call => jsonMarshalMap call.Arguments) = .ok .null ∧
    errorOf (unmarshalRequest
        (.doc (.obj [("jsonrpc", .str "2.0"), ("id", .num 1), ("method", .str "tools/list"),
          ("params", .obj [("a", .arr [.num 1,
            .num { neg := true, digits := 1, exp10 := 400 }])])]))) =
      some ("json: cannot unmarshal number -1e400 into Go struct field " ++
        "JSONRPCRequest.params of type float64") := by
  refine ⟨rfl, rfl, rfl, ?_⟩
  decide!

/-! ## Session flag, registry listings, the read loop and the shared writer -/

/-- A registration call leaves the initialized flag, the server identity and the
capability summary as they were. -/
theorem register_session (s : Server) (r : Registration) :
    (s.register r).initialized = s.initialized ∧ (s.register r).info = s.info ∧
      (s.register r).capabilities = s.capabilities := by
  cases r <;> exact ⟨rfl, rfl, rfl⟩

/-- A registration call leads from a reachable state to a reachable state. -/
theorem reachable_register {s : Server} (hs : Reachable s) (r : Registration) :
    Reachable (s.register r) := by
  cases r with
  | tool t h => exact Reachable.registerTool t h hs
  | resource t h => exact Reachable.registerResource t h hs
  | prompt t h => exact Reachable.registerPrompt t h hs

/-- What evolves from a reachable state is reachable. -/
theorem reachable_of_evolves {s s' : Server} (hs : Reachable s) (hev : Evolves s s') :
    Reachable s' := by
  induction hev with
  | refl => exact hs
  | register r _ ih => exact reachable_register ih r
  | frame data st _ hst ih => exact Reachable.frame data st ih hst

/-- Along registrations and frames the server identity and the capability summary
stay fixed, and the initialized flag never goes back to false. -/
theorem evolves_session {s s' : Server} (hev : Evolves s s') :
    s'.info = s.info ∧ s'.capabilities = s.capabilities ∧
      (s.initialized = true → s'.initialized = true) := by
  induction hev with
  | refl => exact ⟨rfl, rfl, id⟩
  | register r _ ih =>
    obtain ⟨h1, h2, h3⟩ := register_session _ r
    exact ⟨h2.trans ih.1, h3.trans ih.2.1, fun h => h1.trans (ih.2.2 h)⟩
  | frame data st _ hst ih =>
    rcases processMessage_server hst with h | h <;> rw [h]
    · exact ih
    · exact ⟨ih.1, ih.2.1, fun _ => rfl⟩

/-- Only the key `initialized` names the built-in `handleInitialized`. -/
theorem coreOf_handleInitialized {k : String} (h : coreOf k = some .handleInitialized) :
    k = "initialized" := by
  unfold coreOf at h
  split_ifs at h <;> simp_all

/-- The body of a built-in other than `handleInitialized` leaves the state as it is. -/
theorem run_server_same {s : Server} {c : Core} {params : RawMessage} {r : Reply}
    (hne : c ≠ .handleInitialized) (hr : c.run s params = some r) : r.server = s := by
  cases c <;>
    simp only [Core.run, handleInitialize, handleInitialized, handleToolsList,
      handleToolsCall, handleResourcesList, handleResourcesRead, handlePromptsList,
      handlePromptsGet] at hr <;>
    (repeat' split at hr) <;>
    simp_all <;>
    (subst hr; simp)

/-- A handler other than the built-in `handleInitialized` leaves the state as it is. -/
theorem invoke_server_same {s : Server} {key : String} {handler : Handler}
    {params : RawMessage} {r : Reply}
    (hne : handler ≠ .core .handleInitialized) (hr : s.invoke key handler params = some r) :
    r.server = s := by
  cases handler with
  | registered h =>
    simp only [Server.invoke, Option.some.injEq] at hr
    subst hr
    rfl
  | core c =>
    cases hc : c.run s params with
    | none => rw [invoke_core_none s key c hc] at hr; exact absurd hr (by simp)
    | some r0 =>
      rw [invoke_core s key c hc, Option.some.injEq] at hr
      have h0 := run_server_same (fun h => hne (by rw [h])) hc
      subst hr
      exact h0

/-- In a reachable state every line is processed to the end. -/
theorem processMessage_total {s : Server} (hs : Reachable s) (data : Line) :
    ∃ st, processMessage s data = some st := by
  have hci := reachable_coreIntact hs
  cases hd : unmarshalRequest data with
  | error err => exact ⟨_, processMessage_undecoded hd⟩
  | ok req =>
    rw [processMessage_decoded hd]
    cases hg : s.handlers.get req.Method with
    | none =>
      split
      · exact ⟨_, handleNotification_unknown hg⟩
      · exact ⟨_, handleRequest_unknown hg⟩
    | some handler =>
      obtain ⟨r, -, hr, -⟩ := invoke_spec hci req.Method handler (rawParams req.Params)
      split
      · exact ⟨_, handleNotification_known hg hr⟩
      · cases he : r.result with
        | error err => exact ⟨_, handleRequest_error hg hr he⟩
        | ok result => exact ⟨_, handleRequest_ok hg hr he⟩

/-- In a reachable state, a decoded frame whose method is not `initialized` leaves
the whole server state as it is. -/
theorem processMessage_other_method {s : Server} (hs : Reachable s) {data : Line}
    {req : JSONRPCRequest} (hd : unmarshalRequest data = .ok req)
    (hm : req.Method ≠ "initialized") {st : Step} (hst : processMessage s data = some st) :
    st.server = s := by
  have hci := reachable_coreIntact hs
  rw [processMessage_decoded hd] at hst
  cases hg : s.handlers.get req.Method with
  | none =>
    split at hst
    · rw [handleNotification_unknown hg, Option.some.injEq] at hst
      subst hst; rfl
    · rw [handleRequest_unknown hg, Option.some.injEq] at hst
      subst hst; rfl
  | some handler =>
    have hne : handler ≠ .core .handleInitialized := by
      intro h
      subst h
      exact hm (coreOf_handleInitialized ((hci _ _).mp hg))
    obtain ⟨r, -, hr, -⟩ := invoke_spec hci req.Method handler (rawParams req.Params)
    have hsame := invoke_server_same hne hr
    split at hst
    · rw [handleNotification_known hg hr, Option.some.injEq] at hst
      subst hst; exact hsame
    · cases he : r.result with
      | error err =>
        rw [handleRequest_error hg hr he, Option.some.injEq] at hst
        subst hst; exact hsame
      | ok result =>
        rw [handleRequest_ok hg hr he, Option.some.injEq] at hst
        subst hst; exact hsame

/-- In a reachable state, a decoded frame whose method is `initialized` is processed
and sets the initialized flag, with or without an id. -/
theorem processMessage_initialized {s : Server} (hs : Reachable s) {data : Line}
    {req : JSONRPCRequest} (hd : unmarshalRequest data = .ok req)
    (hm : req.Method = "initialized") :
    ∃ st, processMessage s data = some st ∧ st.server.IsInitialized = true := by
  have hg : s.handlers.get req.Method = some (.core .handleInitialized) := by
    rw [hm]; exact reachable_get_core hs rfl
  have hr : s.invoke req.Method (.core .handleInitialized) (rawParams req.Params) =
      some { server := { s with initialized := true }, result := .ok .nil
             calls := [{ key := req.Method, params := rawParams req.Params
                         result := .ok .nil }] } := rfl
  rw [processMessage_decoded hd]
  split
  · exact ⟨_, handleNotification_known hg hr, rfl⟩
  · exact ⟨_, handleRequest_ok hg hr rfl, rfl⟩

/-- C11: `IsInitialized()` is false on a fresh server; processing an `initialized`
notification makes it true; and once it is true it stays true under every later
registration and frame. -/
theorem initialized_flag_set_once (name version : String) {s : Server} (hs : Reachable s) :
    (NewServer name version).IsInitialized = false ∧
    (∀ (data : Line) (req : JSONRPCRequest), unmarshalRequest data = .ok req →
      req.ID.isNull = true → req.Method = "initialized" →
      ∃ st, processMessage s data = some st ∧ st.server.IsInitialized = true ∧
        ∀ s', Evolves st.server s' → s'.IsInitialized = true) ∧
    (∀ s', Evolves s s' → s.IsInitialized = true → s'.IsInitialized = true) := by
  refine ⟨rfl, ?_, ?_⟩
  · intro data req hd _ hm
    obtain ⟨st, hst, htrue⟩ := processMessage_initialized hs hd hm
    exact ⟨st, hst, htrue, fun s' hev => (evolves_session hev).2.2 htrue⟩
  · intro s' hev h
    exact (evolves_session hev).2.2 h

/-- Instance of `initialized_flag_set_once`: a fresh server and its later states. -/
theorem initialized_flag_set_once_witness :
    (NewServer "srv" "1.0").IsInitialized = false ∧
    (∀ (data : Line) (req : JSONRPCRequest), unmarshalRequest data = .ok req →
      req.ID.isNull = true → req.Method = "initialized" →
      ∃ st, processMessage (NewServer "srv" "1.0") data = some st ∧
        st.server.IsInitialized = true ∧
        ∀ s', Evolves st.server s' → s'.IsInitialized = true) ∧
    (∀ s', Evolves (NewServer "srv" "1.0") s' →
      (NewServer "srv" "1.0").IsInitialized = true → s'.IsInitialized = true) :=
  initialized_flag_set_once "srv" "1.0" (Reachable.newServer "srv" "1.0")

/-- C12 (counterexample): the frame `initialized` sent as a request with id `1` to a
fresh server flips the flag from false to true. -/
theorem initialized_request_flips_flag :
    unmarshalRequest (sampleLine "initialized" .null) =
      .ok (sampleRequest "initialized" .null) ∧
    (sampleRequest "initialized" .null).ID.isNull = false ∧
    (NewServer "srv" "1.0").IsInitialized = false ∧
    (processMessage (NewServer "srv" "1.0") (sampleLine "initialized" .null)).map
      (fun st => st.server.IsInitialized) = some true :=
  ⟨rfl, rfl, rfl, rfl⟩

/-- C12 (amended): the initialized flag flips only when a frame whose method is
`initialized` is processed, be it a notification or a request carrying an id. Every
registration, every undecodable line and every frame with another method leaves
`IsInitialized()` as it was; a frame with method `initialized` makes it true. -/
theorem flag_flips_only_on_initialized_method {s : Server} (hs : Reachable s) :
    (∀ r : Registration, (s.register r).IsInitialized = s.IsInitialized) ∧
    (∀ (data : Line) (err : String), unmarshalRequest data = .error err →
      ∃ st, processMessage s data = some st ∧ st.server.IsInitialized = s.IsInitialized) ∧
    (∀ (data : Line) (req : JSONRPCRequest), unmarshalRequest data = .ok req →
      req.Method ≠ "initialized" →
      ∃ st, processMessage s data = some st ∧ st.server.IsInitialized = s.IsInitialized) ∧
    (∀ (data : Line) (req : JSONRPCRequest), unmarshalRequest data = .ok req →
      req.Method = "initialized" →
      ∃ st, processMessage s data = some st ∧ st.server.IsInitialized = true) := by
  refine ⟨fun r => (register_session s r).1, ?_, ?_, ?_⟩
  · intro data err hd
    exact ⟨_, processMessage_undecoded hd, rfl⟩
  · intro data req hd hm
    obtain ⟨st, hst⟩ := processMessage_total hs data
    exact ⟨st, hst, by rw [processMessage_other_method hs hd hm hst]⟩
  · intro data req hd hm
    exact processMessage_initialized hs hd hm

/-- Instance of `flag_flips_only_on_initialized_method`: a server with one tool. -/
theorem flag_flips_only_on_initialized_method_witness :
    ∃ st, processMessage ((NewServer "srv" "1.0").RegisterTool sampleTool echoHandler)
        (sampleLine "tools/list" .null) = some st ∧
      st.server.IsInitialized =
        ((NewServer "srv" "1.0").RegisterTool sampleTool echoHandler).IsInitialized :=
  (flag_flips_only_on_initialized_method
    (Reachable.registerTool sampleTool echoHandler (Reachable.newServer "srv" "1.0"))).2.2.1
    (sampleLine "tools/list" .null) (sampleRequest "tools/list" .null) rfl (by decide)

/-- C13: on every server that evolved from `NewServer name version` by registrations
and frames, `handleInitialize` on params that decode returns, without error and
whatever the params are, the protocol version "2024-11-05", the server identity
`(name, version)` and the capabilities logging, tools, resources and prompts, all
present with every `listChanged` and `subscribe` flag false; the state, and with it
`IsInitialized()`, is unchanged. -/
theorem initialize_response_fixed (name version : String) {s : Server}
    (hev : Evolves (NewServer name version) s) (params : RawMessage) (req : InitializeRequest)
    (hp : unmarshalInitialize params = .ok req) :
    handleInitialize s params =
      some { server := s
             result := .ok (.initializeResponse
               { ProtocolVersion := "2024-11-05"
                 Capabilities :=
                   { Logging := some {}
                     Prompts := some { ListChanged := false }
                     Resources := some { Subscribe := false, ListChanged := false }
                     Tools := some { ListChanged := false } }
                 ServerInfo := { Name := name, Version := version } })
             calls := [] } := by
  obtain ⟨hinfo, hcap, -⟩ := evolves_session hev
  rw [handleInitialize_ok hp, hinfo, hcap]
  rfl

/-- Instance of `initialize_response_fixed`: a server with one registered tool and
the params of a client named `cli`. -/
theorem initialize_response_fixed_witness :
    handleInitialize ((NewServer "srv" "1.0").register (.tool sampleTool echoHandler))
        (some (.obj [("protocolVersion", .str "2024-11-05"),
          ("clientInfo", .obj [("name", .str "cli"), ("version", .str "0.1")])])) =
      some { server := (NewServer "srv" "1.0").register (.tool sampleTool echoHandler)
             result := .ok (.initializeResponse
               { ProtocolVersion := "2024-11-05"
                 Capabilities :=
                   { Logging := some {}
                     Prompts := some { ListChanged := false }
                     Resources := some { Subscribe := false, ListChanged := false }
                     Tools := some { ListChanged := false } }
                 ServerInfo := { Name := "srv", Version := "1.0" } })
             calls := [] } :=
  initialize_response_fixed "srv" "1.0"
    (Evolves.register (.tool sampleTool echoHandler) (Evolves.refl _))
    _ { ProtocolVersion := "2024-11-05", Capabilities := { Roots := none, Sampling := none }
        ClientInfo := { Name := "cli", Version := "0.1" } } rfl

/-- Keys of the entry list after a store: the stored key joins the old ones. -/
theorem GoMap.mem_keys_store {α : Type} (m : List (String × α)) (k : String) (v : α)
    (x : String) :
    x ∈ (GoMap.store m k v).map Prod.fst ↔ x = k ∨ x ∈ m.map Prod.fst := by
  induction m with
  | nil => simp [GoMap.store]
  | cons p rest ih =>
    obtain ⟨k0, v0⟩ := p
    by_cases h0 : k0 = k
    · subst h0
      simp [GoMap.store]
    · simp only [GoMap.store, h0, if_false, List.map_cons, List.mem_cons, ih]
      tauto

/-- A store keeps the keys free of repetitions. -/
theorem GoMap.nodup_keys_store {α : Type} (m : List (String × α)) (k : String) (v : α)
    (hm : (m.map Prod.fst).Nodup) : ((GoMap.store m k v).map Prod.fst).Nodup := by
  induction m with
  | nil => simp [GoMap.store]
  | cons p rest ih =>
    obtain ⟨k0, v0⟩ := p
    rw [List.map_cons, List.nodup_cons] at hm
    by_cases h0 : k0 = k
    · subst h0
      simpa [GoMap.store] using hm
    · simp only [GoMap.store, h0, if_false, List.map_cons, List.nodup_cons]
      refine ⟨?_, ih hm.2⟩
      rw [GoMap.mem_keys_store]
      rintro (h | h)
      · exact h0 h
      · exact hm.1 h

/-- A store of a descriptor under its own key keeps every entry under its own key. -/
theorem GoMap.named_store {α : Type} (name : α → String) (m : List (String × α))
    (k : String) (v : α) (hv : name v = k) (hm : ∀ e ∈ m, name e.2 = e.1) :
    ∀ e ∈ GoMap.store m k v, name e.2 = e.1 := by
  induction m with
  | nil =>
    intro e he
    simp only [GoMap.store, List.mem_singleton] at he
    subst he
    exact hv
  | cons p rest ih =>
    obtain ⟨k0, v0⟩ := p
    intro e he
    by_cases h0 : k0 = k
    · simp only [GoMap.store, h0, if_true, List.mem_cons] at he
      rcases he with he | he
      · subst he; exact hv
      · exact hm e (List.mem_cons_of_mem _ he)
    · simp only [GoMap.store, h0, if_false, List.mem_cons] at he
      rcases he with he | he
      · subst he; exact hm _ (List.mem_cons_self _ _)
      · exact ih (fun e he => hm e (List.mem_cons_of_mem _ he)) e he

/-- Assigning a descriptor under its own key keeps the map keyed by name. -/
theorem keyedBy_set {α : Type} {name : α → String} {m : GoMap α} (hm : KeyedBy name m)
    (k : String) (v : α) (hv : name v = k) : KeyedBy name (m.set k v) :=
  ⟨GoMap.nodup_keys_store _ _ _ hm.1, GoMap.named_store name _ _ _ hv hm.2⟩

/-- In a map keyed by name, the names of the listed descriptors are the keys. -/
theorem keyedBy_names {α : Type} {name : α → String} {m : GoMap α} (hm : KeyedBy name m) :
    m.values.map name = m.keys := by
  unfold GoMap.values GoMap.keys
  rw [List.map_map]
  exact List.map_congr_left (fun e he => hm.2 e he)

/-- After a store under key `k`, exactly the stored descriptor is listed under name `k`. -/
theorem GoMap.filter_store_same {α : Type} (name : α → String) (m : List (String × α))
    (k : String) (v : α) (hv : name v = k) (hnd : (m.map Prod.fst).Nodup)
    (hm : ∀ e ∈ m, name e.2 = e.1) :
    ((GoMap.store m k v).map Prod.snd).filter (fun a => decide (name a = k)) = [v] := by
  induction m with
  | nil => simp [GoMap.store, hv]
  | cons p rest ih =>
    obtain ⟨k0, v0⟩ := p
    rw [List.map_cons, List.nodup_cons] at hnd
    by_cases h0 : k0 = k
    · subst h0
      have hrest : (rest.map Prod.snd).filter (fun a => decide (name a = k0)) = [] := by
        rw [List.filter_eq_nil_iff]
        intro a ha
        obtain ⟨e, he, rfl⟩ := List.mem_map.mp ha
        have hne : e.1 ≠ k0 := fun h => hnd.1 (List.mem_map.mpr ⟨e, he, h⟩)
        have := hm e (List.mem_cons_of_mem _ he)
        simp [this, hne]
      simp [GoMap.store, hv, hrest]
    · have hv0 : name v0 = k0 := hm (k0, v0) (List.mem_cons_self _ _)
      have hih := ih hnd.2 (fun e he => hm e (List.mem_cons_of_mem _ he))
      simp [GoMap.store, h0, hv0, hih]

/-- After a store under key `k`, what is listed under any other name is as before. -/
theorem GoMap.filter_store_other {α : Type} (name : α → String) (m : List (String × α))
    (k n : String) (v : α) (hv : name v = k) (hn : n ≠ k)
    (hm : ∀ e ∈ m, name e.2 = e.1) :
    ((GoMap.store m k v).map Prod.snd).filter (fun a => decide (name a = n)) =
      (m.map Prod.snd).filter (fun a => decide (name a = n)) := by
  induction m with
  | nil => simp [GoMap.store, hv, Ne.symm hn]
  | cons p rest ih =>
    obtain ⟨k0, v0⟩ := p
    have hv0 : name v0 = k0 := hm (k0, v0) (List.mem_cons_self _ _)
    by_cases h0 : k0 = k
    · subst h0
      simp [GoMap.store, hv, hv0, Ne.symm hn]
    · have hih := ih (fun e he => hm e (List.mem_cons_of_mem _ he))
      simp [GoMap.store, h0, List.filter_cons, hih]

/-- A registration call keeps the descriptor maps keyed. -/
theorem registry_register {s : Server} (hs : Registry s) (r : Registration) :
    Registry (s.register r) := by
  cases r with
  | tool t h => exact ⟨keyedBy_set hs.1 _ _ rfl, hs.2.1, hs.2.2⟩
  | resource t h => exact ⟨hs.1, keyedBy_set hs.2.1 _ _ rfl, hs.2.2⟩
  | prompt t h => exact ⟨hs.1, hs.2.1, keyedBy_set hs.2.2 _ _ rfl⟩

/-- In every reachable state the descriptor maps are keyed. -/
theorem reachable_registry {s : Server} (hs : Reachable s) : Registry s := by
  induction hs with
  | newServer name version =>
    exact ⟨⟨List.nodup_nil, by intro e he; cases he⟩, ⟨List.nodup_nil, by intro e he; cases he⟩,
      ⟨List.nodup_nil, by intro e he; cases he⟩⟩
  | registerTool tool handler _ ih => exact registry_register ih (.tool tool handler)
  | registerResource resource handler _ ih => exact registry_register ih (.resource resource handler)
  | registerPrompt prompt handler _ ih => exact registry_register ih (.prompt prompt handler)
  | frame data st _ hst ih =>
    rcases processMessage_server hst with h | h <;> rw [h] <;> exact ih

/-- A sequence of registration calls leads from a reachable state to a reachable state. -/
theorem reachable_registerAll {s : Server} (hs : Reachable s) (regs : List Registration) :
    Reachable (s.registerAll regs) := by
  induction regs generalizing s with
  | nil => exact hs
  | cons r rest ih => exact ih (reachable_register hs r)

/-- Keys of one kind after a registration call: the key registered, if it is of that
kind, joins the old ones. -/
theorem mem_keys_register (s : Server) (r : Registration) (x : String) :
    (x ∈ (s.register r).tools.keys ↔ r.toolName = some x ∨ x ∈ s.tools.keys) ∧
    (x ∈ (s.register r).resources.keys ↔ r.resourceURI = some x ∨ x ∈ s.resources.keys) ∧
    (x ∈ (s.register r).prompts.keys ↔ r.promptName = some x ∨ x ∈ s.prompts.keys) := by
  cases r <;>
    simp only [Server.register, Server.RegisterTool, Server.RegisterResource,
      Server.RegisterPrompt, GoMap.keys, GoMap.set, GoMap.mem_keys_store, Registration.toolName,
      Registration.resourceURI, Registration.promptName, Option.some.injEq, false_or,
      reduceCtorEq] <;>
    simp only [eq_comm, and_self]

/-- Keys of one kind after a sequence of registration calls. -/
theorem mem_keys_registerAll (regs : List Registration) (s : Server) (x : String) :
    (x ∈ (s.registerAll regs).tools.keys ↔
      x ∈ registeredKeys Registration.toolName regs ∨ x ∈ s.tools.keys) ∧
    (x ∈ (s.registerAll regs).resources.keys ↔
      x ∈ registeredKeys Registration.resourceURI regs ∨ x ∈ s.resources.keys) ∧
    (x ∈ (s.registerAll regs).prompts.keys ↔
      x ∈ registeredKeys Registration.promptName regs ∨ x ∈ s.prompts.keys) := by
  induction regs generalizing s with
  | nil => simp [Server.registerAll, registeredKeys]
  | cons r rest ih =>
    have h := ih (s.register r)
    have hr := mem_keys_register s r x
    simp only [Server.registerAll, List.foldl_cons] at h ⊢
    simp only [registeredKeys, List.mem_filterMap, List.mem_cons] at h ⊢
    rw [h.1, h.2.1, h.2.2, hr.1, hr.2.1, hr.2.2]
    refine ⟨?_, ?_, ?_⟩ <;>
    · constructor
      · rintro (⟨a, ha, hx⟩ | hx | hx)
        · exact Or.inl ⟨a, Or.inr ha, hx⟩
        · exact Or.inl ⟨r, Or.inl rfl, hx⟩
        · exact Or.inr hx
      · rintro (⟨a, rfl | ha, hx⟩ | hx)
        · exact Or.inr (Or.inl hx)
        · exact Or.inl ⟨a, ha, hx⟩
        · exact Or.inr (Or.inr hx)

/-- A list without repetitions that has the members of `l` is as long as `l` without
its repetitions. -/
theorem length_eq_dedup {keys l : List String} (hnd : keys.Nodup)
    (hmem : ∀ x, x ∈ keys ↔ x ∈ l) : keys.length = l.dedup.length := by
  apply List.Perm.length_eq
  rw [List.perm_ext_iff_of_nodup hnd (List.nodup_dedup l)]
  intro x
  rw [hmem x, List.mem_dedup]

/-- C14: when a second tool is registered under the name of a tool registered
before, `tools/list` afterwards returns, whatever order the map is walked in, exactly
one descriptor with that name, which is the second one, and under every other name
the descriptors it returned before. -/
theorem reregistered_tool_replaces {s : Server} (hs : Reachable s) (first second : Tool)
    (h1 h2 : UserHandler) (hname : second.Name = first.Name) (params : RawMessage) :
    handleToolsList ((s.RegisterTool first h1).RegisterTool second h2) params =
      some { server := (s.RegisterTool first h1).RegisterTool second h2
             result := .ok (.toolsList
               { Tools := ((s.RegisterTool first h1).RegisterTool second h2).tools.values })
             calls := [] } ∧
    ∀ listed : List Tool,
      listed.Perm ((s.RegisterTool first h1).RegisterTool second h2).tools.values →
      listed.filter (fun t => decide (t.Name = first.Name)) = [second] ∧
      ∀ n : String, n ≠ first.Name →
        (listed.filter (fun t => decide (t.Name = n))).Perm
          (s.tools.values.filter (fun t => decide (t.Name = n))) := by
  refine ⟨rfl, ?_⟩
  intro listed hperm
  have hreg := (reachable_registry hs).1
  have hreg1 : KeyedBy Tool.Name (s.RegisterTool first h1).tools := keyedBy_set hreg _ _ rfl
  constructor
  · have hsame : (((s.RegisterTool first h1).RegisterTool second h2).tools.values).filter
        (fun t => decide (t.Name = first.Name)) = [second] := by
      have := GoMap.filter_store_same Tool.Name (s.RegisterTool first h1).tools.entries
        second.Name second rfl hreg1.1 hreg1.2
      rw [hname] at this
      simpa [Server.RegisterTool, GoMap.values, GoMap.set, hname] using this
    have hp := hperm.filter (fun t => decide (t.Name = first.Name))
    rw [hsame] at hp
    exact List.perm_singleton.mp hp
  · intro n hn
    have hp := hperm.filter (fun t => decide (t.Name = n))
    refine hp.trans (List.Perm.of_eq ?_)
    have e2 := GoMap.filter_store_other Tool.Name (s.RegisterTool first h1).tools.entries
      second.Name n second rfl (by rw [hname]; exact hn) hreg1.2
    have e1 := GoMap.filter_store_other Tool.Name s.tools.entries
      first.Name n first rfl hn hreg.2
    simp only [Server.RegisterTool, GoMap.values, GoMap.set] at e1 e2 ⊢
    rw [e2, e1]

/-- Instance of `reregistered_tool_replaces`: tool `echo` registered twice on a fresh
server, the second time with another description. -/
theorem reregistered_tool_replaces_witness :
    handleToolsList
        (((NewServer "srv" "1.0").RegisterTool sampleTool echoHandler).RegisterTool
          { sampleTool with Description := "second" } failingHandler) none =
      some { server := ((NewServer "srv" "1.0").RegisterTool sampleTool echoHandler).RegisterTool
               { sampleTool with Description := "second" } failingHandler
             result := .ok (.toolsList
               { Tools := (((NewServer "srv" "1.0").RegisterTool sampleTool
                   echoHandler).RegisterTool
                     { sampleTool with Description := "second" } failingHandler).tools.values })
             calls := [] } ∧
    ∀ listed : List Tool,
      listed.Perm (((NewServer "srv" "1.0").RegisterTool sampleTool echoHandler).RegisterTool
        { sampleTool with Description := "second" } failingHandler).tools.values →
      listed.filter (fun t => decide (t.Name = sampleTool.Name)) =
        [{ sampleTool with Description := "second" }] ∧
      ∀ n : String, n ≠ sampleTool.Name →
        (listed.filter (fun t => decide (t.Name = n))).Perm
          ((NewServer "srv" "1.0").tools.values.filter (fun t => decide (t.Name = n))) :=
  reregistered_tool_replaces (Reachable.newServer "srv" "1.0") sampleTool
    { sampleTool with Description := "second" } echoHandler failingHandler rfl none

/-- String concatenation cancels on the left. -/
theorem append_left_cancel (p a b : String) (h : p ++ a = p ++ b) : a = b := by
  have := congrArg String.data h
  simp only [String.data_append, List.append_cancel_left_eq] at this
  exact String.ext this

/-- Two keys with the same first part agree exactly when the rest agrees. -/
theorem append_inj_iff (p a b : String) : p ++ a = p ++ b ↔ a = b :=
  ⟨append_left_cancel p a b, fun h => by rw [h]⟩

/-- A tool key is never a resource key. -/
theorem tool_ne_resource (a b : String) : "tool_" ++ a ≠ "resource_" ++ b := by
  intro h
  have := congrArg (fun s => s.data.head?) h
  simp [String.data_append] at this

/-- A tool key is never a prompt key. -/
theorem tool_ne_prompt (a b : String) : "tool_" ++ a ≠ "prompt_" ++ b := by
  intro h
  have := congrArg (fun s => s.data.head?) h
  simp [String.data_append] at this

/-- A resource key is never a prompt key. -/
theorem resource_ne_prompt (a b : String) : "resource_" ++ a ≠ "prompt_" ++ b := by
  intro h
  have := congrArg (fun s => s.data.head?) h
  simp [String.data_append] at this

/-- What a listing of a keyed map shows, in whatever order the map is walked: one
descriptor per key. -/
theorem listing_one_per_key {α : Type} {name : α → String} {m : GoMap α}
    (hm : KeyedBy name m) {keys : List String} (hkeys : ∀ x, x ∈ m.keys ↔ x ∈ keys)
    {listed : List α} (hp : listed.Perm m.values) :
    (listed.map name).Nodup ∧ (∀ n, n ∈ listed.map name ↔ n ∈ keys) ∧
      listed.length = keys.dedup.length := by
  have hnames : (listed.map name).Perm m.keys := by
    rw [← keyedBy_names hm]
    exact hp.map name
  refine ⟨hnames.nodup_iff.mpr hm.1, fun n => by rw [hnames.mem_iff, hkeys], ?_⟩
  rw [← List.length_map listed name, hnames.length_eq]
  exact length_eq_dedup hm.1 hkeys

/-- A fresh server has no descriptors. -/
theorem newServer_keys (name version : String) :
    (NewServer name version).tools.keys = [] ∧ (NewServer name version).resources.keys = [] ∧
      (NewServer name version).prompts.keys = [] :=
  ⟨rfl, rfl, rfl⟩

/-- C15: after any sequence of registrations on a fresh server, `tools/list`
(resp. `resources/list`, `prompts/list`) returns without error, whatever the params,
the descriptors of the map; in whatever order the map is walked the list has no two
descriptors with the same tool name (resp. URI, prompt name), its keys are exactly
the keys registered, and its length is the number of distinct keys registered; the
set of keys listed is the same for every reordering of the registrations. -/
theorem listings_one_descriptor_per_key (name version : String) (regs : List Registration)
    (params : RawMessage) :
    (handleToolsList ((NewServer name version).registerAll regs) params =
        some { server := (NewServer name version).registerAll regs
               result := .ok (.toolsList
                 { Tools := ((NewServer name version).registerAll regs).tools.values })
               calls := [] } ∧
      ∀ listed : List Tool,
        listed.Perm ((NewServer name version).registerAll regs).tools.values →
        (listed.map Tool.Name).Nodup ∧
        (∀ n, n ∈ listed.map Tool.Name ↔ n ∈ registeredKeys Registration.toolName regs) ∧
        listed.length = (registeredKeys Registration.toolName regs).dedup.length) ∧
    (handleResourcesList ((NewServer name version).registerAll regs) params =
        some { server := (NewServer name version).registerAll regs
               result := .ok (.resourcesList
                 { Resources := ((NewServer name version).registerAll regs).resources.values })
               calls := [] } ∧
      ∀ listed : List Resource,
        listed.Perm ((NewServer name version).registerAll regs).resources.values →
        (listed.map Resource.URI).Nodup ∧
        (∀ n, n ∈ listed.map Resource.URI ↔
          n ∈ registeredKeys Registration.resourceURI regs) ∧
        listed.length = (registeredKeys Registration.resourceURI regs).dedup.length) ∧
    (handlePromptsList ((NewServer name version).registerAll regs) params =
        some { server := (NewServer name version).registerAll regs
               result := .ok (.promptsList
                 { Prompts := ((NewServer name version).registerAll regs).prompts.values })
               calls := [] } ∧
      ∀ listed : List Prompt,
        listed.Perm ((NewServer name version).registerAll regs).prompts.values →
        (listed.map Prompt.Name).Nodup ∧
        (∀ n, n ∈ listed.map Prompt.Name ↔ n ∈ registeredKeys Registration.promptName regs) ∧
        listed.length = (registeredKeys Registration.promptName regs).dedup.length) ∧
    (∀ regs' : List Registration, regs.Perm regs' → ∀ n : String,
      (n ∈ ((NewServer name version).registerAll regs').tools.values.map Tool.Name ↔
        n ∈ ((NewServer name version).registerAll regs).tools.values.map Tool.Name) ∧
      (n ∈ ((NewServer name version).registerAll regs').resources.values.map Resource.URI ↔
        n ∈ ((NewServer name version).registerAll regs).resources.values.map Resource.URI) ∧
      (n ∈ ((NewServer name version).registerAll regs').prompts.values.map Prompt.Name ↔
        n ∈ ((NewServer name version).registerAll regs).prompts.values.map Prompt.Name)) := by
  have hkeys : ∀ (rs : List Registration) (x : String),
      (x ∈ ((NewServer name version).registerAll rs).tools.keys ↔
        x ∈ registeredKeys Registration.toolName rs) ∧
      (x ∈ ((NewServer name version).registerAll rs).resources.keys ↔
        x ∈ registeredKeys Registration.resourceURI rs) ∧
      (x ∈ ((NewServer name version).registerAll rs).prompts.keys ↔
        x ∈ registeredKeys Registration.promptName rs) := by
    intro rs x
    have h := mem_keys_registerAll rs (NewServer name version) x
    obtain ⟨k1, k2, k3⟩ := newServer_keys name version
    rw [k1, k2, k3] at h
    simpa using h
  have hreg : ∀ rs : List Registration, Registry ((NewServer name version).registerAll rs) :=
    fun rs => reachable_registry (reachable_registerAll (Reachable.newServer name version) rs)
  refine ⟨⟨rfl, ?_⟩, ⟨rfl, ?_⟩, ⟨rfl, ?_⟩, ?_⟩
  · intro listed hp
    exact listing_one_per_key (hreg regs).1 (fun x => (hkeys regs x).1) hp
  · intro listed hp
    exact listing_one_per_key (hreg regs).2.1 (fun x => (hkeys regs x).2.1) hp
  · intro listed hp
    exact listing_one_per_key (hreg regs).2.2 (fun x => (hkeys regs x).2.2) hp
  · intro regs' hperm n
    rw [keyedBy_names (hreg regs).1, keyedBy_names (hreg regs').1,
      keyedBy_names (hreg regs).2.1, keyedBy_names (hreg regs').2.1,
      keyedBy_names (hreg regs).2.2, keyedBy_names (hreg regs').2.2,
      (hkeys regs n).1, (hkeys regs' n).1, (hkeys regs n).2.1, (hkeys regs' n).2.1,
      (hkeys regs n).2.2, (hkeys regs' n).2.2]
    exact ⟨(hperm.filterMap _).mem_iff.symm, (hperm.filterMap _).mem_iff.symm,
      (hperm.filterMap _).mem_iff.symm⟩

/-- Instance of `listings_one_descriptor_per_key`: tool `echo` registered twice and
one resource; the tool listing has one descriptor. -/
theorem listings_one_descriptor_per_key_witness :
    (((NewServer "srv" "1.0").registerAll sampleRegistrations).tools.values.map
        Tool.Name).Nodup ∧
    (∀ n, n ∈ ((NewServer "srv" "1.0").registerAll sampleRegistrations).tools.values.map
        Tool.Name ↔ n ∈ registeredKeys Registration.toolName sampleRegistrations) ∧
    ((NewServer "srv" "1.0").registerAll sampleRegistrations).tools.values.length =
      (registeredKeys Registration.toolName sampleRegistrations).dedup.length :=
  (listings_one_descriptor_per_key "srv" "1.0" sampleRegistrations none).1.2 _
    (List.Perm.refl _)

/-- Entry under a capability key after one registration call: the handler passed,
if the call registers that key, else the entry as before. -/
theorem handlers_register (s : Server) (r : Registration) (k : String) :
    ((s.register r).handlers.get ("tool_" ++ k) =
      if r.toolName = some k then some (.registered r.handler)
      else s.handlers.get ("tool_" ++ k)) ∧
    ((s.register r).handlers.get ("resource_" ++ k) =
      if r.resourceURI = some k then some (.registered r.handler)
      else s.handlers.get ("resource_" ++ k)) ∧
    ((s.register r).handlers.get ("prompt_" ++ k) =
      if r.promptName = some k then some (.registered r.handler)
      else s.handlers.get ("prompt_" ++ k)) := by
  cases r <;>
    simp [Server.register, Server.RegisterTool, Server.RegisterResource, Server.RegisterPrompt,
      GoMap.get_set, Registration.toolName, Registration.resourceURI, Registration.promptName,
      Registration.handler, append_inj_iff, tool_ne_resource, tool_ne_prompt,
      resource_ne_prompt, Ne.symm (tool_ne_resource _ _), Ne.symm (tool_ne_prompt _ _),
      Ne.symm (resource_ne_prompt _ _)]

/-- Entry under a capability key after a sequence of registration calls: the handler
of the most recent call that registers the key. -/
theorem handlers_registerAll (k : String) (regs : List Registration) (s : Server) :
    (∀ acc : Option UserHandler, s.handlers.get ("tool_" ++ k) = acc.map Handler.registered →
      (s.registerAll regs).handlers.get ("tool_" ++ k) =
        (lastRegistered Registration.toolName k acc regs).map Handler.registered) ∧
    (∀ acc : Option UserHandler,
      s.handlers.get ("resource_" ++ k) = acc.map Handler.registered →
      (s.registerAll regs).handlers.get ("resource_" ++ k) =
        (lastRegistered Registration.resourceURI k acc regs).map Handler.registered) ∧
    (∀ acc : Option UserHandler, s.handlers.get ("prompt_" ++ k) = acc.map Handler.registered →
      (s.registerAll regs).handlers.get ("prompt_" ++ k) =
        (lastRegistered Registration.promptName k acc regs).map Handler.registered) := by
  induction regs generalizing s with
  | nil => exact ⟨fun acc h => h, fun acc h => h, fun acc h => h⟩
  | cons r rest ih =>
    obtain ⟨h1, h2, h3⟩ := handlers_register s r k
    obtain ⟨i1, i2, i3⟩ := ih (s.register r)
    simp only [Server.registerAll, lastRegistered, List.foldl_cons] at i1 i2 i3 ⊢
    refine ⟨fun acc h => i1 _ ?_, fun acc h => i2 _ ?_, fun acc h => i3 _ ?_⟩
    · rw [h1]; split <;> simp [h]
    · rw [h2]; split <;> simp [h]
    · rw [h3]; split <;> simp [h]

/-- On a fresh server no capability key has an entry. -/
theorem newServer_capability_keys (name version k : String) :
    (NewServer name version).handlers.get ("tool_" ++ k) = none ∧
    (NewServer name version).handlers.get ("resource_" ++ k) = none ∧
    (NewServer name version).handlers.get ("prompt_" ++ k) = none := by
  simp [newServer_get, coreOf_tool, coreOf_resource, coreOf_prompt]

/-- C16: after any sequence of registrations on a fresh server, the entry of the
`handlers` map for a tool name (resp. resource URI, prompt name) is the handler of
the most recent registration under that key, and none if there was no such
registration; `tools/call` (resp. `resources/read`, `prompts/get`) naming the key
invokes that handler exactly once — with the re-encoded arguments (resp. the whole
params) — and builds its reply from what that handler returns. -/
theorem latest_registration_is_called (name version : String) (regs : List Registration)
    (k : String) (params : RawMessage) :
    (((NewServer name version).registerAll regs).handlers.get ("tool_" ++ k) =
        (lastRegistered Registration.toolName k none regs).map Handler.registered ∧
      ∀ (h : UserHandler) (call : ToolsCallRequest),
        lastRegistered Registration.toolName k none regs = some h →
        unmarshalToolsCall params = .ok call → call.Name = k →
        ∃ r : Reply,
          handleToolsCall ((NewServer name version).registerAll regs) params = some r ∧
          r.server = (NewServer name version).registerAll regs ∧
          r.calls = [{ key := "tool_" ++ k, params := some (jsonMarshalMap call.Arguments)
                       result := (h (some (jsonMarshalMap call.Arguments))).map
                         Value.ofHandler }] ∧
          (∀ e, h (some (jsonMarshalMap call.Arguments)) = .error e →
            r.result = .ok (.toolsCall
              { Content := [{ Typ := "text"
                              Text := "Error executing tool " ++ k ++ ": " ++ e
                              Annotations := none }]
                IsError := true })) ∧
          (∀ v, h (some (jsonMarshalMap call.Arguments)) = .ok v →
            r.result = .ok (.toolsCall
              { Content := [{ Typ := "text", Text := formatValue v, Annotations := none }]
                IsError := false }))) ∧
    (((NewServer name version).registerAll regs).handlers.get ("resource_" ++ k) =
        (lastRegistered Registration.resourceURI k none regs).map Handler.registered ∧
      ∀ (h : UserHandler) (read : ResourcesReadRequest),
        lastRegistered Registration.resourceURI k none regs = some h →
        unmarshalResourcesRead params = .ok read → read.URI = k →
        handleResourcesRead ((NewServer name version).registerAll regs) params =
          some { server := (NewServer name version).registerAll regs
                 result := (h params).map Value.ofHandler
                 calls := [{ key := "resource_" ++ k, params := params
                             result := (h params).map Value.ofHandler }] }) ∧
    (((NewServer name version).registerAll regs).handlers.get ("prompt_" ++ k) =
        (lastRegistered Registration.promptName k none regs).map Handler.registered ∧
      ∀ (h : UserHandler) (get : PromptsGetRequest),
        lastRegistered Registration.promptName k none regs = some h →
        unmarshalPromptsGet params = .ok get → get.Name = k →
        handlePromptsGet ((NewServer name version).registerAll regs) params =
          some { server := (NewServer name version).registerAll regs
                 result := (h params).map Value.ofHandler
                 calls := [{ key := "prompt_" ++ k, params := params
                             result := (h params).map Value.ofHandler }] }) := by
  obtain ⟨n1, n2, n3⟩ := newServer_capability_keys name version k
  obtain ⟨a1, a2, a3⟩ := handlers_registerAll k regs (NewServer name version)
  have e1 := a1 none n1
  have e2 := a2 none n2
  have e3 := a3 none n3
  refine ⟨⟨e1, ?_⟩, ⟨e2, ?_⟩, ⟨e3, ?_⟩⟩
  · intro h call hlast hp hk
    rw [hlast] at e1
    subst hk
    cases hh : h (some (jsonMarshalMap call.Arguments)) with
    | error e =>
      refine ⟨_, handleToolsCall_handlerError hp e1 hh, rfl, rfl, ?_, ?_⟩
      · intro e' he'
        cases he'
        rfl
      · intro v hv
        cases hv
    | ok v =>
      refine ⟨_, handleToolsCall_handlerOk hp e1 hh, rfl, rfl, ?_, ?_⟩
      · intro e' he'
        cases he'
      · intro v' hv
        cases hv
        rfl
  · intro h read hlast hp hk
    rw [hlast] at e2
    subst hk
    exact handleResourcesRead_registered hp e2
  · intro h get hlast hp hk
    rw [hlast] at e3
    subst hk
    exact handlePromptsGet_registered hp e3

/-- Instance of `latest_registration_is_called`: tool `echo` registered first with
`echoHandler`, then with `failingHandler`; `tools/call` runs the second. -/
theorem latest_registration_is_called_witness :
    ∃ r : Reply,
      handleToolsCall ((NewServer "srv" "1.0").registerAll sampleRegistrations)
          (some (.obj [("name", .str "echo")])) = some r ∧
      r.server = (NewServer "srv" "1.0").registerAll sampleRegistrations ∧
      r.calls = [{ key := "tool_" ++ "echo"
                   params := some (jsonMarshalMap
                     ({ Name := "echo", Arguments := none } : ToolsCallRequest).Arguments)
                   result := (failingHandler (some (jsonMarshalMap
                     ({ Name := "echo", Arguments := none } :
                       ToolsCallRequest).Arguments))).map Value.ofHandler }] ∧
      (∀ e, failingHandler (some (jsonMarshalMap
            ({ Name := "echo", Arguments := none } : ToolsCallRequest).Arguments)) = .error e →
        r.result = .ok (.toolsCall
          { Content := [{ Typ := "text"
                          Text := "Error executing tool " ++ "echo" ++ ": " ++ e
                          Annotations := none }]
            IsError := true })) ∧
      (∀ v, failingHandler (some (jsonMarshalMap
            ({ Name := "echo", Arguments := none } : ToolsCallRequest).Arguments)) = .ok v →
        r.result = .ok (.toolsCall
          { Content := [{ Typ := "text", Text := formatValue v, Annotations := none }]
            IsError := false })) :=
  (latest_registration_is_called "srv" "1.0" sampleRegistrations "echo"
    (some (.obj [("name", .str "echo")]))).1.2 failingHandler
    { Name := "echo", Arguments := none } rfl rfl rfl

/-- C17: when the handler of a registered tool returns a value `v` without error, a
`tools/call` naming the tool is answered by a success response whose result has
exactly one content block, of type "text", whose text is the `%v` rendering of `v`,
and `isError` false. -/
theorem tool_value_rendered_as_text {s : Server} (hs : Reachable s) (req : JSONRPCRequest)
    (call : ToolsCallRequest) (h : UserHandler) (v : Option GoValue)
    (hm : req.Method = "tools/call")
    (hp : unmarshalToolsCall (rawParams req.Params) = .ok call)
    (hh : s.handlers.get ("tool_" ++ call.Name) = some (.registered h))
    (hv : h (some (jsonMarshalMap call.Arguments)) = .ok v) :
    handleRequest s req =
      some { server := s
             output := [{ JSONRPC := "2.0", ID := req.ID
                          Result := .toolsCall
                            { Content := [{ Typ := "text", Text := formatValue v
                                            Annotations := none }]
                              IsError := false }
                          Error := none }]
             calls := [{ key := "tools/call", params := rawParams req.Params
                         result := .ok (.toolsCall
                           { Content := [{ Typ := "text", Text := formatValue v
                                           Annotations := none }]
                             IsError := false }) },
                       { key := "tool_" ++ call.Name
                         params := some (jsonMarshalMap call.Arguments)
                         result := .ok (Value.ofHandler v) }] } := by
  have hg : s.handlers.get req.Method = some (.core .handleToolsCall) := by
    rw [hm]; exact reachable_get_core hs rfl
  have hr := invoke_core s req.Method .handleToolsCall (handleToolsCall_handlerOk hp hh hv)
  rw [handleRequest_ok hg hr rfl, hm]
  rfl

/-- Instance of `tool_value_rendered_as_text`: a tool whose handler returns the map
`map[result:success]`; the text of the block contains `result:success`. -/
theorem tool_value_rendered_as_text_witness :
    handleRequest ((NewServer "srv" "1.0").RegisterTool sampleTool mapHandler)
        (sampleRequest "tools/call" (.obj [("name", .str "echo")])) =
      some { server := (NewServer "srv" "1.0").RegisterTool sampleTool mapHandler
             output := [{ JSONRPC := "2.0", ID := .num 1
                          Result := .toolsCall
                            { Content := [{ Typ := "text", Text := "map[result:success]"
                                            Annotations := none }]
                              IsError := false }
                          Error := none }]
             calls := [{ key := "tools/call", params := some (.obj [("name", .str "echo")])
                         result := .ok (.toolsCall
                           { Content := [{ Typ := "text", Text := "map[result:success]"
                                           Annotations := none }]
                             IsError := false }) },
                       { key := "tool_echo", params := some .null
                         result := .ok (.boxed mapValue) }] } ∧
    "result:success".data <:+: "map[result:success]".data :=
  ⟨tool_value_rendered_as_text
      (Reachable.registerTool sampleTool mapHandler (Reachable.newServer "srv" "1.0"))
      (sampleRequest "tools/call" (.obj [("name", .str "echo")]))
      { Name := "echo", Arguments := none } mapHandler (some mapValue) rfl rfl rfl rfl,
    ⟨"map[".data, "]".data, rfl⟩⟩

/-- Without cancellation the loop dispatches the lines read before the end of the
stream and returns nil, from whatever iteration it starts. -/
theorem runLoop_never_cancelled (ctx : Context) (hctx : ctx.fire = none)
    (reads : List ReadResult) (i : Nat) :
    runLoop ctx reads i = { dispatched := linesBeforeEOF reads, err := none } := by
  have hdone : ∀ t, ctx.doneAt t = false := by
    intro t
    simp [Context.doneAt, hctx]
  induction reads generalizing i with
  | nil => simp [runLoop, hdone, linesBeforeEOF]
  | cons r rest ih =>
    cases hr : r.err with
    | none => simp [runLoop, hdone, linesBeforeEOF, hr, ih]
    | some e =>
      cases e with
      | eof => simp [runLoop, hdone, linesBeforeEOF, hr]
      | other msg => simp [runLoop, hdone, linesBeforeEOF, hr, ih]

/-- C18: without cancellation, `Run` dispatches exactly the lines of the reads that
succeed before the end of the stream, each once and in input order, and returns nil.
A read that fails with another error than `io.EOF` is skipped and the loop goes on;
the read that returns `io.EOF` ends the loop, and the bytes it returns (those after
the last newline) are not dispatched, nor is anything after it. -/
theorem run_dispatches_lines_until_eof (ctx : Context) (hctx : ctx.fire = none) :
    (∀ reads : List ReadResult,
      Run ctx reads = { dispatched := linesBeforeEOF reads, err := none }) ∧
    (∀ (lines : List Line),
      Run ctx (lines.map (fun d => { data := d, err := none })) =
        { dispatched := lines, err := none }) ∧
    (∀ (before after : List ReadResult) (data : Line) (msg : String),
      Run ctx (before ++ { data := data, err := some (.other msg) } :: after) =
        Run ctx (before ++ after)) ∧
    (∀ (before after : List ReadResult) (rest : Line),
      Run ctx (before ++ { data := rest, err := some .eof } :: after) = Run ctx before) := by
  have hrun : ∀ reads : List ReadResult,
      Run ctx reads = { dispatched := linesBeforeEOF reads, err := none } :=
    fun reads => runLoop_never_cancelled ctx hctx reads 0
  refine ⟨hrun, ?_, ?_, ?_⟩
  · intro lines
    rw [hrun]
    congr 1
    induction lines with
    | nil => rfl
    | cons d rest ih => simp [linesBeforeEOF, ih]
  · intro before after data msg
    rw [hrun, hrun]
    congr 1
    induction before with
    | nil => simp [linesBeforeEOF]
    | cons r rest ih =>
      cases hr : r.err with
      | none => simp [linesBeforeEOF, hr, ih]
      | some e => cases e <;> simp [linesBeforeEOF, hr, ih]
  · intro before after rest
    rw [hrun, hrun]
    congr 1
    induction before with
    | nil => simp [linesBeforeEOF]
    | cons r rest' ih =>
      cases hr : r.err with
      | none => simp [linesBeforeEOF, hr, ih]
      | some e => cases e <;> simp [linesBeforeEOF, hr, ih]

/-- Instance of `run_dispatches_lines_until_eof`: a line, a failed read, a second
line, then the end of the stream with bytes after the last newline. -/
theorem run_dispatches_lines_until_eof_witness :
    Run background
        [{ data := sampleLine "tools/list" .null, err := none },
         { data := .invalid "", err := some (.other "read error") },
         { data := sampleNotification "initialized", err := none },
         { data := sampleLine "prompts/list" .null, err := some .eof }] =
      { dispatched := [sampleLine "tools/list" .null, sampleNotification "initialized"]
        err := none } :=
  (run_dispatches_lines_until_eof background rfl).1 _

/-- Once the context is done at the `select` of an iteration the loop reaches, the
reads from that iteration on play no part, and the loop returns the error of the
context. -/
theorem runLoop_cancelled (ctx : Context) (before after : List ReadResult) (i : Nat)
    (hreach : ∀ r ∈ before, r.err ≠ some .eof)
    (hdone : ctx.doneAt (2 * (i + before.length)) = true) :
    runLoop ctx (before ++ after) i = runLoop ctx before i ∧
      (runLoop ctx before i).err = some ctx.err ∧
      (runLoop ctx before i).dispatched.Sublist (before.map (fun r => r.data)) := by
  induction before generalizing i with
  | nil =>
    simp only [List.length_nil, Nat.add_zero] at hdone
    cases after <;> simp [runLoop, hdone]
  | cons r rest ih =>
    have hrest : ∀ r' ∈ rest, r'.err ≠ some .eof :=
      fun r' hr' => hreach r' (List.mem_cons_of_mem _ hr')
    have hdone' : ctx.doneAt (2 * (i + 1 + rest.length)) = true := by
      rw [List.length_cons] at hdone
      rw [show i + 1 + rest.length = i + (rest.length + 1) by omega]
      exact hdone
    obtain ⟨h1, h2, h3⟩ := ih (i + 1) hrest hdone'
    by_cases hd : ctx.doneAt (2 * i) = true
    · simp [runLoop, hd]
    · have hd' : ctx.doneAt (2 * i) = false := by simpa using hd
      cases hr : r.err with
      | none =>
        have e1 : runLoop ctx (r :: (rest ++ after)) i =
            { dispatched := r.data :: (runLoop ctx (rest ++ after) (i + 1)).dispatched
              err := (runLoop ctx (rest ++ after) (i + 1)).err } := by
          simp [runLoop, hd', hr]
        have e2 : runLoop ctx (r :: rest) i =
            { dispatched := r.data :: (runLoop ctx rest (i + 1)).dispatched
              err := (runLoop ctx rest (i + 1)).err } := by
          simp [runLoop, hd', hr]
        rw [List.cons_append, e1, e2, h1, List.map_cons]
        exact ⟨rfl, h2, h3.cons₂ _⟩
      | some e =>
        cases e with
        | eof => exact absurd hr (hreach r (List.mem_cons_self _ _))
        | other msg =>
          have e1 : runLoop ctx (r :: (rest ++ after)) i =
              runLoop ctx (rest ++ after) (i + 1) := by
            simp [runLoop, hd', hr]
          have e2 : runLoop ctx (r :: rest) i = runLoop ctx rest (i + 1) := by
            simp [runLoop, hd', hr]
          rw [List.cons_append, e1, e2, h1, List.map_cons]
          exact ⟨rfl, h2, h3.cons _⟩

/-- C19 (counterexample): the cancellation signal fires while the first read is
waiting for input. A line that this read returns afterwards is still dispatched
before `Run` returns the cancellation error, and if the read returns the end of the
stream instead, `Run` returns nil. -/
theorem line_read_after_cancellation_is_dispatched :
    cancelledDuringFirstRead.doneAt 0 = false ∧ cancelledDuringFirstRead.doneAt 1 = true ∧
    Run cancelledDuringFirstRead [{ data := sampleLine "tools/list" .null, err := none }] =
      { dispatched := [sampleLine "tools/list" .null], err := some "context canceled" } ∧
    Run cancelledDuringFirstRead [] = { dispatched := [], err := none } :=
  ⟨rfl, rfl, rfl, rfl⟩

/-- C19 (amended): once the cancellation signal has fired by the time of the check at
the top of an iteration that the loop reaches, `Run` dispatches no frame read in that
iteration or later — what it dispatches are lines of the earlier reads — and returns
the cancellation error of the context, not nil. -/
theorem run_stops_at_cancelled_check (ctx : Context) (before after : List ReadResult)
    (hreach : ∀ r ∈ before, r.err ≠ some .eof)
    (hdone : ctx.doneAt (2 * before.length) = true) :
    Run ctx (before ++ after) = Run ctx before ∧
      (Run ctx (before ++ after)).err = some ctx.err ∧
      (Run ctx (before ++ after)).dispatched.Sublist (before.map (fun r => r.data)) := by
  have h := runLoop_cancelled ctx before after 0 hreach (by simpa using hdone)
  unfold Run
  rw [h.1]
  exact ⟨rfl, h.2.1, h.2.2⟩

/-- Instance of `run_stops_at_cancelled_check`: the signal fires before the second
check; the second line is not dispatched. -/
theorem run_stops_at_cancelled_check_witness :
    Run { fire := some 2, err := "context canceled" }
        ([{ data := sampleLine "tools/list" .null, err := none }] ++
          [{ data := sampleLine "prompts/list" .null, err := none }]) =
      Run { fire := some 2, err := "context canceled" }
        [{ data := sampleLine "tools/list" .null, err := none }] ∧
    (Run { fire := some 2, err := "context canceled" }
        ([{ data := sampleLine "tools/list" .null, err := none }] ++
          [{ data := sampleLine "prompts/list" .null, err := none }])).err =
      some "context canceled" ∧
    (Run { fire := some 2, err := "context canceled" }
        ([{ data := sampleLine "tools/list" .null, err := none }] ++
          [{ data := sampleLine "prompts/list" .null, err := none }])).dispatched.Sublist
      ([{ data := sampleLine "tools/list" .null, err := none }].map
        (fun r : ReadResult => r.data)) :=
  run_stops_at_cancelled_check { fire := some 2, err := "context canceled" }
    [{ data := sampleLine "tools/list" .null, err := none }]
    [{ data := sampleLine "prompts/list" .null, err := none }]
    (by intro r hr; simp only [List.mem_singleton] at hr; subst hr; simp) rfl

/-- C20 (the code departs from the claim): two goroutines answer the requests with
ids `1` and `2` through the shared writer, which `sendResponse` uses without a lock.
When their calls alternate, the output holds both encoded responses glued together
on one line, followed by an empty line: neither line is one of the two responses.
Only when one goroutine makes its three calls before the other starts does each
response get a line of its own. -/
theorem concurrent_responses_interleave :
    writerOutput (interleave [true, false, true, false, true, false]
        (sendResponseOps frameOne) (sendResponseOps frameTwo)) =
      frameOne ++ frameTwo ++ "\n\n" ∧
    outputLines (writerOutput (interleave [true, false, true, false, true, false]
        (sendResponseOps frameOne) (sendResponseOps frameTwo))) =
      [frameOne ++ frameTwo, ""] ∧
    outputLines (writerOutput (interleave [true, true, true]
        (sendResponseOps frameOne) (sendResponseOps frameTwo))) = [frameOne, frameTwo] := by
  refine ⟨by decide, by decide, by decide⟩

/-! ## Error codes, handler keys, decoding of the id, and what handlers are given -/

/-- C21: the seven error-code constants have the values ParseError = -32700,
InvalidRequest = -32600, MethodNotFound = -32601, InvalidParams = -32602,
InternalError = -32603, InvalidRequestError = -32000 and InternalServerError = -32001,
and no two of them are equal. -/
theorem error_codes_standard_and_distinct :
    ParseError = -32700 ∧ InvalidRequest = -32600 ∧ MethodNotFound = -32601 ∧
    InvalidParams = -32602 ∧ InternalError = -32603 ∧ InvalidRequestError = -32000 ∧
    InternalServerError = -32001 ∧
    [ParseError, InvalidRequest, MethodNotFound, InvalidParams, InternalError,
      InvalidRequestError, InternalServerError].Nodup := by
  decide

/-- Each built-in method is named by `coreOf`. -/
theorem coreOf_builtin {e : String × Core} (he : e ∈ builtinHandlers) :
    coreOf e.1 = some e.2 := by
  simp only [builtinHandlers, List.mem_cons, List.mem_singleton, List.not_mem_nil,
    or_false] at he
  rcases he with rfl | rfl | rfl | rfl | rfl | rfl | rfl | rfl <;> rfl

/-- A key that is not named by `coreOf` is none of the built-in method names. -/
theorem not_builtin_of_coreOf {k : String} (hk : coreOf k = none) : k ∉ builtinMethods := by
  intro hmem
  obtain ⟨e, he, rfl⟩ := List.mem_map.mp hmem
  rw [coreOf_builtin he] at hk
  exact absurd hk (by simp)

/-- C22: for all tool names, resource URIs and prompt names the keys
`"tool_" ++ name`, `"resource_" ++ uri` and `"prompt_" ++ prompt` differ from each other
and from the eight built-in method names; a registration of one kind leaves the
entries under the keys of the other kinds as they are; and in every state reached by
registrations (and frames) each built-in method maps to its original handler. -/
theorem registration_keys_never_collide (name uri prompt : String) :
    "tool_" ++ name ≠ "resource_" ++ uri ∧ "tool_" ++ name ≠ "prompt_" ++ prompt ∧
    "resource_" ++ uri ≠ "prompt_" ++ prompt ∧
    (∀ m ∈ builtinMethods,
      "tool_" ++ name ≠ m ∧ "resource_" ++ uri ≠ m ∧ "prompt_" ++ prompt ≠ m) ∧
    (∀ (s : Server) (r : Registration) (k : String),
      (r.toolName = none →
        (s.register r).handlers.get ("tool_" ++ k) = s.handlers.get ("tool_" ++ k)) ∧
      (r.resourceURI = none →
        (s.register r).handlers.get ("resource_" ++ k) = s.handlers.get ("resource_" ++ k)) ∧
      (r.promptName = none →
        (s.register r).handlers.get ("prompt_" ++ k) = s.handlers.get ("prompt_" ++ k))) ∧
    (∀ s : Server, Reachable s →
      ∀ e ∈ builtinHandlers, s.handlers.get e.1 = some (.core e.2)) := by
  refine ⟨tool_ne_resource _ _, tool_ne_prompt _ _, resource_ne_prompt _ _, ?_, ?_, ?_⟩
  · intro m hm
    refine ⟨?_, ?_, ?_⟩
    · intro h; exact not_builtin_of_coreOf (coreOf_tool name) (h ▸ hm)
    · intro h; exact not_builtin_of_coreOf (coreOf_resource uri) (h ▸ hm)
    · intro h; exact not_builtin_of_coreOf (coreOf_prompt prompt) (h ▸ hm)
  · intro s r k
    obtain ⟨h1, h2, h3⟩ := handlers_register s r k
    refine ⟨fun h => ?_, fun h => ?_, fun h => ?_⟩
    · rw [h1, h]; simp
    · rw [h2, h]; simp
    · rw [h3, h]; simp
  · intro s hs e he
    exact reachable_get_core hs (coreOf_builtin he)

/-- Instance of `registration_keys_never_collide`: the empty name and names made of
`/` and `_`; the built-ins of a server with tool `echo` registered. -/
theorem registration_keys_never_collide_witness :
    ("tool_" ++ "" ≠ "tools/call" ∧ "resource_" ++ "s/read" ≠ "tools/call" ∧
      "prompt_" ++ "_" ≠ "tools/call") ∧
    ((NewServer "srv" "1.0").RegisterTool sampleTool echoHandler).handlers.get "tools/call" =
      some (.core .handleToolsCall) :=
  ⟨(registration_keys_never_collide "" "s/read" "_").2.2.2.1 "tools/call" (by decide),
   (registration_keys_never_collide "" "s/read" "_").2.2.2.2.2 _
     (Reachable.registerTool sampleTool echoHandler (Reachable.newServer "srv" "1.0"))
     ("tools/call", .handleToolsCall) (by decide)⟩

/-- Listing and lookup agree after one more registration call. -/
theorem listed_iff_entry_register {s : Server} (r : Registration)
    (hs : ∀ k : String,
      (k ∈ s.tools.keys ↔ (s.handlers.get ("tool_" ++ k)).isSome = true) ∧
      (k ∈ s.resources.keys ↔ (s.handlers.get ("resource_" ++ k)).isSome = true) ∧
      (k ∈ s.prompts.keys ↔ (s.handlers.get ("prompt_" ++ k)).isSome = true)) (k : String) :
    (k ∈ (s.register r).tools.keys ↔
      ((s.register r).handlers.get ("tool_" ++ k)).isSome = true) ∧
    (k ∈ (s.register r).resources.keys ↔
      ((s.register r).handlers.get ("resource_" ++ k)).isSome = true) ∧
    (k ∈ (s.register r).prompts.keys ↔
      ((s.register r).handlers.get ("prompt_" ++ k)).isSome = true) := by
  obtain ⟨m1, m2, m3⟩ := mem_keys_register s r k
  obtain ⟨h1, h2, h3⟩ := handlers_register s r k
  obtain ⟨i1, i2, i3⟩ := hs k
  rw [m1, m2, m3, h1, h2, h3, i1, i2, i3]
  refine ⟨?_, ?_, ?_⟩ <;> split <;> simp_all

/-- In every reachable state a key is in a descriptor map exactly when the
`handlers` map has an entry under the key with the tag of that kind. -/
theorem reachable_listed_iff_entry {s : Server} (hs : Reachable s) (k : String) :
    (k ∈ s.tools.keys ↔ (s.handlers.get ("tool_" ++ k)).isSome = true) ∧
    (k ∈ s.resources.keys ↔ (s.handlers.get ("resource_" ++ k)).isSome = true) ∧
    (k ∈ s.prompts.keys ↔ (s.handlers.get ("prompt_" ++ k)).isSome = true) := by
  induction hs generalizing k with
  | newServer name version =>
    obtain ⟨k1, k2, k3⟩ := newServer_keys name version
    obtain ⟨n1, n2, n3⟩ := newServer_capability_keys name version k
    rw [k1, k2, k3, n1, n2, n3]
    simp
  | registerTool tool handler _ ih => exact listed_iff_entry_register (.tool tool handler) ih k
  | registerResource resource handler _ ih =>
    exact listed_iff_entry_register (.resource resource handler) ih k
  | registerPrompt prompt handler _ ih =>
    exact listed_iff_entry_register (.prompt prompt handler) ih k
  | frame data st _ hst ih =>
    rcases processMessage_server hst with h | h <;> rw [h] <;> exact ih k

/-- C23: in every reachable state listing and calling agree. For params that name a
tool (resp. URI, prompt), the name is among the descriptors `tools/list`
(resp. `resources/list`, `prompts/list`) returns exactly when `tools/call`
(resp. `resources/read`, `prompts/get`) finds a handler and invokes it; when the name
is not listed the call invokes nothing and fails with "tool not found: …"
(resp. "resource not found: …", "prompt not found: …"). -/
theorem listing_and_calling_agree {s : Server} (hs : Reachable s) (params : RawMessage) :
    (∀ call : ToolsCallRequest, unmarshalToolsCall params = .ok call →
      ∃ r : Reply, handleToolsCall s params = some r ∧
        (call.Name ∈ s.tools.values.map Tool.Name ↔
          ∃ h : UserHandler,
            s.handlers.get ("tool_" ++ call.Name) = some (.registered h) ∧
            r.calls = [{ key := "tool_" ++ call.Name
                         params := some (jsonMarshalMap call.Arguments)
                         result := (h (some (jsonMarshalMap call.Arguments))).map
                           Value.ofHandler }]) ∧
        (call.Name ∉ s.tools.values.map Tool.Name ↔
          r.calls = [] ∧ r.result = .error ("tool not found: " ++ call.Name))) ∧
    (∀ read : ResourcesReadRequest, unmarshalResourcesRead params = .ok read →
      ∃ r : Reply, handleResourcesRead s params = some r ∧
        (read.URI ∈ s.resources.values.map Resource.URI ↔
          ∃ h : UserHandler,
            s.handlers.get ("resource_" ++ read.URI) = some (.registered h) ∧
            r.calls = [{ key := "resource_" ++ read.URI, params := params
                         result := (h params).map Value.ofHandler }]) ∧
        (read.URI ∉ s.resources.values.map Resource.URI →
          r.calls = [] ∧ r.result = .error ("resource not found: " ++ read.URI))) ∧
    (∀ get : PromptsGetRequest, unmarshalPromptsGet params = .ok get →
      ∃ r : Reply, handlePromptsGet s params = some r ∧
        (get.Name ∈ s.prompts.values.map Prompt.Name ↔
          ∃ h : UserHandler,
            s.handlers.get ("prompt_" ++ get.Name) = some (.registered h) ∧
            r.calls = [{ key := "prompt_" ++ get.Name, params := params
                         result := (h params).map Value.ofHandler }]) ∧
        (get.Name ∉ s.prompts.values.map Prompt.Name →
          r.calls = [] ∧ r.result = .error ("prompt not found: " ++ get.Name))) := by
  have hci := reachable_coreIntact hs
  have hreg := reachable_registry hs
  refine ⟨?_, ?_, ?_⟩
  · intro call hp
    have hiff := (reachable_listed_iff_entry hs call.Name).1
    rw [keyedBy_names hreg.1]
    cases hg : s.handlers.get ("tool_" ++ call.Name) with
    | none =>
      have hnot : call.Name ∉ s.tools.keys := by rw [hiff, hg]; simp
      refine ⟨_, handleToolsCall_notFound hp hg, ?_, ?_⟩
      · simp [hnot]
      · simp [hnot]
    | some handler =>
      have hin : call.Name ∈ s.tools.keys := by rw [hiff, hg]; rfl
      obtain ⟨h, rfl⟩ := capability_entry_registered hci (coreOf_tool _) hg
      cases he : h (some (jsonMarshalMap call.Arguments)) with
      | error err =>
        refine ⟨_, handleToolsCall_handlerError hp hg he, ?_, ?_⟩
        · exact ⟨fun _ => ⟨h, rfl, by rw [he]; rfl⟩, fun _ => hin⟩
        · simp [hin]
      | ok v =>
        refine ⟨_, handleToolsCall_handlerOk hp hg he, ?_, ?_⟩
        · exact ⟨fun _ => ⟨h, rfl, by rw [he]; rfl⟩, fun _ => hin⟩
        · simp [hin]
  · intro read hp
    have hiff := (reachable_listed_iff_entry hs read.URI).2.1
    rw [keyedBy_names hreg.2.1]
    cases hg : s.handlers.get ("resource_" ++ read.URI) with
    | none =>
      have hnot : read.URI ∉ s.resources.keys := by rw [hiff, hg]; simp
      refine ⟨_, handleResourcesRead_notFound hp hg, ?_, ?_⟩
      · simp [hnot]
      · simp
    | some handler =>
      have hin : read.URI ∈ s.resources.keys := by rw [hiff, hg]; rfl
      obtain ⟨h, rfl⟩ := capability_entry_registered hci (coreOf_resource _) hg
      refine ⟨_, handleResourcesRead_registered hp hg, ?_, ?_⟩
      · exact ⟨fun _ => ⟨h, rfl, rfl⟩, fun _ => hin⟩
      · intro hnot; exact absurd hin hnot
  · intro get hp
    have hiff := (reachable_listed_iff_entry hs get.Name).2.2
    rw [keyedBy_names hreg.2.2]
    cases hg : s.handlers.get ("prompt_" ++ get.Name) with
    | none =>
      have hnot : get.Name ∉ s.prompts.keys := by rw [hiff, hg]; simp
      refine ⟨_, handlePromptsGet_notFound hp hg, ?_, ?_⟩
      · simp [hnot]
      · simp
    | some handler =>
      have hin : get.Name ∈ s.prompts.keys := by rw [hiff, hg]; rfl
      obtain ⟨h, rfl⟩ := capability_entry_registered hci (coreOf_prompt _) hg
      refine ⟨_, handlePromptsGet_registered hp hg, ?_, ?_⟩
      · exact ⟨fun _ => ⟨h, rfl, rfl⟩, fun _ => hin⟩
      · intro hnot; exact absurd hin hnot

/-- Instance of `listing_and_calling_agree`: tool `echo` is listed and called, on a
server that also processed the `initialized` notification. -/
theorem listing_and_calling_agree_witness :
    ∃ r : Reply,
      handleToolsCall ((NewServer "srv" "1.0").RegisterTool sampleTool echoHandler)
          (some (.obj [("name", .str "echo")])) = some r ∧
      (({ Name := "echo", Arguments := none } : ToolsCallRequest).Name ∈
          ((NewServer "srv" "1.0").RegisterTool sampleTool echoHandler).tools.values.map
            Tool.Name ↔
        ∃ h : UserHandler,
          ((NewServer "srv" "1.0").RegisterTool sampleTool echoHandler).handlers.get
            ("tool_" ++ ({ Name := "echo", Arguments := none } : ToolsCallRequest).Name) =
              some (.registered h) ∧
          r.calls = [{ key := "tool_" ++ ({ Name := "echo", Arguments := none } :
                           ToolsCallRequest).Name
                       params := some (jsonMarshalMap
                         ({ Name := "echo", Arguments := none } : ToolsCallRequest).Arguments)
                       result := (h (some (jsonMarshalMap
                         ({ Name := "echo", Arguments := none } :
                           ToolsCallRequest).Arguments))).map Value.ofHandler }]) ∧
      (({ Name := "echo", Arguments := none } : ToolsCallRequest).Name ∉
          ((NewServer "srv" "1.0").RegisterTool sampleTool echoHandler).tools.values.map
            Tool.Name ↔
        r.calls = [] ∧
          r.result = .error ("tool not found: " ++
            ({ Name := "echo", Arguments := none } : ToolsCallRequest).Name)) :=
  (listing_and_calling_agree
    (Reachable.registerTool sampleTool echoHandler (Reachable.newServer "srv" "1.0"))
    (some (.obj [("name", .str "echo")]))).1 { Name := "echo", Arguments := none } rfl

/-- A member whose key does not select the field `arguments` leaves that field of a
`ToolsCallRequest` as it is. -/
theorem ToolsCallRequest.setField_keeps_arguments {r r' : ToolsCallRequest} {key : String}
    {v : Json} (hk : nameIs key "arguments" = false) (h : r.setField key v = .ok r') :
    r'.Arguments = r.Arguments := by
  unfold ToolsCallRequest.setField at h
  simp only [hk, Bool.false_eq_true, if_false] at h
  split at h
  · cases hd : decodeString "ToolsCallRequest.name" r.Name v with
    | error e => rw [hd] at h; cases h
    | ok s =>
      rw [hd] at h
      simp only [Except.map, Except.ok.injEq] at h
      subst h
      rfl
  · simp only [Except.ok.injEq] at h
    subst h
    rfl

/-- A key that selects the field `arguments` does not select the field `name`. -/
theorem key_arguments_not_name {key : String} (hk : nameIs key "arguments" = true) :
    nameIs key "name" = false := by
  have hfold : foldName key = foldName "arguments" := by
    simpa [nameIs] using hk
  simp only [nameIs, hfold]
  decide

/-- A member that selects the field `arguments` is decoded into the map of the
request, whatever the other fields hold. -/
theorem ToolsCallRequest.setField_arguments (r : ToolsCallRequest) {key : String} (v : Json)
    (hk : nameIs key "arguments" = true) :
    r.setField key v =
      (decodeMap "ToolsCallRequest.arguments" r.Arguments v).map
        (fun a => { r with Arguments := a }) := by
  unfold ToolsCallRequest.setField
  simp only [key_arguments_not_name hk, hk, Bool.false_eq_true, if_false, if_true]

/-- The arguments a `ToolsCallRequest` is decoded with depend on the `arguments`
members of the object only: decoding these members alone, from any request with the
same arguments so far, gives the same arguments. -/
theorem ToolsCallRequest.fold_filter (l : List (String × Json))
    (r1 r2 r1' : ToolsCallRequest) (hargs : r1.Arguments = r2.Arguments)
    (h : l.foldlM (fun acc kv => ToolsCallRequest.setField acc kv.1 kv.2) r1 = .ok r1') :
    ∃ r2' : ToolsCallRequest,
      (l.filter (fun kv => nameIs kv.1 "arguments")).foldlM
        (fun acc kv => ToolsCallRequest.setField acc kv.1 kv.2) r2 = .ok r2' ∧
      r2'.Arguments = r1'.Arguments := by
  induction l generalizing r1 r2 with
  | nil =>
    simp only [List.foldlM_nil, pure, Except.pure, Except.ok.injEq] at h
    subst h
    exact ⟨r2, rfl, hargs.symm⟩
  | cons kv rest ih =>
    rw [foldlM_cons_except] at h
    cases hstep : r1.setField kv.1 kv.2 with
    | error e => rw [hstep] at h; cases h
    | ok r1m =>
      rw [hstep] at h
      by_cases hk : nameIs kv.1 "arguments" = true
      · simp only [List.filter_cons, hk, if_true]
        rw [foldlM_cons_except]
        rw [ToolsCallRequest.setField_arguments r1 kv.2 hk] at hstep
        rw [ToolsCallRequest.setField_arguments r2 kv.2 hk, ← hargs]
        cases hd : decodeMap "ToolsCallRequest.arguments" r1.Arguments kv.2 with
        | error e => rw [hd] at hstep; cases hstep
        | ok a =>
          rw [hd] at hstep
          simp only [Except.map, Except.ok.injEq] at hstep
          subst hstep
          exact ih { r1 with Arguments := a } { r2 with Arguments := a } rfl h
      · have hk' : nameIs kv.1 "arguments" = false := Bool.eq_false_iff.mpr hk
        simp only [List.filter_cons, hk', Bool.false_eq_true, if_false]
        exact ih r1m r2 ((ToolsCallRequest.setField_keeps_arguments hk' hstep).trans hargs) h

/-- Params without an `arguments` member decode to a request with nil arguments. -/
theorem unmarshalToolsCall_no_arguments (kvs : List (String × Json))
    (hkvs : ∀ kv ∈ kvs, nameIs kv.1 "arguments" = false) (call : ToolsCallRequest)
    (h : unmarshalToolsCall (some (.obj kvs)) = .ok call) : call.Arguments = none := by
  have hfilter : kvs.filter (fun kv => nameIs kv.1 "arguments") = [] := by
    rw [List.filter_eq_nil_iff]
    intro kv hkv
    rw [hkvs kv hkv]
    simp
  obtain ⟨r2, hr2, hargs⟩ := ToolsCallRequest.fold_filter kvs _
    { Name := "", Arguments := none } call rfl h
  rw [hfilter] at hr2
  simp only [List.foldlM_nil, pure, Except.pure, Except.ok.injEq] at hr2
  rw [← hargs, ← hr2]

/-- Params whose only `arguments` member is an object decode to a request whose
arguments are the members of that object, decoded into a fresh map. -/
theorem unmarshalToolsCall_one_arguments (pre post : List (String × Json)) (k : String)
    (a : List (String × Json)) (hk : nameIs k "arguments" = true)
    (hpre : ∀ kv ∈ pre, nameIs kv.1 "arguments" = false)
    (hpost : ∀ kv ∈ post, nameIs kv.1 "arguments" = false) (call : ToolsCallRequest)
    (h : unmarshalToolsCall (some (.obj (pre ++ (k, .obj a) :: post))) = .ok call) :
    decodeMap "ToolsCallRequest.arguments" none (.obj a) = .ok call.Arguments := by
  have hnil : ∀ l : List (String × Json), (∀ kv ∈ l, nameIs kv.1 "arguments" = false) →
      l.filter (fun kv => nameIs kv.1 "arguments") = [] := by
    intro l hl
    rw [List.filter_eq_nil_iff]
    intro kv hkv
    rw [hl kv hkv]
    simp
  have hfilter : (pre ++ (k, Json.obj a) :: post).filter (fun kv => nameIs kv.1 "arguments") =
      [(k, .obj a)] := by
    rw [List.filter_append, hnil pre hpre]
    simp only [List.filter_cons, hk, if_true, hnil post hpost, List.nil_append]
  obtain ⟨r2, hr2, hargs⟩ := ToolsCallRequest.fold_filter _ _
    { Name := "", Arguments := none } call rfl h
  rw [hfilter, foldlM_cons_except,
    ToolsCallRequest.setField_arguments _ (.obj a) hk] at hr2
  cases hd : decodeMap "ToolsCallRequest.arguments" none (.obj a) with
  | error e => rw [hd] at hr2; cases hr2
  | ok m =>
    rw [hd] at hr2
    simp only [Except.map, List.foldlM_nil, pure, Except.pure, Except.ok.injEq] at hr2
    rw [← hargs, ← hr2]

/-- The URI a `ResourcesReadRequest` is decoded with is the empty string or the string
value of a `uri` member of the object. -/
theorem ResourcesReadRequest.fold_uri (l : List (String × Json))
    (r r' : ResourcesReadRequest)
    (h : l.foldlM (fun acc kv => ResourcesReadRequest.setField acc kv.1 kv.2) r = .ok r') :
    r'.URI = r.URI ∨ ∃ kv ∈ l, nameIs kv.1 "uri" = true ∧ kv.2 = .str r'.URI := by
  induction l generalizing r with
  | nil =>
    simp only [List.foldlM_nil, pure, Except.pure, Except.ok.injEq] at h
    subst h
    exact Or.inl rfl
  | cons kv rest ih =>
    rw [foldlM_cons_except] at h
    cases hstep : r.setField kv.1 kv.2 with
    | error e => rw [hstep] at h; cases h
    | ok r1 =>
      rw [hstep] at h
      rcases ih r1 h with h1 | ⟨kv', hkv', hm⟩
      · unfold ResourcesReadRequest.setField at hstep
        split at hstep
        next hk =>
          cases hv : kv.2 with
          | str s =>
            rw [hv] at hstep
            simp only [decodeString, Except.map, Except.ok.injEq] at hstep
            subst hstep
            exact Or.inr ⟨kv, List.mem_cons_self _ _, hk, by rw [hv, h1]⟩
          | null =>
            rw [hv] at hstep
            simp only [decodeString, Except.map, Except.ok.injEq] at hstep
            subst hstep
            exact Or.inl h1
          | bool b => rw [hv] at hstep; simp [decodeString, Except.map] at hstep
          | num x => rw [hv] at hstep; simp [decodeString, Except.map] at hstep
          | arr xs => rw [hv] at hstep; simp [decodeString, Except.map] at hstep
          | obj kvs => rw [hv] at hstep; simp [decodeString, Except.map] at hstep
        next =>
          simp only [Except.ok.injEq] at hstep
          subst hstep
          exact Or.inl h1
      · exact Or.inr ⟨kv', List.mem_cons_of_mem _ hkv', hm⟩

/-- Params that decode to a `ResourcesReadRequest` with a non-empty URI are an object
with a `uri` member holding that URI. -/
theorem unmarshalResourcesRead_uri_member (params : RawMessage) (read : ResourcesReadRequest)
    (h : unmarshalResourcesRead params = .ok read) (huri : read.URI ≠ "") :
    ∃ kvs : List (String × Json), params = some (.obj kvs) ∧
      ∃ kv ∈ kvs, nameIs kv.1 "uri" = true ∧ kv.2 = .str read.URI := by
  cases params with
  | none => simp [unmarshalResourcesRead, unmarshalStruct] at h
  | some j =>
    cases j with
    | obj kvs =>
      refine ⟨kvs, rfl, ?_⟩
      simp only [unmarshalResourcesRead, unmarshalStruct, decodeStruct] at h
      rcases ResourcesReadRequest.fold_uri kvs _ read h with h1 | h1
      · exact absurd h1 huri
      · exact h1
    | null =>
      simp only [unmarshalResourcesRead, unmarshalStruct, decodeStruct,
        Except.ok.injEq] at h
      subst h
      exact absurd rfl huri
    | bool b => simp [unmarshalResourcesRead, unmarshalStruct, decodeStruct] at h
    | num x => simp [unmarshalResourcesRead, unmarshalStruct, decodeStruct] at h
    | str s => simp [unmarshalResourcesRead, unmarshalStruct, decodeStruct] at h
    | arr xs => simp [unmarshalResourcesRead, unmarshalStruct, decodeStruct] at h

/-- C25: `tools/call` hands the tool handler the re-encoded arguments of the request
and nothing else. These bytes are the JSON text `null` exactly when the decoded
arguments are nil, as they are when the params have no `arguments` member; when the
params have one `arguments` member, an object, they are that member decoded and
encoded again; and they are the same for all params with the same `arguments`
members, whatever `name` they carry. `resources/read` and `prompts/get` hand their
handler the very params the built-in was given, which hold the `uri` member with the
URI read. In each case the response is built from what the handler returned on these
bytes. -/
theorem handler_arguments_differ_by_method {s : Server} (hs : Reachable s)
    (req : JSONRPCRequest) (h : UserHandler) :
    (∀ call : ToolsCallRequest, req.Method = "tools/call" →
      unmarshalToolsCall (rawParams req.Params) = .ok call →
      s.handlers.get ("tool_" ++ call.Name) = some (.registered h) →
      ∃ (st : Step) (reply : ToolsCallResponse),
        handleRequest s req = some st ∧
        st.calls = [{ key := "tools/call", params := rawParams req.Params
                      result := .ok (.toolsCall reply) },
                    { key := "tool_" ++ call.Name
                      params := some (jsonMarshalMap call.Arguments)
                      result := (h (some (jsonMarshalMap call.Arguments))).map
                        Value.ofHandler }] ∧
        st.output = [{ JSONRPC := "2.0", ID := req.ID, Result := .toolsCall reply
                       Error := none }] ∧
        (∀ e : String, h (some (jsonMarshalMap call.Arguments)) = .error e →
          reply = { Content := [{ Typ := "text"
                                  Text := "Error executing tool " ++ call.Name ++ ": " ++ e
                                  Annotations := none }]
                    IsError := true }) ∧
        (∀ v : Option GoValue, h (some (jsonMarshalMap call.Arguments)) = .ok v →
          reply = { Content := [{ Typ := "text", Text := formatValue v, Annotations := none }]
                    IsError := false }) ∧
        (jsonMarshalMap call.Arguments = .null ↔ call.Arguments = none) ∧
        (∀ kvs : List (String × Json), rawParams req.Params = some (.obj kvs) →
          (∀ kv ∈ kvs, nameIs kv.1 "arguments" = false) →
          jsonMarshalMap call.Arguments = .null) ∧
        (∀ (pre post : List (String × Json)) (k : String) (a : List (String × Json)),
          rawParams req.Params = some (.obj (pre ++ (k, .obj a) :: post)) →
          nameIs k "arguments" = true →
          (∀ kv ∈ pre, nameIs kv.1 "arguments" = false) →
          (∀ kv ∈ post, nameIs kv.1 "arguments" = false) →
          (decodeInterface "ToolsCallRequest.arguments" (.obj a)).bind jsonMarshal =
            .ok (jsonMarshalMap call.Arguments)) ∧
        (∀ (kvs kvs' : List (String × Json)) (call' : ToolsCallRequest),
          rawParams req.Params = some (.obj kvs) →
          kvs'.filter (fun kv => nameIs kv.1 "arguments") =
            kvs.filter (fun kv => nameIs kv.1 "arguments") →
          unmarshalToolsCall (some (.obj kvs')) = .ok call' →
          jsonMarshalMap call'.Arguments = jsonMarshalMap call.Arguments)) ∧
    (∀ read : ResourcesReadRequest, req.Method = "resources/read" →
      unmarshalResourcesRead (rawParams req.Params) = .ok read →
      s.handlers.get ("resource_" ++ read.URI) = some (.registered h) →
      ∃ st : Step, handleRequest s req = some st ∧
        st.calls = [{ key := "resources/read", params := rawParams req.Params
                      result := (h (rawParams req.Params)).map Value.ofHandler },
                    { key := "resource_" ++ read.URI, params := rawParams req.Params
                      result := (h (rawParams req.Params)).map Value.ofHandler }] ∧
        (read.URI ≠ "" →
          ∃ kvs : List (String × Json), rawParams req.Params = some (.obj kvs) ∧
            ∃ kv ∈ kvs, nameIs kv.1 "uri" = true ∧ kv.2 = .str read.URI)) ∧
    (∀ get : PromptsGetRequest, req.Method = "prompts/get" →
      unmarshalPromptsGet (rawParams req.Params) = .ok get →
      s.handlers.get ("prompt_" ++ get.Name) = some (.registered h) →
      ∃ st : Step, handleRequest s req = some st ∧
        st.calls = [{ key := "prompts/get", params := rawParams req.Params
                      result := (h (rawParams req.Params)).map Value.ofHandler },
                    { key := "prompt_" ++ get.Name, params := rawParams req.Params
                      result := (h (rawParams req.Params)).map Value.ofHandler }]) := by
  refine ⟨?_, ?_, ?_⟩
  · intro call hm hp hh
    have hg : s.handlers.get req.Method = some (.core .handleToolsCall) := by
      rw [hm]; exact reachable_get_core hs rfl
    have hnull : jsonMarshalMap call.Arguments = .null ↔ call.Arguments = none := by
      cases call.Arguments with
      | none => exact ⟨fun _ => rfl, fun _ => rfl⟩
      | some m =>
        constructor
        · intro hj
          simp [jsonMarshalMap, Json.norm] at hj
        · intro hn
          cases hn
    have habsent : ∀ kvs : List (String × Json), rawParams req.Params = some (.obj kvs) →
        (∀ kv ∈ kvs, nameIs kv.1 "arguments" = false) →
        jsonMarshalMap call.Arguments = .null := by
      intro kvs hkvs hno
      rw [hkvs] at hp
      exact hnull.mpr (unmarshalToolsCall_no_arguments kvs hno call hp)
    have hone : ∀ (pre post : List (String × Json)) (k : String) (a : List (String × Json)),
        rawParams req.Params = some (.obj (pre ++ (k, .obj a) :: post)) →
        nameIs k "arguments" = true →
        (∀ kv ∈ pre, nameIs kv.1 "arguments" = false) →
        (∀ kv ∈ post, nameIs kv.1 "arguments" = false) →
        (decodeInterface "ToolsCallRequest.arguments" (.obj a)).bind jsonMarshal =
          .ok (jsonMarshalMap call.Arguments) := by
      intro pre post k a hkvs hk hpre hpost
      rw [hkvs] at hp
      have hdec := unmarshalToolsCall_one_arguments pre post k a hk hpre hpost call hp
      simp only [decodeMap, Option.getD, List.nil_append] at hdec
      simp only [decodeInterface, Json.convertNumbers]
      cases hc : convertMembers "ToolsCallRequest.arguments" a with
      | error e => rw [hc] at hdec; simp [Except.map] at hdec
      | ok ms =>
        rw [hc] at hdec
        simp only [Except.map, Except.ok.injEq] at hdec
        rw [← hdec]
        rfl
    have hsame : ∀ (kvs kvs' : List (String × Json)) (call' : ToolsCallRequest),
        rawParams req.Params = some (.obj kvs) →
        kvs'.filter (fun kv => nameIs kv.1 "arguments") =
          kvs.filter (fun kv => nameIs kv.1 "arguments") →
        unmarshalToolsCall (some (.obj kvs')) = .ok call' →
        jsonMarshalMap call'.Arguments = jsonMarshalMap call.Arguments := by
      intro kvs kvs' call' hkvs hfilter hp'
      rw [hkvs] at hp
      obtain ⟨r2, hr2, hargs⟩ := ToolsCallRequest.fold_filter kvs _
        { Name := "", Arguments := none } call rfl hp
      obtain ⟨r2', hr2', hargs'⟩ := ToolsCallRequest.fold_filter kvs' _
        { Name := "", Arguments := none } call' rfl hp'
      rw [hfilter, hr2, Except.ok.injEq] at hr2'
      rw [← hargs, ← hargs', hr2']
    cases he : h (some (jsonMarshalMap call.Arguments)) with
    | error e =>
      have hr := invoke_core s req.Method .handleToolsCall
        (handleToolsCall_handlerError hp hh he)
      refine ⟨_, _, handleRequest_ok hg hr rfl, by rw [hm]; rfl, rfl, ?_, ?_, hnull, habsent,
        hone, hsame⟩
      · intro e' he'
        cases he'
        rfl
      · intro v hv
        cases hv
    | ok v =>
      have hr := invoke_core s req.Method .handleToolsCall
        (handleToolsCall_handlerOk hp hh he)
      refine ⟨_, _, handleRequest_ok hg hr rfl, by rw [hm]; rfl, rfl, ?_, ?_, hnull, habsent,
        hone, hsame⟩
      · intro e' he'
        cases he'
      · intro v' hv
        cases hv
        rfl
  · intro read hm hp hh
    have hg : s.handlers.get req.Method = some (.core .handleResourcesRead) := by
      rw [hm]; exact reachable_get_core hs rfl
    have hr := invoke_core s req.Method .handleResourcesRead
      (handleResourcesRead_registered hp hh)
    have hmem := unmarshalResourcesRead_uri_member _ read hp
    cases he : h (rawParams req.Params) with
    | error e =>
      exact ⟨_, handleRequest_error hg hr (by rw [he]; rfl), by rw [hm, he], hmem⟩
    | ok v =>
      exact ⟨_, handleRequest_ok hg hr (by rw [he]; rfl), by rw [hm, he], hmem⟩
  · intro get hm hp hh
    have hg : s.handlers.get req.Method = some (.core .handlePromptsGet) := by
      rw [hm]; exact reachable_get_core hs rfl
    have hr := invoke_core s req.Method .handlePromptsGet
      (handlePromptsGet_registered hp hh)
    cases he : h (rawParams req.Params) with
    | error e =>
      exact ⟨_, handleRequest_error hg hr (by rw [he]; rfl), by rw [hm, he]⟩
    | ok v =>
      exact ⟨_, handleRequest_ok hg hr (by rw [he]; rfl), by rw [hm, he]⟩

/-- Instance of `handler_arguments_differ_by_method`: a handler that reports which
members its arguments hold is registered for tool `echo` and for resource
`mem://status`. Called through `tools/call` with the arguments `text: hi, count: 2` it
is given exactly these two members, without the `name`; called without arguments it
is given `null`; called through `resources/read` it is given the params with their
`uri` member; registered for prompt `greet` and called through `prompts/get` it is
given the params with their `name` member. -/
theorem handler_arguments_differ_by_method_witness :
    (∃ (st : Step) (reply : ToolsCallResponse),
      handleRequest
          (((NewServer "srv" "1.0").RegisterTool sampleTool describeHandler).RegisterResource
            sampleResource describeHandler)
          (sampleRequest "tools/call"
            (.obj [("arguments", .obj [("count", .num 2), ("text", .str "hi")]),
              ("name", .str "echo")])) = some st ∧
      st.calls =
        [{ key := "tools/call"
           params := some (.obj [("arguments", .obj [("count", .num 2), ("text", .str "hi")]),
             ("name", .str "echo")])
           result := .ok (.toolsCall reply) },
         { key := "tool_echo"
           params := some (.obj [("count", .num 2), ("text", .str "hi")])
           result := .ok (.boxed { text := "neither name nor uri"
                                   wire := some (.str "neither name nor uri") }) }] ∧
      st.output = [{ JSONRPC := "2.0", ID := .num 1, Result := .toolsCall reply
                     Error := none }] ∧
      reply = { Content := [{ Typ := "text", Text := "neither name nor uri"
                              Annotations := none }]
                IsError := false }) ∧
    (processMessage
        (((NewServer "srv" "1.0").RegisterTool sampleTool describeHandler).RegisterResource
          sampleResource describeHandler)
        (sampleLine "tools/call"
          (.obj [("name", .str "echo"),
            ("arguments", .obj [("text", .str "hi"), ("count", .num 2)])]))).map
        (fun st => st.calls.map (fun c => (c.key, c.params))) =
      some [("tools/call",
              some (.obj [("arguments", .obj [("count", .num 2), ("text", .str "hi")]),
                ("name", .str "echo")])),
            ("tool_echo", some (.obj [("count", .num 2), ("text", .str "hi")]))] ∧
    (processMessage
        (((NewServer "srv" "1.0").RegisterTool sampleTool describeHandler).RegisterResource
          sampleResource describeHandler)
        (sampleLine "tools/call" (.obj [("name", .str "echo")]))).map
        (fun st => st.calls.map (fun c => (c.key, c.params, c.result))) =
      some [("tools/call", some (.obj [("name", .str "echo")]),
              .ok (.toolsCall
                { Content := [{ Typ := "text", Text := "no arguments", Annotations := none }]
                  IsError := false })),
            ("tool_echo", some .null,
              .ok (.boxed { text := "no arguments", wire := some (.str "no arguments") }))] ∧
    (processMessage
        (((NewServer "srv" "1.0").RegisterTool sampleTool describeHandler).RegisterResource
          sampleResource describeHandler)
        (sampleLine "resources/read" (.obj [("uri", .str "mem://status")]))).map
        (fun st => st.calls.map (fun c => (c.key, c.params, c.result))) =
      some [("resources/read", some (.obj [("uri", .str "mem://status")]),
              .ok (.boxed { text := "uri seen", wire := some (.str "uri seen") })),
            ("resource_mem://status", some (.obj [("uri", .str "mem://status")]),
              .ok (.boxed { text := "uri seen", wire := some (.str "uri seen") }))] ∧
    (processMessage ((NewServer "srv" "1.0").RegisterPrompt samplePrompt describeHandler)
        (sampleLine "prompts/get"
          (.obj [("name", .str "greet"), ("arguments", .obj [("who", .str "you")])]))).map
        (fun st => st.calls.map (fun c => (c.key, c.params, c.result))) =
      some [("prompts/get",
              some (.obj [("arguments", .obj [("who", .str "you")]), ("name", .str "greet")]),
              .ok (.boxed { text := "name seen", wire := some (.str "name seen") })),
            ("prompt_greet",
              some (.obj [("arguments", .obj [("who", .str "you")]), ("name", .str "greet")]),
              .ok (.boxed { text := "name seen", wire := some (.str "name seen") }))] := by
  obtain ⟨st, reply, hst, hcalls, hout, -, hreply, -⟩ :=
    (handler_arguments_differ_by_method
      (Reachable.registerResource sampleResource describeHandler
        (Reachable.registerTool sampleTool describeHandler (Reachable.newServer "srv" "1.0")))
      (sampleRequest "tools/call"
        (.obj [("arguments", .obj [("count", .num 2), ("text", .str "hi")]),
          ("name", .str "echo")]))
      describeHandler).1
      { Name := "echo", Arguments := some [("count", .num 2), ("text", .str "hi")] }
      rfl rfl rfl
  exact ⟨⟨st, reply, hst, hcalls, hout, hreply _ rfl⟩, rfl, rfl, rfl, rfl⟩

/-- C26: a frame with a member `id: null` (and no other `id` member before it) is
processed exactly like the same frame without that member; and when the frame has no
other `id` member at all, it is a notification: nothing is written — neither a result
nor MethodNotFound; without a handler for the method nothing runs, and otherwise the
handler runs on the raw params — a registered handler is applied to them, a built-in
method runs its body — and the invocation is recorded exactly once, with what the
handler returned. -/
theorem null_id_processed_as_notification {s : Server} (hs : Reachable s)
    (pre post : List (String × Json)) (k : String) (hk : nameIs k "id" = true)
    (hpre : ∀ kv ∈ pre, nameIs kv.1 "id" = false) :
    processMessage s (.doc (.obj (pre ++ (k, .null) :: post))) =
      processMessage s (.doc (.obj (pre ++ post))) ∧
    ((∀ kv ∈ post, nameIs kv.1 "id" = false) →
      ∀ req : JSONRPCRequest,
        unmarshalRequest (.doc (.obj (pre ++ (k, .null) :: post))) = .ok req →
        ∃ st : Step,
          processMessage s (.doc (.obj (pre ++ (k, .null) :: post))) = some st ∧
          st.output = [] ∧
          (s.handlers.get req.Method = none → st.calls = [] ∧ st.server = s) ∧
          (∀ h : UserHandler, s.handlers.get req.Method = some (.registered h) →
            st.server = s ∧
            st.calls = [{ key := req.Method, params := rawParams req.Params
                          result := (h (rawParams req.Params)).map Value.ofHandler }]) ∧
          (∀ c : Core, s.handlers.get req.Method = some (.core c) →
            ∃ r : Reply, c.run s (rawParams req.Params) = some r ∧ st.server = r.server ∧
              st.calls = { key := req.Method, params := rawParams req.Params
                           result := r.result } :: r.calls) ∧
          (∀ handler : Handler, s.handlers.get req.Method = some handler →
            st.calls.countP (fun c => c.key == req.Method) = 1) ∧
          (req.Method = "initialized" → st.server.initialized = true)) := by
  have hdec := unmarshalRequest_null_id pre post k hk hpre
  constructor
  · simp only [processMessage, hdec]
  · intro hpost req hreq
    have hid : req.ID = .null := by
      rw [hdec] at hreq
      simp only [unmarshalRequest, decodeStruct] at hreq
      have := JSONRPCRequest.fold_other (pre ++ post) _ req
        (fun kv hkv => (List.mem_append.mp hkv).elim (hpre kv) (hpost kv)) hreq
      exact this
    rw [processMessage_decoded hreq]
    simp only [hid, Json.isNull, if_true]
    exact handleNotification_spec hs req

/-- Instance of `null_id_processed_as_notification`: the frame `tool_echo` with
`id: null` on a server with tool `echo`: the registered handler found under that
method runs once and nothing is written. -/
theorem null_id_processed_as_notification_witness :
    (processMessage ((NewServer "srv" "1.0").RegisterTool sampleTool echoHandler)
        (.doc (.obj ([("jsonrpc", .str "2.0")] ++ ("id", .null) ::
          [("method", .str "tool_echo")]))) =
      processMessage ((NewServer "srv" "1.0").RegisterTool sampleTool echoHandler)
        (.doc (.obj ([("jsonrpc", .str "2.0")] ++ [("method", .str "tool_echo")])))) ∧
    (∃ st : Step,
      processMessage ((NewServer "srv" "1.0").RegisterTool sampleTool echoHandler)
          (.doc (.obj ([("jsonrpc", .str "2.0")] ++ ("id", .null) ::
            [("method", .str "tool_echo")]))) = some st ∧
      st.output = [] ∧
      st.server = (NewServer "srv" "1.0").RegisterTool sampleTool echoHandler ∧
      st.calls = [{ key := "tool_echo", params := none
                    result := .ok (.boxed sampleValue) }] ∧
      st.calls.countP (fun c => c.key == "tool_echo") = 1) := by
  obtain ⟨hsame, hspec⟩ := null_id_processed_as_notification
    (Reachable.registerTool sampleTool echoHandler (Reachable.newServer "srv" "1.0"))
    [("jsonrpc", .str "2.0")] [("method", .str "tool_echo")] "id" (by decide)
    (by intro kv hkv; simp only [List.mem_singleton] at hkv; subst hkv; decide)
  obtain ⟨st, hst, hout, -, hreg, -, hcount, -⟩ := hspec
    (by intro kv hkv; simp only [List.mem_singleton] at hkv; subst hkv; decide)
    { JSONRPC := "2.0", ID := .null, Method := "tool_echo", Params := .null } rfl
  exact ⟨hsame, st, hst, hout, (hreg echoHandler rfl).1, (hreg echoHandler rfl).2,
    hcount _ rfl⟩

/-! ## The configuration generator -/

namespace ConfigGen

/-- C27 (the code departs from the claim): for the run `-template prod-worker
-param ControllerAddress=controller.example.com -nodes 2 -output worker.yaml` the
validation passes, because with more than one node it skips the missing `WorkerID`;
but with an output path `Generate` takes the single-file branch, which executes the
template once, with the parameters as given: the required `WorkerID` has no value. -/
theorem single_output_with_many_nodes_lacks_node_id :
    (NewConfigGenerator "configs").templates.get sampleConfig.Template = some prodWorker ∧
    validateParameters prodWorker sampleConfig.Parameters (decide (sampleConfig.Nodes > 1)) =
      .ok () ∧
    Generate (NewConfigGenerator "configs") sampleSystem sampleConfig =
      { executions := [{ path := "worker.yaml", params := sampleParameters }], err := none } ∧
    sampleParameters.get "WorkerID" = none ∧
    allRequiredPresent prodWorker sampleParameters = false :=
  ⟨rfl, rfl, rfl, rfl, rfl⟩

/-- A lookup in an entry list finds a value exactly for the keys of the list. -/
theorem find_isSome_iff {α : Type} (m : List (String × α)) (k : String) :
    (GoMap.find m k).isSome = true ↔ k ∈ m.map Prod.fst := by
  induction m with
  | nil => simp [GoMap.find]
  | cons p rest ih =>
    obtain ⟨k0, v0⟩ := p
    by_cases h0 : k0 = k
    · simp [GoMap.find, h0]
    · simp [GoMap.find, h0, ih, Ne.symm h0]

/-- Keys with a value after copying entries into a map one by one. -/
theorem copy_isSome (l : List (String × String)) (init : GoMap String) (k : String) :
    ((l.foldl (fun m kv => m.set kv.1 kv.2) init).get k).isSome = true ↔
      (init.get k).isSome = true ∨ k ∈ l.map Prod.fst := by
  induction l generalizing init with
  | nil => simp
  | cons p rest ih =>
    rw [List.foldl_cons, ih, GoMap.get_set]
    by_cases h0 : p.1 = k
    · simp [h0]
    · simp [h0, Ne.symm h0]

/-- Every parameter given has a value in the parameters of each node. -/
theorem nodeParameters_keeps (config : TemplateConfig) (i : Nat) (k : String)
    (h : (config.Parameters.get k).isSome = true) :
    ((nodeParameters config i).get k).isSome = true := by
  have hcopy : ((config.Parameters.entries.foldl (fun m kv => m.set kv.1 kv.2)
      GoMap.empty).get k).isSome = true := by
    rw [copy_isSome]
    exact Or.inr ((find_isSome_iff _ _).mp h)
  unfold nodeParameters
  simp only
  split
  · rw [GoMap.get_set]; split <;> simp [hcopy]
  · split
    · rw [GoMap.get_set]; split <;> simp [hcopy]
    · exact hcopy

/-- The node identifier is generated according to the name of the template. -/
theorem nodeParameters_generated (config : TemplateConfig) (i : Nat) :
    (stringsContains config.Template "worker" = true →
      ((nodeParameters config i).get "WorkerID").isSome = true) ∧
    (stringsContains config.Template "worker" = false →
      stringsContains config.Template "edge" = true →
      ((nodeParameters config i).get "EdgeID").isSome = true) := by
  unfold nodeParameters
  constructor
  · intro h
    simp [h, GoMap.get_set]
  · intro h1 h2
    simp [h1, h2, GoMap.get_set]

/-- Validation for a single node passes only if every required parameter is given. -/
theorem validateEach_strict (params : GoMap String) (ps : List TemplateParameter)
    (h : validateEach params false ps = .ok ()) :
    ∀ p ∈ ps, p.Required = true → (params.get p.Name).isSome = true := by
  induction ps with
  | nil => intro p hp; cases hp
  | cons q rest ih =>
    intro p hp hreq
    unfold validateEach at h
    by_cases hq : q.Required = true
    · simp only [hq, if_true] at h
      cases hget : params.get q.Name with
      | none => simp [hget] at h
      | some v =>
        simp only [hget] at h
        rcases List.mem_cons.mp hp with rfl | hp'
        · simp [hget]
        · exact ih h p hp' hreq
    · simp only [hq, Bool.false_eq_true, if_false] at h
      rcases List.mem_cons.mp hp with rfl | hp'
      · exact absurd hreq hq
      · exact ih h p hp' hreq

/-- Validation for several nodes passes only if every required parameter is given
or is one of the generated node identifiers. -/
theorem validateEach_multi (params : GoMap String) (ps : List TemplateParameter)
    (h : validateEach params true ps = .ok ()) :
    ∀ p ∈ ps, p.Required = true →
      (params.get p.Name).isSome = true ∨ p.Name = "WorkerID" ∨ p.Name = "EdgeID" := by
  induction ps with
  | nil => intro p hp; cases hp
  | cons q rest ih =>
    intro p hp hreq
    unfold validateEach at h
    by_cases hq : q.Required = true
    · simp only [hq, if_true] at h
      cases hget : params.get q.Name with
      | none =>
        simp only [hget, Bool.true_and] at h
        by_cases hid : q.Name = "WorkerID" ∨ q.Name = "EdgeID"
        · rcases List.mem_cons.mp hp with rfl | hp'
          · exact Or.inr hid
          · have hcond : (decide (q.Name = "WorkerID") || decide (q.Name = "EdgeID")) = true := by
              simpa using hid
            rw [if_pos hcond] at h
            exact ih h p hp' hreq
        · have hcond : ¬ (decide (q.Name = "WorkerID") || decide (q.Name = "EdgeID")) = true := by
            simpa using hid
          rw [if_neg hcond] at h
          cases h
      | some v =>
        simp only [hget] at h
        rcases List.mem_cons.mp hp with rfl | hp'
        · simp [hget]
        · exact ih h p hp' hreq
    · simp only [hq, Bool.false_eq_true, if_false] at h
      rcases List.mem_cons.mp hp with rfl | hp'
      · exact absurd hreq hq
      · exact ih h p hp' hreq

/-- The single-file branch executes the template with the parameters as given. -/
theorem generateSingleFile_params (sys : System) (text : String) (config : TemplateConfig) :
    ∀ e ∈ (generateSingleFile sys text config).executions, e.params = config.Parameters := by
  intro e he
  unfold generateSingleFile at he
  simp only at he
  split at he
  · cases he
  · simp only [List.mem_singleton] at he
    rw [he]

/-- The loop over the nodes executes the template with the parameters of a node. -/
theorem generateNodes_params (sys : System) (text : String) (config : TemplateConfig)
    (nodes : List Nat) :
    ∀ e ∈ (generateNodes sys text config nodes).executions,
      ∃ i, e.params = nodeParameters config i := by
  induction nodes with
  | nil => intro e he; cases he
  | cons i rest ih =>
    intro e he
    unfold generateNodes at he
    simp only at he
    split at he
    · cases he
    · split at he
      · simp only [List.mem_singleton] at he
        exact ⟨i, by rw [he]⟩
      · rcases List.mem_cons.mp he with h | h
        · exact ⟨i, by rw [h]⟩
        · exact ih e h

/-- In each built-in template, a parameter named `WorkerID` or `EdgeID` is the node
identifier that the loop over the nodes generates for a template of that name. -/
theorem builtin_node_ids (dir name : String) (tmpl : ConfigTemplate)
    (hget : (NewConfigGenerator dir).templates.get name = some tmpl) :
    ∀ p ∈ tmpl.Parameters,
      (p.Name = "WorkerID" → stringsContains name "worker" = true) ∧
      (p.Name = "EdgeID" →
        stringsContains name "worker" = false ∧ stringsContains name "edge" = true) := by
  by_cases h1 : name = "dev-single-node"
  · subst h1
    have h : some _ = some tmpl := hget
    cases h
    intro p hp; cases hp
  by_cases h2 : name = "dev-mesh-controller"
  · subst h2
    have h : some _ = some tmpl := hget
    cases h
    intro p hp; cases hp
  by_cases h3 : name = "dev-mesh-worker"
  · subst h3
    have h : some _ = some tmpl := hget
    cases h
    intro p hp
    simp only [List.mem_cons, List.mem_singleton, List.not_mem_nil, or_false] at hp
    rcases hp with rfl | rfl <;> decide
  by_cases h4 : name = "prod-controller"
  · subst h4
    have h : some _ = some tmpl := hget
    cases h
    intro p hp; cases hp
  by_cases h5 : name = "prod-worker"
  · subst h5
    have h : some _ = some tmpl := hget
    cases h
    intro p hp
    simp only [List.mem_cons, List.mem_singleton, List.not_mem_nil, or_false] at hp
    rcases hp with rfl | rfl <;> decide
  by_cases h6 : name = "prod-edge"
  · subst h6
    have h : some _ = some tmpl := hget
    cases h
    intro p hp
    simp only [List.mem_cons, List.mem_singleton, List.not_mem_nil, or_false] at hp
    rcases hp with rfl | rfl <;> decide
  have hnone : (NewConfigGenerator dir).templates.get name = none := by
    simp [NewConfigGenerator, loadTemplates, GoMap.get_set, GoMap.get, GoMap.empty, GoMap.find,
      Ne.symm h1, Ne.symm h2, Ne.symm h3, Ne.symm h4, Ne.symm h5, Ne.symm h6]
  rw [hnone] at hget
  cases hget

/-- Outside the case of several nodes with a single output path, validation that
passes does mean that every template execution of `Generate` is handed a value for
every required parameter of the selected template. -/
theorem required_present_unless_single_output (dir : String) (sys : System)
    (config : TemplateConfig) (tmpl : ConfigTemplate)
    (hget : (NewConfigGenerator dir).templates.get config.Template = some tmpl)
    (hvalid : validateParameters tmpl config.Parameters (decide (config.Nodes > 1)) = .ok ())
    (hcase : ¬ (config.Nodes > 1 ∧ config.OutputPath ≠ "")) :
    ∀ e ∈ (Generate (NewConfigGenerator dir) sys config).executions,
      allRequiredPresent tmpl e.params = true := by
  intro e he
  unfold Generate at he
  rw [hget] at he
  simp only [hvalid] at he
  simp only [allRequiredPresent, List.all_eq_true, Bool.or_eq_true, Bool.not_eq_true']
  intro p hp
  by_cases hreq : p.Required = true
  swap
  · exact Or.inl (by simpa using hreq)
  refine Or.inr ?_
  split at he
  · cases he
  · split at he
    · cases he
    · split at he
      · -- single file
        rename_i hbranch
        have hparams := generateSingleFile_params sys _ config e he
        rw [hparams]
        have hnot : ¬ config.Nodes > 1 := by
          intro hgt
          rcases hbranch with h1 | h2
          · omega
          · exact hcase ⟨hgt, h2⟩
        have hdec : decide (config.Nodes > 1) = false := by simpa using hnot
        rw [hdec] at hvalid
        exact validateEach_strict _ _ hvalid p hp hreq
      · -- several files
        rename_i hbranch
        unfold generateMultipleFiles at he
        split at he
        · cases he
        · split at he
          · cases he
          · obtain ⟨i, hi⟩ := generateNodes_params sys _ config _ e he
            rw [hi]
            by_cases hgt : config.Nodes > 1
            · have hdec : decide (config.Nodes > 1) = true := by simpa using hgt
              rw [hdec] at hvalid
              rcases validateEach_multi _ _ hvalid p hp hreq with h | h | h
              · exact nodeParameters_keeps config i _ h
              · rw [h]
                exact (nodeParameters_generated config i).1
                  ((builtin_node_ids dir _ tmpl hget p hp).1 h)
              · rw [h]
                obtain ⟨hw, hedge⟩ := (builtin_node_ids dir _ tmpl hget p hp).2 h
                exact (nodeParameters_generated config i).2 hw hedge
            · have hdec : decide (config.Nodes > 1) = false := by simpa using hgt
              rw [hdec] at hvalid
              exact nodeParameters_keeps config i _
                (validateEach_strict _ _ hvalid p hp hreq)

end ConfigGen

end MCP
